import Mathlib

/-!
# certTools: decodeCert and deleteCert

A shallow embedding of the line-processing loops of `src/decodeCert.cc` and
`src/deleteCert.cc`, followed by theorems about them.

Modelling conventions

* A C string is a `List Char` (no NUL inside). `Line` is one string returned by
  `fgets`: a text line with its line terminator still attached (or a chunk of at
  most 4095 characters of a longer line). A file or pipe that is read is the
  list of the strings `fgets` returns until it yields `NULL`.
* A file or stream that is written is the list of the strings `s` written by
  `fprintf (f, "%s\n", s)`, each of which is followed by one newline on disk;
  `fprintf (f, "\n")` writes the empty string followed by one newline.
  `render` gives the bytes.
* The per-certificate arrays of `deleteOneCert` are maps from index to content;
  every access computes the index `totalCount - 1` and the step has no result
  (`none`) when that index lies outside `0 .. MAXIMUM_CERTIFICATES - 1`, where
  the C program would touch memory outside the array. A row of the text arrays
  has `MAXIMUM_LENGTH` characters: `deleteStep` gives the texts the rows hold
  when every `strcpy` and `strcat` of the iteration fits its row, and `stepFits`
  tells whether it does; a copy that does not fit writes beyond its row. In the
  part of `deleteOneCert` after the loop the variables may hold any values, and
  the value of a map at an index beyond 15 stands for what the memory behind
  the array holds.
* Library and external-program behaviour (`strptime`, `mktime`, `strftime`, the
  `openssl` child process, the wall clock) enters as parameters.
* The file system is a map from resolved path names to regular files (bytes,
  mode word, owner, group). `rename`, `fopen`, `fstat`, `fchmod`, `fchown` and
  `chmod` act on it as POSIX describes; a call may also fail for a reason the
  map does not show (permissions of a directory, a full table), which is given
  by a flag per call. The children started with `popen` are parameters.
-/

namespace CertTools

/-- One C string, as returned by `fgets` or held in a `char` buffer. -/
abbrev Line := List Char

/-! ## String helpers of the C library -/

/-- The marker compared with `strcmp` when outside a certificate. -/
def BEGIN_CERTIFICATE : Line := "-----BEGIN CERTIFICATE-----".toList

/-- The marker compared with `strcmp` when inside a certificate. -/
def END_CERTIFICATE : Line := "-----END CERTIFICATE-----".toList

/-- The characters `trim` removes: blank, tab, newline, carriage return, form feed. -/
def isTrimChar (c : Char) : Bool :=
  c == ' ' || c == Char.ofNat 9 || c == Char.ofNat 10 || c == Char.ofNat 13 || c == Char.ofNat 12

/-- The loop of `trim`: `k` is `i + 1` for the C index `i`, so `k = 0` is `i < 0`;
while `buffer[i]` is one of the five characters it is overwritten by NUL and `i`
decreases; what is left is the first `i + 1` characters. -/
def trimLoop (buffer : Line) : Nat → Line
  | 0 => []
  | k + 1 =>
    match buffer[k]? with
    | some c => if isTrimChar c then trimLoop buffer k else buffer.take (k + 1)
    | none => buffer.take (k + 1)

/-- The function `trim` (identical in both source files): starts at `strlen (buffer) - 1`. -/
def trim (buffer : Line) : Line := trimLoop buffer buffer.length

/-- The call `strstr (hay, needle)`: the suffix of `hay` that starts at the first
occurrence of `needle`, or `none` for `NULL`. -/
def strstr : Line → Line → Option Line
  | [], needle => if needle.isPrefixOf [] then some [] else none
  | c :: cs, needle => if needle.isPrefixOf (c :: cs) then some (c :: cs) else strstr cs needle

/-- The test `strncmp (a, b, n) == 0`. -/
def strncmpEq (a b : Line) (n : Nat) : Bool := decide (a.take n = b.take n)

/-- The test `strcasecmp (a, b) == 0`: equal length and equal characters after `tolower`. -/
def strcasecmpEq : Line → Line → Bool
  | [], [] => true
  | a :: as, b :: bs => a.toLower == b.toLower && strcasecmpEq as bs
  | _, _ => false

/-- The bytes of a written file: every written string is followed by one newline. -/
def render (written : List Line) : List Char :=
  written.flatMap (fun s => s ++ [Char.ofNat 10])

/-- An update of one array element. -/
def setAt {α : Type} (arr : Nat → α) (k : Nat) (v : α) : Nat → α :=
  fun j => if j = k then v else arr j

/-! ## decodeCert: `parse_openssl` -/

/-- The time functions of the C library used by `parse_openssl`, over an abstract
`struct tm`. `strptime text tm` is `strptime (text, "%b %e %T %Y %Z", &tm)`: it
returns the structure as the call leaves it (on a failed parse the fields not yet
reached keep their old content). `mktime` returns the time together with the
normalised structure. -/
structure TimeLib (Tm : Type) where
  strptime : Line → Tm → Tm
  mktime : Tm → Int × Tm
  strftime : Tm → Line

/-- The option flags of one `decodeCert` run. -/
structure DecodeOpts where
  opt_debug : Bool
  opt_path : Bool
  opt_verbose : Bool

/-- The local variables of `parse_openssl` that live across loop iterations, and
the lines printed on `stdout`. -/
structure ParseState (Tm : Type) where
  validity_buffer : Line
  before_buffer : Line
  parsed_time_struct : Tm
  out : List Line

/-- The text appended when `parsed > now` on the not-before line. -/
def NOT_YET_VALID : Line := " *** NOT YET VALID ***".toList

/-- The text appended when `parsed < now` on the not-after line. -/
def EXPIRED : Line := " *** EXPIRED ***".toList

/-- One iteration of the `while (fgets ...)` loop of `parse_openssl`; `now` is the
value stored by `time (&now)` at the start of the call. -/
def parseStep {Tm : Type} (lib : TimeLib Tm) (o : DecodeOpts) (now : Int) (s : ParseState Tm)
    (raw : Line) : ParseState Tm :=
  let buffer := trim raw
  if o.opt_verbose then
    { s with out := s.out ++ [buffer] }
  else if strncmpEq buffer "========".toList 8
      || (strstr buffer "Issuer:".toList).isSome
      || (strstr buffer "Subject:".toList).isSome then
    { s with out := s.out ++ [buffer] }
  else
    match strstr buffer "Validity".toList with
    | some _ => { s with validity_buffer := buffer }
    | none =>
      match strstr buffer "Not Before: ".toList with
      | some cp =>
        let tm1 := lib.strptime (cp.drop 12) s.parsed_time_struct
        let (parsed, tm2) := lib.mktime tm1
        let vb := if parsed > now then s.validity_buffer ++ NOT_YET_VALID else s.validity_buffer
        let dbg :=
          if o.opt_debug then
            ["*** PARSED NOT BEFORE (".toList ++ cp.drop 12 ++ "): ".toList ++ lib.strftime tm2]
          else []
        { validity_buffer := vb, before_buffer := buffer, parsed_time_struct := tm2,
          out := s.out ++ dbg }
      | none =>
        match strstr buffer "Not After : ".toList with
        | some cp =>
          let tm1 := lib.strptime (cp.drop 12) s.parsed_time_struct
          let (parsed, tm2) := lib.mktime tm1
          let vb := if parsed < now then s.validity_buffer ++ EXPIRED else s.validity_buffer
          let dbg :=
            if o.opt_debug then
              ["*** PARSED NOT AFTER (".toList ++ cp.drop 12 ++ "): ".toList ++ lib.strftime tm2]
            else []
          { validity_buffer := vb, before_buffer := s.before_buffer, parsed_time_struct := tm2,
            out := s.out ++ dbg ++ [vb, s.before_buffer, buffer] }
        | none => s

/-- The loop of `parse_openssl` over the strings read from the pipe. -/
def parseLoop {Tm : Type} (lib : TimeLib Tm) (o : DecodeOpts) (now : Int) (s : ParseState Tm)
    (pipe : List Line) : ParseState Tm :=
  pipe.foldl (parseStep lib o now) s

/-- The function `parse_openssl`: `uninit` is the content of the uninitialised
locals at entry, its `out` field is ignored; the result is what the call prints. -/
def parse_openssl {Tm : Type} (lib : TimeLib Tm) (o : DecodeOpts) (now : Int)
    (uninit : ParseState Tm) (pipe : List Line) : List Line :=
  (parseLoop lib o now { uninit with out := [] } pipe).out

/-! ## decodeCert: the segmenter loop of `decodeOneCert` -/

/-- What surrounds the loop of `decodeOneCert`: the library, the options, the
name printed in headers, the output of the `openssl x509 -in tempFile -text -noout`
child for a given content of the temporary file, the clock reading of the
`parse_openssl` call for certificate number `count`, and the uninitialised locals
of each `parse_openssl` call. -/
structure DecodeEnv (Tm : Type) where
  lib : TimeLib Tm
  opts : DecodeOpts
  certfile : Line
  openssl : List Line → List Line
  clock : Nat → Int
  uninit : ParseState Tm

/-- The variables of the loop of `decodeOneCert`: `outFile` is the content of the
temporary file being written, `blocks` logs, for every `popen` of the decoder,
the value of `count` and the content of the temporary file handed to it. -/
structure DecodeState where
  count : Nat
  inCert : Bool
  outFile : List Line
  blocks : List (Nat × List Line)
  stdout : List Line

/-- The header line `"======== %s, Certificate %d"`. -/
def certHeader (certfile : Line) (count : Nat) : Line :=
  "======== ".toList ++ certfile ++ ", Certificate ".toList ++ (Nat.repr count).toList

/-- One iteration of the `while (fgets ...)` loop of `decodeOneCert`. -/
def decodeStep {Tm : Type} (env : DecodeEnv Tm) (s : DecodeState) (raw : Line) : DecodeState :=
  let buffer := trim raw
  if s.inCert then
    let written := s.outFile ++ [buffer]
    if buffer = END_CERTIFICATE then
      { count := s.count, inCert := false, outFile := written,
        blocks := s.blocks ++ [(s.count, written)],
        stdout := s.stdout ++ parse_openssl env.lib env.opts (env.clock s.count) env.uninit (env.openssl written) }
    else
      { s with outFile := written }
  else if buffer = BEGIN_CERTIFICATE then
    { count := s.count + 1, inCert := true, outFile := [buffer], blocks := s.blocks,
      stdout := s.stdout ++ [certHeader env.certfile (s.count + 1)] }
  else s

/-- The loop of `decodeOneCert` over the strings read from the bundle file. -/
def decodeLoop {Tm : Type} (env : DecodeEnv Tm) (s : DecodeState) (file : List Line) :
    DecodeState :=
  file.foldl (decodeStep env) s

/-- The loop variables at the first iteration: `count = 0`, `inCert = false`, nothing printed. -/
def decodeInit : DecodeState :=
  { count := 0, inCert := false, outFile := [], blocks := [], stdout := [] }

/-- The function `decodeOneCert` for the file opened by `fopen (filename, "r")`
(`none` when `fopen` returns `NULL`): the lines printed on `stdout`, with the
closing line when more than one certificate was counted, and those printed on
`stderr`. -/
def decodeOneCert {Tm : Type} (env : DecodeEnv Tm) (my_name errText filename : Line)
    (file : Option (List Line)) : List Line × List Line :=
  match file with
  | none =>
    ([], [my_name ++ ": fopen (".toList ++ filename ++ ") failed <".toList ++ errText ++
      ">".toList])
  | some lines =>
    let s := decodeLoop env decodeInit lines
    (s.stdout ++
      (if s.count > 1 then
        ["######## ".toList ++ env.certfile ++ ", ".toList ++ (Nat.repr s.count).toList ++
          " Certificates in File".toList]
      else []), [])

/-! ## Shape of a bundle of well-formed certificates -/

/-- One certificate of a bundle as `fgets` delivers it: the begin-marker line, the
body lines, the end-marker line. -/
structure Cert where
  beginLine : Line
  body : List Line
  endLine : Line

/-- The lines of a certificate from its begin marker through its end marker. -/
def Cert.lines (c : Cert) : List Line := c.beginLine :: (c.body ++ [c.endLine])

/-- A certificate is well formed when its first line is a begin marker, its last
line is an end marker, and no body line is an end marker, each as the loops
recognise markers (`strcmp` after `trim`). -/
def Cert.WellFormed (c : Cert) : Prop :=
  trim c.beginLine = BEGIN_CERTIFICATE ∧ (∀ l ∈ c.body, trim l ≠ END_CERTIFICATE) ∧
    trim c.endLine = END_CERTIFICATE

/-- Lines that lie between certificates: none of them is a begin marker. -/
def IsGap (gap : List Line) : Prop := ∀ l ∈ gap, trim l ≠ BEGIN_CERTIFICATE

/-- The line sequence of a bundle: before each certificate come the lines of a gap,
after the last certificate the lines of `last`. -/
def bundleLines : List (List Line × Cert) → List Line → List Line
  | [], last => last
  | (gap, c) :: rest, last => gap ++ (c.lines ++ bundleLines rest last)

/-- A bundle of well-formed certificates. -/
def WellFormedBundle (b : List (List Line × Cert)) (last : List Line) : Prop :=
  (∀ p ∈ b, IsGap p.1 ∧ p.2.WellFormed) ∧ IsGap last

instance (c : Cert) : Decidable c.WellFormed :=
  inferInstanceAs (Decidable (trim c.beginLine = BEGIN_CERTIFICATE ∧
    (∀ l ∈ c.body, trim l ≠ END_CERTIFICATE) ∧ trim c.endLine = END_CERTIFICATE))

instance (gap : List Line) : Decidable (IsGap gap) :=
  inferInstanceAs (Decidable (∀ l ∈ gap, trim l ≠ BEGIN_CERTIFICATE))

instance (b : List (List Line × Cert)) (last : List Line) : Decidable (WellFormedBundle b last) :=
  inferInstanceAs (Decidable ((∀ p ∈ b, IsGap p.1 ∧ p.2.WellFormed) ∧ IsGap last))

/-- The lines of a certificate as the loops hold them in `buffer` after `trim`. -/
def Cert.trimmed (c : Cert) : List Line := c.lines.map trim

/-! ## deleteCert: `parseNames` -/

/-- The assignment `*dp = 0` at `dp = strstr (s, needle)`: the string is cut where
`needle` first occurs, and is left as it is when `strstr` returns `NULL`. -/
def cutAt (s needle : Line) : Line :=
  match strstr s needle with
  | none => s
  | some rest => s.take (s.length - rest.length)

/-- The function `parseNames`: the pair (`organizationName`, `commonName`) it stores. -/
def parseNames (buffer : Line) : Line × Line :=
  let organizationName :=
    match strstr buffer "O = ".toList with
    | none => []
    | some cp => cutAt (cp.drop 4) ", CN =".toList
  let commonName :=
    match strstr buffer "CN = ".toList with
    | none => []
    | some cp => cp.drop 5
  (organizationName, commonName)

/-! ## deleteCert: the filter loop of `editCertFile` -/

/-- The variables of the loop of `editCertFile`; `outFile` lists the strings written. -/
structure EditState where
  count : Nat
  inCert : Bool
  blankLineNeeded : Bool
  outFile : List Line

/-- The read `removeFlags [count - 1]`; no result when the index is `-1` or lies
beyond the entries of the mask. -/
def flagAt (removeFlags : List Bool) (count : Nat) : Option Bool :=
  if count = 0 then none else removeFlags[count - 1]?

/-- One iteration of the `while (fgets ...)` loop of `editCertFile`. -/
def editStep (removeFlags : List Bool) (s : EditState) (raw : Line) : Option EditState :=
  let buffer := trim raw
  if s.inCert then
    match flagAt removeFlags s.count with
    | none => none
    | some r =>
      let written := if !r then s.outFile ++ [buffer] else s.outFile
      if buffer = END_CERTIFICATE then
        some { count := s.count, inCert := false,
               blankLineNeeded := if !r then true else s.blankLineNeeded, outFile := written }
      else
        some { s with outFile := written }
  else if buffer = BEGIN_CERTIFICATE then
    match flagAt removeFlags (s.count + 1) with
    | none => none
    | some r =>
      if !r then
        if s.blankLineNeeded then
          some { count := s.count + 1, inCert := true, blankLineNeeded := false,
                 outFile := s.outFile ++ [[], buffer] }
        else
          some { count := s.count + 1, inCert := true, blankLineNeeded := s.blankLineNeeded,
                 outFile := s.outFile ++ [buffer] }
      else
        some { s with count := s.count + 1, inCert := true }
  else some s

/-- The loop of `editCertFile` over the strings read from the backup file. -/
def editLoop (removeFlags : List Bool) : EditState → List Line → Option EditState
  | s, [] => some s
  | s, raw :: rest =>
    match editStep removeFlags s raw with
    | none => none
    | some s1 => editLoop removeFlags s1 rest

/-- The loop variables at the first iteration. -/
def editInit : EditState :=
  { count := 0, inCert := false, blankLineNeeded := false, outFile := [] }

/-- The strings `editCertFile` writes to the new file for a given input. -/
def editWritten (removeFlags : List Bool) (file : List Line) : Option (List Line) :=
  (editLoop removeFlags editInit file).map (fun s => s.outFile)

/-! ## deleteCert: the selection loop of `deleteOneCert` -/

/-- The constant `MAXIMUM_CERTIFICATES`. -/
def MAXIMUM_CERTIFICATES : Nat := 16

/-- The option variables read by the loop of `deleteOneCert`; `delete_number` is
`-1` when no `-n` option was given. -/
structure DeleteOpts where
  delete_number : Int
  opt_issuer : Line
  opt_subject : Line
  opt_expired : Bool

/-- The variables of the loop of `deleteOneCert`; the five arrays are maps from
index to content. -/
structure DeleteState where
  totalCount : Nat
  deleteCount : Nat
  issuer : Nat → Line
  validity_message : Nat → Line
  validity_range : Nat → Line
  subject : Nat → Line
  remove : Nat → Bool

/-- The index `totalCount - 1` of an array access; no result when it lies outside
`0 .. MAXIMUM_CERTIFICATES - 1`. -/
def slot (totalCount : Nat) : Option Nat :=
  if 1 ≤ totalCount ∧ totalCount ≤ MAXIMUM_CERTIFICATES then some (totalCount - 1) else none

/-- The two statements `remove [totalCount - 1] = true; deleteCount++;`. -/
def markAt (s : DeleteState) (k : Nat) : DeleteState :=
  { s with remove := setAt s.remove k true, deleteCount := s.deleteCount + 1 }

/-- One iteration of the `while (fgets ...)` loop of `deleteOneCert`: no result
when the index `totalCount - 1` lies outside the arrays; the texts stored in the
rows are those of copies that fit a row of `MAXIMUM_LENGTH` characters, which
the code does not check and `stepFits` tells. -/
def deleteStep (o : DeleteOpts) (s : DeleteState) (raw : Line) : Option DeleteState :=
  let buffer := trim raw
  if strncmpEq buffer "========".toList 8 then
    match slot (s.totalCount + 1) with
    | none => none
    | some k =>
      let s1 : DeleteState :=
        { totalCount := s.totalCount + 1, deleteCount := s.deleteCount,
          issuer := setAt s.issuer k [], validity_message := setAt s.validity_message k [],
          validity_range := setAt s.validity_range k [], subject := setAt s.subject k [],
          remove := setAt s.remove k false }
      if ((s1.totalCount : Int) = o.delete_number) ∧ s1.remove k = false then
        some (markAt s1 k)
      else some s1
  else
    match strstr buffer "Issuer: ".toList with
    | some cp =>
      match slot s.totalCount with
      | none => none
      | some k =>
        let s1 := { s with issuer := setAt s.issuer k (cp.drop 8) }
        if s1.remove k = false then
          let names := parseNames (s1.issuer k)
          if o.opt_issuer ≠ [] ∧
              (strcasecmpEq names.1 o.opt_issuer ∨ strcasecmpEq names.2 o.opt_issuer) then
            some (markAt s1 k)
          else some s1
        else some s1
    | none =>
      match strstr buffer "Validity".toList with
      | some cp =>
        if 8 < cp.length then
          match slot s.totalCount with
          | none => none
          | some k =>
            let s1 := { s with validity_message := setAt s.validity_message k (cp.drop 9) }
            if o.opt_expired = true ∧ s1.remove k = false then some (markAt s1 k) else some s1
        else some s
      | none =>
        match strstr buffer "Not Before: ".toList with
        | some cp =>
          match slot s.totalCount with
          | none => none
          | some k => some { s with validity_range := setAt s.validity_range k (cp.drop 12) }
        | none =>
          match strstr buffer "Not After : ".toList with
          | some cp =>
            match slot s.totalCount with
            | none => none
            | some k =>
              let range := s.validity_range k ++ " - ".toList ++ cp.drop 12
              some { s with validity_range := setAt s.validity_range k range }
          | none =>
            match strstr buffer "Subject: ".toList with
            | some cp =>
              match slot s.totalCount with
              | none => none
              | some k =>
                let s1 := { s with subject := setAt s.subject k (cp.drop 9) }
                if s1.remove k = false then
                  let names := parseNames (s1.subject k)
                  if o.opt_subject ≠ [] ∧
                      (strcasecmpEq names.1 o.opt_subject ∨ strcasecmpEq names.2 o.opt_subject) then
                    some (markAt s1 k)
                  else some s1
                else some s1
            | none => some s

/-- The loop of `deleteOneCert` over the strings read from the `decodeCert` pipe. -/
def deleteLoop (o : DeleteOpts) : DeleteState → List Line → Option DeleteState
  | s, [] => some s
  | s, raw :: rest =>
    match deleteStep o s raw with
    | none => none
    | some s1 => deleteLoop o s1 rest

/-- The loop variables at the first iteration: `totalCount = 0`, `deleteCount = 0`;
the arrays are uninitialised and hold what `uninit` holds. -/
def deleteInit (uninit : DeleteState) : DeleteState :=
  { uninit with totalCount := 0, deleteCount := 0 }

/-- The number of records currently marked: the indices below `totalCount` whose
`remove` entry is true. -/
def markedCount (s : DeleteState) : Nat :=
  ((List.range s.totalCount).filter (fun k => s.remove k)).length

/-- The removal mask over the records read so far. -/
def removalMask (s : DeleteState) : List Bool :=
  (List.range s.totalCount).map (fun k => s.remove k)

/-! ## Statement vocabulary for the rewriter -/

/-- The bytes of a certificate block as read: its strings from `fgets`, in order. -/
def Cert.bytes (c : Cert) : List Char := c.lines.flatten

/-- A line that ends in exactly one newline with no other trailing white space:
`trim` followed by the newline of `fprintf` gives the line back. -/
def IsPlainLine (l : Line) : Prop := l = trim l ++ [Char.ofNat 10]

instance (l : Line) : Decidable (IsPlainLine l) :=
  inferInstanceAs (Decidable (l = trim l ++ [Char.ofNat 10]))

/-- The blocks of the certificates whose mask entry is false, in file order. -/
def keptBlocks (mask : List Bool) (certs : List Cert) : List (List Line) :=
  ((certs.zip mask).filter (fun p => !p.2)).map (fun p => p.1.trimmed)

/-- What the filter loop appends for a list of kept blocks when `blankLineNeeded`
has the value `blank` before the first of them. -/
def emitBlocks : Bool → List (List Line) → List Line
  | _, [] => []
  | blank, k :: ks => (if blank then [[]] else []) ++ (k ++ emitBlocks true ks)

/-! ## Shape of a decoder record stream -/

/-- A line the loop of `deleteOneCert` takes as the header of a new record:
`strncmp (buffer, "========", 8) == 0` after `trim`. -/
def IsHeader (raw : Line) : Prop := strncmpEq (trim raw) "========".toList 8 = true

instance (raw : Line) : Decidable (IsHeader raw) :=
  inferInstanceAs (Decidable (strncmpEq (trim raw) "========".toList 8 = true))

/-- The lines `decodeCert` prints for one certificate: the header line and the
lines that follow it up to the next header. -/
structure Record where
  header : Line
  rest : List Line

/-- A record starts with a header line and holds no other header line. -/
def Record.WellFormed (r : Record) : Prop := IsHeader r.header ∧ ∀ l ∈ r.rest, ¬ IsHeader l

instance (r : Record) : Decidable r.WellFormed :=
  inferInstanceAs (Decidable (IsHeader r.header ∧ ∀ l ∈ r.rest, ¬ IsHeader l))

/-- The record stream read from the pipe: the lines of the records in order. -/
def recordLines : List Record → List Line
  | [] => []
  | r :: rs => r.header :: (r.rest ++ recordLines rs)

/-- The options of a run with only a target position: `-n P`, no `-i`, no `-s`, no `-e`. -/
def positionOnly (P : Int) : DeleteOpts :=
  { delete_number := P, opt_issuer := [], opt_subject := [], opt_expired := false }

/-- What a step on a line that is not a header does to the counters and the marks. -/
def StepFrame (o : DeleteOpts) (s s1 : DeleteState) : Prop :=
  s1.totalCount = s.totalCount ∧
    ((s1.remove = s.remove ∧ s1.deleteCount = s.deleteCount) ∨
     ((1 ≤ s.totalCount ∧ s.totalCount ≤ MAXIMUM_CERTIFICATES) ∧
      s.remove (s.totalCount - 1) = false ∧
      s1.remove = setAt s.remove (s.totalCount - 1) true ∧
      s1.deleteCount = s.deleteCount + 1 ∧
      (o.opt_issuer ≠ [] ∨ o.opt_subject ≠ [] ∨ o.opt_expired = true)))

/-- A line in which the loop of `deleteOneCert` finds none of the texts `Issuer: `,
`Validity` and `Subject: `. -/
def NoFieldText (raw : Line) : Prop :=
  strstr (trim raw) "Issuer: ".toList = none ∧ strstr (trim raw) "Validity".toList = none ∧
    strstr (trim raw) "Subject: ".toList = none

instance (raw : Line) : Decidable (NoFieldText raw) :=
  inferInstanceAs (Decidable (strstr (trim raw) "Issuer: ".toList = none ∧
    strstr (trim raw) "Validity".toList = none ∧ strstr (trim raw) "Subject: ".toList = none))

/-- A record for which the decoder produced no issuer, subject or validity line. -/
def Record.DecodeFailure (r : Record) : Prop := ∀ l ∈ r.rest, NoFieldText l

instance (r : Record) : Decidable r.DecodeFailure :=
  inferInstanceAs (Decidable (∀ l ∈ r.rest, NoFieldText l))

/-! ## Lines of the decoder report as `parse_openssl` tells them apart -/

/-- The first test of the non-verbose branch of `parse_openssl`: the line is printed
as it is. -/
def echoed (buffer : Line) : Bool :=
  strncmpEq buffer "========".toList 8
    || (strstr buffer "Issuer:".toList).isSome
    || (strstr buffer "Subject:".toList).isSome

/-- A line that reaches the `Validity` branch of `parse_openssl`. -/
def IsValidityLine (raw : Line) : Prop :=
  echoed (trim raw) = false ∧ (strstr (trim raw) "Validity".toList).isSome = true

instance (raw : Line) : Decidable (IsValidityLine raw) :=
  inferInstanceAs (Decidable (echoed (trim raw) = false ∧
    (strstr (trim raw) "Validity".toList).isSome = true))

/-- The text `cp + 12` of a line that reaches the `Not Before: ` branch of
`parse_openssl`. -/
def notBeforeText (raw : Line) : Option Line :=
  if echoed (trim raw) then none
  else
    match strstr (trim raw) "Validity".toList with
    | some _ => none
    | none => (strstr (trim raw) "Not Before: ".toList).map (fun cp => cp.drop 12)

/-- The text `cp + 12` of a line that reaches the `Not After : ` branch of
`parse_openssl`. -/
def notAfterText (raw : Line) : Option Line :=
  if echoed (trim raw) then none
  else
    match strstr (trim raw) "Validity".toList with
    | some _ => none
    | none =>
      match strstr (trim raw) "Not Before: ".toList with
      | some _ => none
      | none => (strstr (trim raw) "Not After : ".toList).map (fun cp => cp.drop 12)

/-! ## Distinguished names as component lists -/

/-- The text of a distinguished name: its `key = value` components separated by
a comma and a blank. -/
def renderDN (components : List (Line × Line)) : Line :=
  ", ".toList.intercalate (components.map (fun kv => kv.1 ++ " = ".toList ++ kv.2))

/-- The value of the first component with the given key, empty when there is none. -/
def dnValue (components : List (Line × Line)) (key : Line) : Line :=
  match components.find? (fun kv => kv.1 == key) with
  | some kv => kv.2
  | none => []

/-! ## Files, paths and system calls -/

/-- One regular file: its bytes, the `st_mode` word (file type and the twelve
mode bits), and its owner and group. -/
structure File where
  content : List Char
  st_mode : Nat
  st_uid : Nat
  st_gid : Nat
deriving DecidableEq

/-- The files of the file system, by resolved path name; `none` where no file is. -/
abbrev FileSystem := Line → Option File

/-- What surrounds the system calls of `deleteCert`: the program name printed in
error messages, the working directory, the file a path name resolves to, the
text of `sys_errlist [errno]` after a failed call (by call site), the mode word,
owner and group a file created by `fopen (..., "w")` gets, the content of an
uninitialised `struct stat` and of the uninitialised arrays of `deleteOneCert`,
and the strings `fgets` reads from the pipe of a
`popen` child (`none` when `popen` returns `NULL`). -/
structure SysEnv where
  my_name : Line
  wd : Line
  resolve : Line → Line
  errText : Nat → Line
  creat_mode : Nat
  euid : Nat
  egid : Nat
  uninit_stat : Nat × Nat × Nat
  uninit_state : DeleteState
  popen : Line → FileSystem → Option (List Line)

/-- The strings successive `fgets (buffer, size, f)` calls return for the bytes of
a file: each ends after a newline or when `size - 1` characters are read; `acc`
holds the characters of the string being read. -/
def fgetsLines (size : Nat) : List Char → Line → List Line
  | [], acc => if acc = [] then [] else [acc]
  | c :: cs, acc =>
    if c = Char.ofNat 10 ∨ acc.length + 1 = size - 1 then
      (acc ++ [c]) :: fgetsLines size cs []
    else fgetsLines size cs (acc ++ [c])

/-- The file system with the file at a resolved path replaced. -/
def putFile (fs : FileSystem) (key : Line) (file : Option File) : FileSystem :=
  fun p => if p = key then file else fs p

/-- A successful `rename (a, b)`: the file named `a` is afterwards named `b`, in
place of any file that had this name; `none` when no file is named `a`. -/
def renameFile (env : SysEnv) (fs : FileSystem) (a b : Line) : Option FileSystem :=
  match fs (env.resolve a) with
  | none => none
  | some file => some (putFile (putFile fs (env.resolve a) none) (env.resolve b) (some file))

/-- The mode word after `chmod` or `fchmod` with argument `mode`: the twelve mode
bits are replaced, the file type is kept. -/
def chmodWord (st_mode mode : Nat) : Nat := (st_mode / 4096) * 4096 + mode % 4096

/-- The mask `S_IRUSR | S_IXUSR | S_IRGRP | S_IXGRP | S_IROTH | S_IXOTH`. -/
def READ_EXEC_MASK : Nat := 0o400 ||| 0o100 ||| 0o040 ||| 0o010 ||| 0o004 ||| 0o001

/-- The mask `S_IRWXU | S_IRWXG | S_IRWXO`. -/
def RWX_MASK : Nat := 0o700 ||| 0o070 ||| 0o007

/-- The message `"%s: rename (%s, %s) failed <%s>"`. -/
def renameFailed (env : SysEnv) (site : Nat) (a b : Line) : Line :=
  env.my_name ++ ": rename (".toList ++ a ++ ", ".toList ++ b ++ ") failed <".toList ++
    env.errText site ++ ">".toList

/-- The message `"%s: <call> (%s) failed <%s>"` of the calls with one file name. -/
def callFailed (env : SysEnv) (site : Nat) (call name : Line) : Line :=
  env.my_name ++ ": ".toList ++ call ++ " (".toList ++ name ++ ") failed <".toList ++
    env.errText site ++ ">".toList

/-! ## deleteCert: `editCertFile` -/

/-- The system calls of `editCertFile` that fail for a reason outside this model
(`true`: the call fails), in the order of the source. -/
structure EditFaults where
  rename : Bool
  openIn : Bool
  openOut : Bool
  renameBack : Bool
  fstat : Bool
  fchmodIn : Bool
  fchmodOut : Bool
  fchown : Bool

/-- The effect of one call of `editCertFile`: the file system left behind and the
lines printed on `stderr`. -/
structure EditResult where
  fs : FileSystem
  stderr : List Line

/-- The error path of `editCertFile` after a failed `fopen`: the message of the
failed call, then `rename (newName, oldName)` and its message when it fails. -/
def undoRename (env : SysEnv) (f : EditFaults) (fs1 : FileSystem) (oldName newName : Line)
    (openMessage : Line) (site : Nat) : EditResult :=
  match (if f.renameBack then none else renameFile env fs1 newName oldName) with
  | some fs2 => { fs := fs2, stderr := [openMessage] }
  | none =>
    { fs := fs1, stderr := [openMessage, renameFailed env site newName oldName] }

/-- The function `editCertFile (oldName, newName, removeFlags)`; no result when the
filter loop reads outside `removeFlags`. -/
def editCertFile (env : SysEnv) (f : EditFaults) (fs : FileSystem) (oldName newName : Line)
    (removeFlags : List Bool) : Option EditResult :=
  match (if f.rename then none else renameFile env fs oldName newName) with
  | none => some { fs := fs, stderr := [renameFailed env 1 oldName newName] }
  | some fs1 =>
    match (if f.openIn then none else fs1 (env.resolve newName)) with
    | none =>
      some (undoRename env f fs1 oldName newName (callFailed env 2 "open".toList newName) 3)
    | some inFile =>
      if f.openOut then
        some (undoRename env f fs1 oldName newName (callFailed env 4 "open".toList oldName) 5)
      else
        let created : File :=
          match fs1 (env.resolve oldName) with
          | some file => { file with content := [] }
          | none =>
            { content := [], st_mode := env.creat_mode, st_uid := env.euid, st_gid := env.egid }
        match editLoop removeFlags editInit (fgetsLines 4096 inFile.content []) with
        | none => none
        | some s =>
          let in_stat : Nat × Nat × Nat :=
            if f.fstat then env.uninit_stat
            else (inFile.st_mode, inFile.st_uid, inFile.st_gid)
          let err1 := if f.fstat then [callFailed env 6 "fstat".toList newName] else []
          let backup : File :=
            if f.fchmodIn then inFile
            else { inFile with st_mode := chmodWord inFile.st_mode (in_stat.1 &&& READ_EXEC_MASK) }
          let err2 := if f.fchmodIn then [callFailed env 7 "fchmod".toList newName] else []
          let out1 : File := { created with content := render s.outFile }
          let out2 : File :=
            if f.fchmodOut then out1
            else { out1 with st_mode := chmodWord out1.st_mode (in_stat.1 &&& RWX_MASK) }
          let err3 := if f.fchmodOut then [callFailed env 8 "fchmod".toList oldName] else []
          let out3 : File :=
            if f.fchown then out2
            else { out2 with st_uid := in_stat.2.1, st_gid := in_stat.2.2 }
          let err4 := if f.fchown then [callFailed env 9 "fchown".toList oldName] else []
          some { fs := putFile (putFile fs1 (env.resolve newName) (some backup))
                        (env.resolve oldName) (some out3),
                 stderr := err1 ++ err2 ++ err3 ++ err4 }

/-! ## deleteCert: `deleteOneCert` -/

/-- The option variables of one `deleteCert` run. -/
structure RunOpts where
  sel : DeleteOpts
  opt_path : Bool
  opt_force : Bool
  opt_test : Bool

/-- The call `strrchr (s, c)`: the part of `s` from the last occurrence of `c` on,
or `none` for `NULL`. -/
def strrchr : Line → Char → Option Line
  | [], _ => none
  | x :: xs, c =>
    match strrchr xs c with
    | some cp => some cp
    | none => if x = c then some (x :: xs) else none

/-- The backup file name computed by `deleteOneCert`:
`"%s-BACKUP"` when `strrchr (certfile, '.')` is `NULL`, else
`"%.*s-BACKUP.%s"` with the characters before the dot and those after it. -/
def backupFilename (certfile : Line) : Line :=
  match strrchr certfile '.' with
  | none => certfile ++ "-BACKUP".toList
  | some cp => certfile.take (certfile.length - cp.length) ++ "-BACKUP.".toList ++ cp.drop 1

/-- The name `certfile` computed at the start of `decodeOneCert` and `deleteOneCert`. -/
def certfileOf (opt_path : Bool) (wd filename : Line) : Line :=
  if opt_path ∧ filename.head? ≠ some '/' then
    if strncmpEq filename "./".toList 2 then wd ++ "/".toList ++ filename.drop 2
    else wd ++ "/".toList ++ filename
  else filename

/-- The conversion `%3d` of a count. -/
def fmt3d (n : Nat) : Line :=
  List.replicate (3 - (Nat.repr n).toList.length) ' ' ++ (Nat.repr n).toList

/-- The conversion `%-21.21s`. -/
def fmt21s (s : Line) : Line :=
  s.take 21 ++ List.replicate (21 - (s.take 21).length) ' '

/-- The line `"%3d. %s %-21.21s %s; Issuer <%s>; Subject <%s>"` printed for the
record with index `i`. -/
def reportLine (s : DeleteState) (i : Nat) : Line :=
  fmt3d (i + 1) ++ ". ".toList ++ (if s.remove i then "DELETE".toList else "      ".toList) ++
    " ".toList ++ fmt21s (s.validity_message i) ++ " ".toList ++ s.validity_range i ++
    "; Issuer <".toList ++ s.issuer i ++ ">; Subject <".toList ++ s.subject i ++ ">".toList

/-- The lines printed by the final `for` loop of `deleteOneCert`. -/
def reportLines (s : DeleteState) : List Line :=
  (List.range s.totalCount).map (reportLine s)

/-- The status line
`"######## %s, %d Certificates in File, Delete %d (<status>)"`. -/
def statusLine (reportFilename : Line) (s : DeleteState) (status : Line) : Line :=
  "######## ".toList ++ reportFilename ++ ", ".toList ++ (Nat.repr s.totalCount).toList ++
    " Certificates in File, Delete ".toList ++ (Nat.repr s.deleteCount).toList ++
    " (".toList ++ status ++ ")".toList

/-- The effect of one call of `deleteOneCert`: the file system left behind, the
lines printed, and the arguments of the call of `editCertFile` when it is made. -/
structure Outcome where
  fs : FileSystem
  stdout : List Line
  stderr : List Line
  rewriter : Option (Line × Line × List Bool)

/-- The array `remove` as `editCertFile` receives it: `MAXIMUM_CERTIFICATES` flags. -/
def removeArray (s : DeleteState) : List Bool :=
  (List.range MAXIMUM_CERTIFICATES).map (fun k => s.remove k)

/-- The name shown in the status line: the first line printed by `ls -l certfile`
after `trim`, or `certfile` when that is empty or `popen` fails. -/
def reportFilenameOf (env : SysEnv) (fs : FileSystem) (certfile : Line) : Line :=
  match env.popen ("ls -l ".toList ++ certfile) fs with
  | none => certfile
  | some lines =>
    match lines.head? with
    | none => certfile
    | some l => if trim l = [] then certfile else trim l

/-- The part of `deleteOneCert` after the selection loop, for the loop variables
`s` it ends with and the mode word `in_mode` read by `stat (filename)`: the
status line, the report lines, and the call of `editCertFile` when the file is
to be updated. `f` and `forceFault` tell which system calls fail for a reason
outside this model. -/
def deleteOneCertFinish (env : SysEnv) (o : RunOpts) (f : EditFaults) (forceFault : Bool)
    (fs : FileSystem) (certfile : Line) (in_mode : Nat) (s : DeleteState) : Option Outcome :=
  let reportFilename := reportFilenameOf env fs certfile
  if s.deleteCount = 0 then
    some { fs := fs, stdout := statusLine reportFilename s "File NOT Modified".toList ::
             reportLines s, stderr := [], rewriter := none }
  else if s.deleteCount = s.totalCount then
    some { fs := fs, stdout := statusLine reportFilename s
             "Entire file must be deleted".toList :: reportLines s,
           stderr := [], rewriter := none }
  else if o.opt_test then
    some { fs := fs, stdout := statusLine reportFilename s
             "File not updated in Test Mode".toList :: reportLines s,
           stderr := [], rewriter := none }
  else
    let backup := backupFilename certfile
    match fs (env.resolve backup) with
    | some old =>
      if o.opt_force then
        let status := statusLine reportFilename s
          ("Backup ".toList ++ backup ++ " will be overwritten in Force Mode".toList)
        let fs1 : FileSystem :=
          if forceFault then fs
          else putFile fs (env.resolve backup)
            (some { old with st_mode := chmodWord old.st_mode (in_mode &&& RWX_MASK) })
        let err := if forceFault then [callFailed env 10 "chmod".toList backup] else []
        match editCertFile env f fs1 certfile backup (removeArray s) with
        | none => none
        | some r =>
          some { fs := r.fs, stdout := status :: reportLines s, stderr := err ++ r.stderr,
                 rewriter := some (certfile, backup, removeArray s) }
      else
        some { fs := fs, stdout := statusLine reportFilename s
                 ("Backup ".toList ++ backup ++ " already exists so ".toList ++ certfile ++
                   " will NOT be updated".toList) :: reportLines s,
               stderr := [], rewriter := none }
    | none =>
      match editCertFile env f fs certfile backup (removeArray s) with
      | none => none
      | some r =>
        some { fs := r.fs, stdout := statusLine reportFilename s
                 ("Backup to ".toList ++ backup) :: reportLines s,
               stderr := r.stderr, rewriter := some (certfile, backup, removeArray s) }

/-- The function `deleteOneCert (filename)`; no result when one of its loops
indexes outside an array. -/
def deleteOneCert (env : SysEnv) (o : RunOpts) (f : EditFaults) (forceFault : Bool)
    (fs : FileSystem) (filename : Line) : Option Outcome :=
  let certfile := certfileOf o.opt_path env.wd filename
  match fs (env.resolve filename) with
  | none =>
    some { fs := fs, stdout := [], stderr := [callFailed env 11 "stat".toList filename],
           rewriter := none }
  | some file =>
    let command :=
      if o.opt_path then "decodeCert -p ".toList ++ filename
      else "decodeCert ".toList ++ filename
    match env.popen command fs with
    | none =>
      some { fs := fs, stdout := [], stderr := [callFailed env 12 "popen".toList command],
             rewriter := none }
    | some pipe =>
      match deleteLoop o.sel (deleteInit env.uninit_state) pipe with
      | none => none
      | some s => deleteOneCertFinish env o f forceFault fs certfile file.st_mode s

/-- The file systems left by `n` successive calls of `deleteOneCert` on one file. -/
def repeatedRuns (env : SysEnv) (o : RunOpts) (f : EditFaults) (forceFault : Bool)
    (filename : Line) : Nat → FileSystem → Option FileSystem
  | 0, fs => some fs
  | n + 1, fs =>
    match deleteOneCert env o f forceFault fs filename with
    | none => none
    | some out => repeatedRuns env o f forceFault filename n out.fs

/-! ## The capacity of the text rows of `deleteOneCert` -/

/-- The constant `MAXIMUM_LENGTH`: the characters of one row of the arrays `issuer`,
`validity_message`, `validity_range` and `subject`, and of the buffers
`organizationName` and `commonName`. -/
def MAXIMUM_LENGTH : Nat := 1024

/-- Whether a string copied with `strcpy` or built with `strcat` stays inside a
buffer of `MAXIMUM_LENGTH` characters: its characters and the closing NUL. -/
def fitsRow (text : Line) : Bool := decide (text.length < MAXIMUM_LENGTH)

/-- Whether every copy of one iteration of the loop of `deleteOneCert` stays inside
its row: `strcpy (issuer [..], cp + 8)`, `strcpy (validity_message [..], cp + 9)`,
`strcpy (validity_range [..], cp + 12)`, the two `strcat` calls on
`validity_range [..]` and `strcpy (subject [..], cp + 9)`; the code makes the
copies without a check. The strings `parseNames` copies into `organizationName`
and `commonName` are parts of a row, so they fit when the row does. -/
def stepFits (s : DeleteState) (raw : Line) : Bool :=
  let buffer := trim raw
  if strncmpEq buffer "========".toList 8 then true
  else
    match strstr buffer "Issuer: ".toList with
    | some cp => fitsRow (cp.drop 8)
    | none =>
      match strstr buffer "Validity".toList with
      | some cp => if 8 < cp.length then fitsRow (cp.drop 9) else true
      | none =>
        match strstr buffer "Not Before: ".toList with
        | some cp => fitsRow (cp.drop 12)
        | none =>
          match strstr buffer "Not After : ".toList with
          | some cp =>
            match slot s.totalCount with
            | some k => fitsRow (s.validity_range k ++ " - ".toList ++ cp.drop 12)
            | none => true
          | none =>
            match strstr buffer "Subject: ".toList with
            | some cp => fitsRow (cp.drop 9)
            | none => true

/-- Whether every copy of the loop of `deleteOneCert` over the strings read stays
inside its row, as far as the loop stays inside the arrays. -/
def loopFits (o : DeleteOpts) : DeleteState → List Line → Bool
  | _, [] => true
  | s, raw :: rest =>
    stepFits s raw &&
      (match deleteStep o s raw with
       | some s1 => loopFits o s1 rest
       | none => true)

/-- The file systems left by successive runs of the part of `deleteOneCert` after
the selection loop, one run for each element of `ends`: the values of the loop
variables with which the selection loop of that run ended. -/
def repeatedFinish (env : SysEnv) (o : RunOpts) (f : EditFaults) (forceFault : Bool)
    (certfile : Line) (in_mode : Nat) : List DeleteState → FileSystem → Option FileSystem
  | [], fs => some fs
  | s :: ends, fs =>
    match deleteOneCertFinish env o f forceFault fs certfile in_mode s with
    | none => none
    | some out => repeatedFinish env o f forceFault certfile in_mode ends out.fs

/-! ## The backup path in the words of the specification -/

/-- The backup path as the specification words it, for a path made of the
directory part `dir` and the file name `name`: the suffix `-BACKUP` is inserted
before the extension of the file name (its last dot and what follows), and is
appended when the file name has no dot. -/
def claimedBackupPath (dir name : Line) : Line :=
  match strrchr name '.' with
  | none => dir ++ name ++ "-BACKUP".toList
  | some ext => dir ++ name.take (name.length - ext.length) ++ "-BACKUP".toList ++ ext

/-! ## What a loop iteration takes its line for -/

/-- What an iteration of the loop of `decodeOneCert` or of the filter loop of
`editCertFile` takes its line for, as the loop variables tell: the begin marker
that starts the certificate at a position, a line inside that certificate, the
end marker that closes it, or a line outside every certificate. -/
inductive Event where
  | start (position : Nat)
  | inside (position : Nat)
  | finish (position : Nat)
  | outside
deriving DecidableEq

/-- The event of an iteration, from `inCert` before it and `count` and `inCert`
after it: `inCert` goes from false to true exactly in the branch that increments
`count`, and from true to false exactly in the branch of the end marker. -/
def eventOf (inCertBefore : Bool) (count : Nat) (inCertAfter : Bool) : Event :=
  match inCertBefore, inCertAfter with
  | false, true => Event.start count
  | true, true => Event.inside count
  | true, false => Event.finish count
  | false, false => Event.outside

/-- The position of the certificate a line belongs to, if it belongs to one. -/
def Event.position : Event → Option Nat
  | Event.start k => some k
  | Event.inside k => some k
  | Event.finish k => some k
  | Event.outside => none

/-- The events of the iterations of the loop of `decodeOneCert`, line by line. -/
def decodeEvents {Tm : Type} (env : DecodeEnv Tm) : DecodeState → List Line → List Event
  | _, [] => []
  | s, raw :: rest =>
    eventOf s.inCert (decodeStep env s raw).count (decodeStep env s raw).inCert ::
      decodeEvents env (decodeStep env s raw) rest

/-- The events of the iterations of the filter loop of `editCertFile`, line by
line; no result when an iteration reads outside `removeFlags`. -/
def editEvents (removeFlags : List Bool) : EditState → List Line → Option (List Event)
  | _, [] => some []
  | s, raw :: rest =>
    match editStep removeFlags s raw with
    | none => none
    | some s1 =>
      (editEvents removeFlags s1 rest).map (fun es => eventOf s.inCert s1.count s1.inCert :: es)

/-! ## Lines the selection loop recognises -/

/-- A line in which the loop of `deleteOneCert` finds one of the texts `Issuer: `,
`Validity`, `Not Before: `, `Not After : ` and `Subject: `. -/
def IsFieldLine (raw : Line) : Prop :=
  (strstr (trim raw) "Issuer: ".toList).isSome = true ∨
    (strstr (trim raw) "Validity".toList).isSome = true ∨
    (strstr (trim raw) "Not Before: ".toList).isSome = true ∨
    (strstr (trim raw) "Not After : ".toList).isSome = true ∨
    (strstr (trim raw) "Subject: ".toList).isSome = true

instance (raw : Line) : Decidable (IsFieldLine raw) :=
  inferInstanceAs (Decidable ((strstr (trim raw) "Issuer: ".toList).isSome = true ∨
    (strstr (trim raw) "Validity".toList).isSome = true ∨
    (strstr (trim raw) "Not Before: ".toList).isSome = true ∨
    (strstr (trim raw) "Not After : ".toList).isSome = true ∨
    (strstr (trim raw) "Subject: ".toList).isSome = true))

/-- The first line of a stream that the loop of `deleteOneCert` recognises, as a
header or as one of the five field lines. -/
def firstRecognised (stream : List Line) : Option Line :=
  stream.find? (fun l => decide (IsHeader l ∨ IsFieldLine l))

/-- The number of header lines of a stream. -/
def headerCount (stream : List Line) : Nat :=
  (stream.filter (fun l => decide (IsHeader l))).length

/-! ## The filter loop from file to file -/

/-- The filter loop of `editCertFile` with a mask of `n` flags, all false, from
the bytes of the file read with `fgets (buffer, sizeof (buffer), inFile)` to the
bytes written on `outFile`. -/
def filterAllFalse (n : Nat) (content : List Char) : Option (List Char) :=
  (editLoop (List.replicate n false) editInit (fgetsLines 4096 content [])).map
    (fun s => render s.outFile)

/-! ## Concrete inputs used in evaluations -/

/-- A time library over `Int` as `struct tm`, for concrete evaluations: a text of
decimal digits parses to the number it denotes, and any other text leaves the
time structure as it was. -/
def sampleLib : TimeLib Int where
  strptime := fun text tm =>
    if text ≠ [] ∧ text.all Char.isDigit then
      text.foldl (fun n c => 10 * n + ((c.toNat : Int) - 48)) 0
    else tm
  mktime := fun tm => (tm, tm)
  strftime := fun _ => []

/-- A `decodeCert` environment for concrete evaluations: no option set, a decoder
child that prints nothing. -/
def sampleEnv : DecodeEnv Int where
  lib := sampleLib
  opts := { opt_debug := false, opt_path := false, opt_verbose := false }
  certfile := "ca.pem".toList
  openssl := fun _ => []
  clock := fun _ => 1000
  uninit := { validity_buffer := [], before_buffer := [], parsed_time_struct := 0, out := [] }

/-- A certificate with newline-terminated lines. -/
def sampleCertA : Cert where
  beginLine := "-----BEGIN CERTIFICATE-----\n".toList
  body := ["QUJD\n".toList, "REVG\n".toList]
  endLine := "-----END CERTIFICATE-----\n".toList

/-- A certificate with CR-LF line ends and a blank before one of them. -/
def sampleCertB : Cert where
  beginLine := "-----BEGIN CERTIFICATE-----\r\n".toList
  body := ["R0hJ \r\n".toList]
  endLine := "-----END CERTIFICATE-----\r\n".toList

/-- A certificate whose end marker is the unterminated last line of the file. -/
def sampleCertC : Cert where
  beginLine := "-----BEGIN CERTIFICATE-----\n".toList
  body := ["SktM\n".toList]
  endLine := "-----END CERTIFICATE-----".toList

/-- A bundle of three certificates with a comment line before the first and an
empty line before the second. -/
def sampleBundle : List (List Line × Cert) :=
  [(["# roots\n".toList], sampleCertA), (["\n".toList], sampleCertB), ([], sampleCertC)]

/-- Array contents for concrete evaluations: every text empty, every flag false. -/
def sampleUninit : DeleteState where
  totalCount := 0
  deleteCount := 0
  issuer := fun _ => []
  validity_message := fun _ => []
  validity_range := fun _ => []
  subject := fun _ => []
  remove := fun _ => false

/-- A record stream of `n` records, each only the header line `decodeCert` prints. -/
def headerRecords (n : Nat) : List Record :=
  (List.range n).map
    (fun k => { header := certHeader "ca.pem".toList (k + 1) ++ [Char.ofNat 10], rest := [] })

/-- The lines `decodeCert` prints for an expired certificate issued by Acme. -/
def sampleRecord1 : Record where
  header := "======== ca.pem, Certificate 1\n".toList
  rest :=
    [ "        Issuer: C = US, O = Acme Corp, CN = Acme Root CA\n".toList,
      "        Validity *** EXPIRED ***\n".toList,
      "            Not Before: Jan  1 00:00:00 2010 GMT\n".toList,
      "            Not After : Jan  1 00:00:00 2020 GMT\n".toList,
      "        Subject: C = US, O = Acme Corp, CN = Acme Root CA\n".toList ]

/-- The lines `decodeCert` prints for a certificate within its validity window. -/
def sampleRecord2 : Record where
  header := "======== ca.pem, Certificate 2\n".toList
  rest :=
    [ "        Issuer: C = US, O = Acme Corp, CN = Acme Root CA\n".toList,
      "        Validity\n".toList,
      "            Not Before: Jan  1 00:00:00 2020 GMT\n".toList,
      "            Not After : Jan  1 00:00:00 2040 GMT\n".toList,
      "        Subject: C = US, O = Example Ltd, CN = www.example.org\n".toList ]

/-- The lines `decodeCert` prints for a certificate that is not yet valid, followed
by the closing line of the report. -/
def sampleRecord3 : Record where
  header := "======== ca.pem, Certificate 3\n".toList
  rest :=
    [ "        Issuer: C = US, O = Other Org, CN = Other CA\n".toList,
      "        Validity *** NOT YET VALID ***\n".toList,
      "            Not Before: Jan  1 00:00:00 2039 GMT\n".toList,
      "            Not After : Jan  1 00:00:00 2040 GMT\n".toList,
      "        Subject: C = US, O = Example Ltd, CN = mail.example.org\n".toList,
      "######## ca.pem, 3 Certificates in File\n".toList ]

/-- A record stream of three certificates. -/
def sampleRecords : List Record := [sampleRecord1, sampleRecord2, sampleRecord3]

/-- The lines `decodeCert` prints for a certificate whose subject organization is
`Validity Inc`. -/
def validityIncRecord : Record where
  header := "======== ca.pem, Certificate 1\n".toList
  rest :=
    [ "        Issuer: C = US, O = Acme Corp, CN = Acme Root CA\n".toList,
      "        Validity\n".toList,
      "            Not Before: Jan  1 00:00:00 2020 GMT\n".toList,
      "            Not After : Jan  1 00:00:00 2040 GMT\n".toList,
      "        Subject: C = US, O = Validity Inc, CN = www.validity.example\n".toList ]

/-- The options of a run with only a subject-match string: `-s "validity inc"`. -/
def subjectOnly : DeleteOpts :=
  { delete_number := -1, opt_issuer := [], opt_subject := "validity inc".toList,
    opt_expired := false }

/-- The options of a run with only the expired flag: `-e`. -/
def expiredOnly : DeleteOpts :=
  { delete_number := -1, opt_issuer := [], opt_subject := [], opt_expired := true }

/-- What the `openssl` child prints for a certificate valid from time 2000 to time
3000, with the stand-in timestamps `sampleLib` parses. -/
def futureCertReport : List Line :=
  [ "        Issuer: C = US, O = Other Org, CN = Other CA\n".toList,
    "        Validity\n".toList,
    "            Not Before: 2000\n".toList,
    "            Not After : 3000\n".toList,
    "        Subject: C = US, O = Example Ltd, CN = mail.example.org\n".toList ]

/-- The strings `fgets` returns when the lines printed by `decodeCert` are read
back from the pipe: each printed line followed by its newline. -/
def pipeLines (printed : List Line) : List Line := printed.map (fun l => l ++ [Char.ofNat 10])

/-- The options of a run with every criterion given: `-n 1 -i "acme corp"
-s "example ltd" -e`. -/
def allCriteria : DeleteOpts :=
  { delete_number := 1, opt_issuer := "acme corp".toList, opt_subject := "example ltd".toList,
    opt_expired := true }

/-- A prefix of the sample stream: the first record and the first three lines of
the second. -/
def samplePrefix : List Line :=
  recordLines [sampleRecord1] ++ (sampleRecord2.header :: sampleRecord2.rest.take 2)

/-- The rest of the sample stream after `samplePrefix`. -/
def sampleSuffix : List Line := sampleRecord2.rest.drop 2 ++ recordLines [sampleRecord3]

/-- The loop variables after `samplePrefix` with every criterion given. -/
def sampleMid : DeleteState :=
  (deleteLoop allCriteria (deleteInit sampleUninit) samplePrefix).getD sampleUninit

/-- The loop variables after the whole sample stream with every criterion given. -/
def sampleEnd : DeleteState := (deleteLoop allCriteria sampleMid sampleSuffix).getD sampleUninit

/-- The issuer of the DigiCert Global Root CA certificate as a component list. -/
def digicertIssuer : List (Line × Line) :=
  [ ("C".toList, "US".toList), ("O".toList, "DigiCert Inc".toList),
    ("OU".toList, "www.digicert.com".toList), ("CN".toList, "DigiCert Global Root CA".toList) ]

/-- A validity line of the decoder report. -/
def sampleValidityLine : Line := "        Validity\n".toList

/-- A not-before line with the stand-in timestamp 100. -/
def sampleNotBefore100 : Line := "            Not Before: 100\n".toList

/-- A not-before line with the stand-in timestamp 2000. -/
def sampleNotBefore2000 : Line := "            Not Before: 2000\n".toList

/-- A not-after line with the stand-in timestamp 500. -/
def sampleNotAfter500 : Line := "            Not After : 500\n".toList

/-- The locals of `parse_openssl` for concrete evaluations. -/
def sampleParseState : ParseState Int :=
  { validity_buffer := [], before_buffer := [], parsed_time_struct := 0, out := [] }

/-- A bundle of `n` copies of the sample certificate `sampleCertA`. -/
def repeatedBundle (n : Nat) : List (List Line × Cert) := List.replicate n ([], sampleCertA)

/-- A system environment for concrete evaluations: paths resolve to themselves,
the `decodeCert ca.pem` child prints the sample record stream, `ls -l` cannot
be started. -/
def sampleSys : SysEnv where
  my_name := "deleteCert".toList
  wd := "/etc/ssl".toList
  resolve := fun path => path
  errText := fun _ => "Permission denied".toList
  creat_mode := 0o100644
  euid := 1000
  egid := 1000
  uninit_stat := (0, 0, 0)
  uninit_state := sampleUninit
  popen := fun command _ =>
    if command = "decodeCert ca.pem".toList then some (recordLines sampleRecords) else none

/-- The sample bundle as a file of mode 0640 owned by user 0 and group 42. -/
def sampleFile : File where
  content := (bundleLines sampleBundle []).flatten
  st_mode := 0o100640
  st_uid := 0
  st_gid := 42

/-- A file system that holds only the sample bundle, as `ca.pem`. -/
def sampleFs : FileSystem := putFile (fun _ => none) "ca.pem".toList (some sampleFile)

/-- An older backup of another content, read-only. -/
def oldBackupFile : File where
  content := "older backup\n".toList
  st_mode := 0o100440
  st_uid := 0
  st_gid := 42

/-- A file system that holds the sample bundle and an older backup of it. -/
def sampleFsWithBackup : FileSystem :=
  putFile sampleFs "ca-BACKUP.pem".toList (some oldBackupFile)

/-- No system call fails. -/
def noFaults : EditFaults :=
  { rename := false, openIn := false, openOut := false, renameBack := false, fstat := false,
    fchmodIn := false, fchmodOut := false, fchown := false }

/-- The options `-n 2`: remove the second certificate. -/
def removeSecond : RunOpts :=
  { sel := positionOnly 2, opt_path := false, opt_force := false, opt_test := false }

/-- The options `-n 2 -t`: test mode. -/
def removeSecondTest : RunOpts :=
  { sel := positionOnly 2, opt_path := false, opt_force := false, opt_test := true }

/-- The options `-n 9`: a position that no certificate of the sample has. -/
def removeNinth : RunOpts :=
  { sel := positionOnly 9, opt_path := false, opt_force := false, opt_test := false }

/-- The loop variables after the sample record stream with `-n 2`. -/
def sampleSelSecond : DeleteState :=
  (deleteLoop (positionOnly 2) (deleteInit sampleUninit) (recordLines sampleRecords)).getD
    sampleUninit

/-- The loop variables after the sample record stream with `-n 9`. -/
def sampleSelNinth : DeleteState :=
  (deleteLoop (positionOnly 9) (deleteInit sampleUninit) (recordLines sampleRecords)).getD
    sampleUninit

/-- The variables of the filter loop after the sample bundle with the mask of `-n 2`. -/
def sampleEditEnd : EditState :=
  (editLoop (removeArray sampleSelSecond) editInit
    (fgetsLines 4096 sampleFile.content [])).getD editInit

/-- The faults in which only `fopen (newName, "r")` fails. -/
def openInFails : EditFaults :=
  { rename := false, openIn := true, openOut := false, renameBack := false, fstat := false,
    fchmodIn := false, fchmodOut := false, fchown := false }

/-- A not-after line whose text is not a stand-in timestamp of `sampleLib`. -/
def sampleNotAfterUnparsed : Line := "            Not After : Xyz  1 00:00:00 2030 GMT\n".toList

/-- A not-before line whose text is not a stand-in timestamp of `sampleLib`. -/
def sampleNotBeforeUnparsed : Line := "            Not Before: Xyz  1 00:00:00 2020 GMT\n".toList

/-- A not-after line with the stand-in timestamp 3000. -/
def sampleNotAfter3000 : Line := "            Not After : 3000\n".toList

/-- The lines `decodeCert` prints for a certificate the decoder rejects: the header. -/
def failedRecord2 : Record where
  header := "======== ca.pem, Certificate 2\n".toList
  rest := []

/-- A line of 4095 characters, as many as one `fgets` call stores in `buffer`. -/
def longLine : Line := List.replicate 4095 'A'

/-- A bundle file of one certificate whose body is one line of 4095 characters. -/
def longLineFile : List Char :=
  "-----BEGIN CERTIFICATE-----\n".toList ++ longLine ++ "\n-----END CERTIFICATE-----\n".toList

/-- The file written by the filter loop for `longLineFile`. -/
def longLineOnce : List Char :=
  "-----BEGIN CERTIFICATE-----\n".toList ++ longLine ++
    "\n\n-----END CERTIFICATE-----\n".toList

/-- The file written by the filter loop for `longLineOnce`. -/
def longLineTwice : List Char :=
  "-----BEGIN CERTIFICATE-----\n".toList ++ longLine ++
    "\n\n\n-----END CERTIFICATE-----\n".toList

/-- The sample bundle as the filter loop writes it when it removes nothing. -/
def sampleNormalised : List Char :=
  ("-----BEGIN CERTIFICATE-----\nQUJD\nREVG\n-----END CERTIFICATE-----\n\n" ++
    "-----BEGIN CERTIFICATE-----\nR0hJ\n-----END CERTIFICATE-----\n\n" ++
    "-----BEGIN CERTIFICATE-----\nSktM\n-----END CERTIFICATE-----\n").toList

/-- What `deleteOneCert` does for `-n 2` on the sample bundle. -/
def sampleOutcomeSecond : Outcome :=
  (deleteOneCert sampleSys removeSecond noFaults false sampleFs "ca.pem".toList).getD
    { fs := sampleFs, stdout := [], stderr := [], rewriter := none }

/-- The header line `decodeCert` prints for the 17th certificate of `ca.pem`. -/
def seventeenthHeader : Line := certHeader "ca.pem".toList 17 ++ [Char.ofNat 10]

/-- An issuer line of the decoder report whose distinguished name has 1024
characters. -/
def longIssuerLine : Line :=
  "        Issuer: CN = ".toList ++ List.replicate 1019 'A' ++ [Char.ofNat 10]

/-- What the `openssl` child prints for a certificate valid from time 100 to time
3000, with the stand-in timestamps `sampleLib` parses. -/
def validCertReport : List Line :=
  [ "        Issuer: C = US, O = Acme Corp, CN = Acme Root CA\n".toList,
    "        Validity\n".toList,
    "            Not Before: 100\n".toList,
    "            Not After : 3000\n".toList,
    "        Subject: C = US, O = Acme Corp, CN = Acme Root CA\n".toList ]

/-- A `decodeCert` run on the file `Validity.pem`: the decoder child prints the
report of a valid certificate for the block of `sampleCertA` and nothing for any
other block. -/
def validityPemEnv : DecodeEnv Int where
  lib := sampleLib
  opts := { opt_debug := false, opt_path := false, opt_verbose := false }
  certfile := "Validity.pem".toList
  openssl := fun written => if written = sampleCertA.trimmed then validCertReport else []
  clock := fun _ => 1000
  uninit := { validity_buffer := [], before_buffer := [], parsed_time_struct := 0, out := [] }

/-- The lines of `Validity.pem`: the certificate `sampleCertA` and a second
certificate that the decoder rejects. -/
def validityPemLines : List Line := bundleLines [([], sampleCertA), ([], sampleCertC)] []

/-- What `decodeCert Validity.pem` prints. -/
def validityPemReport : List Line :=
  [ "======== Validity.pem, Certificate 1".toList,
    "        Issuer: C = US, O = Acme Corp, CN = Acme Root CA".toList,
    "        Validity".toList,
    "            Not Before: 100".toList,
    "            Not After : 3000".toList,
    "        Subject: C = US, O = Acme Corp, CN = Acme Root CA".toList,
    "======== Validity.pem, Certificate 2".toList,
    "######## Validity.pem, 2 Certificates in File".toList ]

/-- The options `-n 1 -i "acme corp" -s "example ltd" -e` without `-f` and `-t`. -/
def removeAllNoForce : RunOpts :=
  { sel := allCriteria, opt_path := false, opt_force := false, opt_test := false }

/-- The loop variables after the sample record stream with every criterion given. -/
def sampleSelAll : DeleteState :=
  (deleteLoop allCriteria (deleteInit sampleUninit) (recordLines sampleRecords)).getD
    sampleUninit

/-! ## Theorems -/

theorem decodeLoop_append {Tm : Type} (env : DecodeEnv Tm) (s : DecodeState) (xs ys : List Line) :
    decodeLoop env s (xs ++ ys) = decodeLoop env (decodeLoop env s xs) ys := by
  simp [decodeLoop, List.foldl_append]

theorem decodeLoop_cons {Tm : Type} (env : DecodeEnv Tm) (s : DecodeState) (x : Line)
    (xs : List Line) : decodeLoop env s (x :: xs) = decodeLoop env (decodeStep env s x) xs := rfl

theorem decodeLoop_gap {Tm : Type} (env : DecodeEnv Tm) (gap : List Line) (hg : IsGap gap)
    (s : DecodeState) (hs : s.inCert = false) : decodeLoop env s gap = s := by
  induction gap with
  | nil => rfl
  | cons l ls ih =>
    have hl : trim l ≠ BEGIN_CERTIFICATE := hg l (List.mem_cons_self _ _)
    have hstep : decodeStep env s l = s := by simp [decodeStep, hs, hl]
    rw [decodeLoop_cons, hstep]
    exact ih (fun x hx => hg x (List.mem_cons_of_mem _ hx))

theorem decodeLoop_body {Tm : Type} (env : DecodeEnv Tm) (body : List Line)
    (hb : ∀ l ∈ body, trim l ≠ END_CERTIFICATE) (s : DecodeState) (hs : s.inCert = true) :
    decodeLoop env s body = { s with outFile := s.outFile ++ body.map trim } := by
  induction body generalizing s with
  | nil => simp [decodeLoop]
  | cons l ls ih =>
    have hl : trim l ≠ END_CERTIFICATE := hb l (List.mem_cons_self _ _)
    have hstep : decodeStep env s l = { s with outFile := s.outFile ++ [trim l] } := by
      simp [decodeStep, hs, hl]
    rw [decodeLoop_cons, hstep,
      ih (fun x hx => hb x (List.mem_cons_of_mem _ hx))
        { s with outFile := s.outFile ++ [trim l] } hs]
    simp

theorem decodeLoop_cert {Tm : Type} (env : DecodeEnv Tm) (c : Cert) (hc : c.WellFormed)
    (s : DecodeState) (hs : s.inCert = false) :
    decodeLoop env s c.lines =
      { count := s.count + 1, inCert := false, outFile := c.trimmed,
        blocks := s.blocks ++ [(s.count + 1, c.trimmed)],
        stdout := s.stdout ++ [certHeader env.certfile (s.count + 1)] ++
          parse_openssl env.lib env.opts (env.clock (s.count + 1)) env.uninit
            (env.openssl c.trimmed) } := by
  obtain ⟨h1, h2, h3⟩ := hc
  have hstep : decodeStep env s c.beginLine =
      { count := s.count + 1, inCert := true, outFile := [trim c.beginLine], blocks := s.blocks,
        stdout := s.stdout ++ [certHeader env.certfile (s.count + 1)] } := by
    simp [decodeStep, hs, h1]
  rw [Cert.lines, decodeLoop_cons, hstep, decodeLoop_append, decodeLoop_body env c.body h2 _ rfl]
  simp [decodeLoop, decodeStep, h3, Cert.trimmed, Cert.lines]

theorem decodeLoop_bundle {Tm : Type} (env : DecodeEnv Tm) (last : List Line) (hl : IsGap last)
    (b : List (List Line × Cert)) (hb : ∀ p ∈ b, IsGap p.1 ∧ p.2.WellFormed)
    (s : DecodeState) (hs : s.inCert = false) :
    (decodeLoop env s (bundleLines b last)).count = s.count + b.length ∧
    (decodeLoop env s (bundleLines b last)).inCert = false ∧
    (decodeLoop env s (bundleLines b last)).blocks =
      s.blocks ++ List.zip (List.range' (s.count + 1) b.length) (b.map (fun p => p.2.trimmed)) := by
  induction b generalizing s with
  | nil => simp [bundleLines, decodeLoop_gap env last hl s hs, hs]
  | cons p rest ih =>
    obtain ⟨gap, c⟩ := p
    have hp := hb (gap, c) (List.mem_cons_self _ _)
    have hrest : ∀ q ∈ rest, IsGap q.1 ∧ q.2.WellFormed :=
      fun q hq => hb q (List.mem_cons_of_mem _ hq)
    have hc := decodeLoop_cert env c hp.2 s hs
    rw [bundleLines, decodeLoop_append, decodeLoop_gap env gap hp.1 s hs, decodeLoop_append]
    obtain ⟨h1, h2, h3⟩ := ih hrest (decodeLoop env s c.lines) (by rw [hc])
    refine ⟨?_, h2, ?_⟩
    · rw [h1, hc]; simp; omega
    · rw [h3, hc]; simp [List.range'_succ]

/-- C1: for a bundle of N well-formed certificates, with arbitrary lines that are
not begin markers between them, the segmenter loop of `decodeOneCert` hands
exactly N blocks to the decoder, in file order, numbered 1, 2, ..., N, and block
k holds the lines of the k-th certificate from its begin marker through its end
marker, each line as the loop holds it in `buffer` (after `trim`). -/
theorem C1_segmenter_blocks {Tm : Type} (env : DecodeEnv Tm) (b : List (List Line × Cert))
    (last : List Line) (hwf : WellFormedBundle b last) :
    (decodeLoop env decodeInit (bundleLines b last)).count = b.length ∧
    (decodeLoop env decodeInit (bundleLines b last)).blocks.length = b.length ∧
    (decodeLoop env decodeInit (bundleLines b last)).blocks.map Prod.fst =
      List.range' 1 b.length ∧
    (decodeLoop env decodeInit (bundleLines b last)).blocks.map Prod.snd =
      b.map (fun p => p.2.trimmed) := by
  obtain ⟨h1, _, h3⟩ := decodeLoop_bundle env last hwf.2 b hwf.1 decodeInit rfl
  have hlen : (List.range' 1 b.length).length = (b.map (fun p => p.2.trimmed)).length := by simp
  refine ⟨by simpa [decodeInit] using h1, ?_, ?_, ?_⟩
  · rw [h3]; simp [decodeInit]
  · rw [h3]; simp [decodeInit, List.map_fst_zip, hlen.le]
  · rw [h3]; simp [decodeInit, List.map_snd_zip, hlen.ge]

theorem editLoop_append (m : List Bool) (s : EditState) (xs ys : List Line) :
    editLoop m s (xs ++ ys) = (editLoop m s xs).bind (fun s1 => editLoop m s1 ys) := by
  induction xs generalizing s with
  | nil => simp [editLoop]
  | cons x xs ih =>
    simp only [List.cons_append, editLoop]
    cases editStep m s x with
    | none => simp
    | some s1 => simpa using ih s1

theorem editLoop_gap (m : List Bool) (gap : List Line) (hg : IsGap gap) (s : EditState)
    (hs : s.inCert = false) : editLoop m s gap = some s := by
  induction gap with
  | nil => rfl
  | cons l ls ih =>
    have hl : trim l ≠ BEGIN_CERTIFICATE := hg l (List.mem_cons_self _ _)
    have hstep : editStep m s l = some s := by simp [editStep, hs, hl]
    simp only [editLoop, hstep]
    exact ih (fun x hx => hg x (List.mem_cons_of_mem _ hx))

theorem editLoop_body (m : List Bool) (r : Bool) (body : List Line)
    (hb : ∀ l ∈ body, trim l ≠ END_CERTIFICATE) (s : EditState) (hs : s.inCert = true)
    (hr : flagAt m s.count = some r) :
    editLoop m s body =
      some { s with outFile := if r then s.outFile else s.outFile ++ body.map trim } := by
  induction body generalizing s with
  | nil => cases r <;> simp [editLoop]
  | cons l ls ih =>
    have hl : trim l ≠ END_CERTIFICATE := hb l (List.mem_cons_self _ _)
    have hstep : editStep m s l =
        some { s with outFile := if r then s.outFile else s.outFile ++ [trim l] } := by
      cases r <;> simp [editStep, hs, hl, hr]
    simp only [editLoop, hstep]
    rw [ih (fun x hx => hb x (List.mem_cons_of_mem _ hx))
      { s with outFile := if r then s.outFile else s.outFile ++ [trim l] } hs hr]
    cases r <;> simp

theorem editLoop_cert (m : List Bool) (r : Bool) (c : Cert) (hc : c.WellFormed) (s : EditState)
    (hs : s.inCert = false) (hr : m[s.count]? = some r) :
    editLoop m s c.lines =
      some { count := s.count + 1, inCert := false,
             blankLineNeeded := if r then s.blankLineNeeded else true,
             outFile := if r then s.outFile
               else s.outFile ++ ((if s.blankLineNeeded then [[]] else []) ++ c.trimmed) } := by
  obtain ⟨h1, h2, h3⟩ := hc
  have hf : flagAt m (s.count + 1) = some r := by simp [flagAt, hr]
  have hstep : editStep m s c.beginLine =
      some { count := s.count + 1, inCert := true,
             blankLineNeeded := if r then s.blankLineNeeded else false,
             outFile := if r then s.outFile
               else s.outFile ++ ((if s.blankLineNeeded then [[]] else []) ++ [trim c.beginLine]) } := by
    cases r <;> cases hbl : s.blankLineNeeded <;> simp [editStep, hs, h1, hf, hbl]
  rw [Cert.lines]
  simp only [editLoop, hstep]
  rw [editLoop_append,
    editLoop_body m r c.body h2
      { count := s.count + 1, inCert := true,
        blankLineNeeded := if r then s.blankLineNeeded else false,
        outFile := if r then s.outFile
          else s.outFile ++ ((if s.blankLineNeeded then [[]] else []) ++ [trim c.beginLine]) }
      rfl hf]
  cases r <;> cases hbl : s.blankLineNeeded <;>
    simp [editLoop, editStep, h3, hf, Cert.trimmed, Cert.lines, h1]

theorem keptBlocks_cons (r : Bool) (m : List Bool) (c : Cert) (cs : List Cert) :
    keptBlocks (r :: m) (c :: cs) =
      if r then keptBlocks m cs else c.trimmed :: keptBlocks m cs := by
  cases r <;> simp [keptBlocks, List.filter_cons]

theorem emitBlocks_true (ks : List (List Line)) :
    emitBlocks true ks = if ks = [] then [] else [] :: List.intercalate [[]] ks := by
  induction ks with
  | nil => simp [emitBlocks]
  | cons k ks ih =>
    cases ks with
    | nil => simp [emitBlocks, List.intercalate]
    | cons k2 ks2 =>
      rw [emitBlocks, ih]
      simp [List.intercalate, List.intersperse]

theorem emitBlocks_false (ks : List (List Line)) :
    emitBlocks false ks = List.intercalate [[]] ks := by
  cases ks with
  | nil => simp [emitBlocks, List.intercalate]
  | cons k ks =>
    rw [emitBlocks, emitBlocks_true]
    cases ks with
    | nil => simp [List.intercalate]
    | cons k2 ks2 => simp [List.intercalate, List.intersperse]

theorem editLoop_bundle (m : List Bool) (last : List Line) (hl : IsGap last)
    (b : List (List Line × Cert)) (hb : ∀ p ∈ b, IsGap p.1 ∧ p.2.WellFormed)
    (s : EditState) (hs : s.inCert = false) (mrem : List Bool) (hm : m.drop s.count = mrem)
    (hlen : mrem.length = b.length) :
    ∃ s1, editLoop m s (bundleLines b last) = some s1 ∧ s1.count = s.count + b.length ∧
      s1.inCert = false ∧
      s1.outFile = s.outFile ++
        emitBlocks s.blankLineNeeded (keptBlocks mrem (b.map (fun p => p.2))) := by
  induction b generalizing s mrem with
  | nil =>
    refine ⟨s, ?_, rfl, hs, ?_⟩
    · simpa [bundleLines] using editLoop_gap m last hl s hs
    · simp [keptBlocks, emitBlocks]
  | cons p rest ih =>
    obtain ⟨gap, c⟩ := p
    have hp := hb (gap, c) (List.mem_cons_self _ _)
    have hrest : ∀ q ∈ rest, IsGap q.1 ∧ q.2.WellFormed :=
      fun q hq => hb q (List.mem_cons_of_mem _ hq)
    cases mrem with
    | nil => simp at hlen
    | cons r mrem1 =>
      have hr : m[s.count]? = some r := by
        have h0 := congrArg (fun l => l[0]?) hm
        simpa [List.getElem?_drop] using h0
      have hm1 : m.drop (s.count + 1) = mrem1 := by
        have h0 := congrArg List.tail hm
        simpa [List.tail_drop] using h0
      have hc := editLoop_cert m r c hp.2 s hs hr
      obtain ⟨s1, e1, c1, i1, o1⟩ := ih hrest
        { count := s.count + 1, inCert := false,
          blankLineNeeded := if r then s.blankLineNeeded else true,
          outFile := if r then s.outFile
            else s.outFile ++ ((if s.blankLineNeeded then [[]] else []) ++ c.trimmed) }
        rfl mrem1 hm1 (by simpa using hlen)
      refine ⟨s1, ?_, ?_, i1, ?_⟩
      · rw [bundleLines, editLoop_append, editLoop_gap m gap hp.1 s hs]
        simp only [Option.some_bind]
        rw [editLoop_append, hc]
        simpa using e1
      · rw [c1]; simp; omega
      · rw [o1, List.map_cons, keptBlocks_cons]
        cases r <;> simp [emitBlocks]

/-- C2: for a bundle of well-formed certificates and a removal mask with one entry
per certificate, the strings written by the filter loop of `editCertFile` are
exactly the kept certificate blocks (mask entry false; their lines as the loop
holds them in `buffer`) in file order, joined by exactly one empty line between
consecutive kept blocks: nothing before the first, nothing after the last, no
second empty line where a removed certificate lay in between, and no line from
outside a certificate block. -/
theorem C2_filter_output (mask : List Bool) (b : List (List Line × Cert)) (last : List Line)
    (hwf : WellFormedBundle b last) (hmask : mask.length = b.length) :
    editWritten mask (bundleLines b last) =
      some (List.intercalate [[]] (keptBlocks mask (b.map (fun p => p.2)))) := by
  obtain ⟨s1, e1, _, _, o1⟩ :=
    editLoop_bundle mask last hwf.2 b hwf.1 editInit rfl mask (by simp [editInit]) hmask
  rw [editWritten, e1, Option.map_some', o1]
  simp [editInit, emitBlocks_false]

/-- An instance of C1: the three-certificate sample bundle yields blocks 1, 2, 3. -/
theorem C1_segmenter_blocks_witness :
    WellFormedBundle sampleBundle [] ∧
    (decodeLoop sampleEnv decodeInit (bundleLines sampleBundle [])).count = 3 ∧
    (decodeLoop sampleEnv decodeInit (bundleLines sampleBundle [])).blocks.length = 3 ∧
    (decodeLoop sampleEnv decodeInit (bundleLines sampleBundle [])).blocks.map Prod.fst =
      [1, 2, 3] ∧
    (decodeLoop sampleEnv decodeInit (bundleLines sampleBundle [])).blocks.map Prod.snd =
      [sampleCertA.trimmed, sampleCertB.trimmed, sampleCertC.trimmed] :=
  ⟨by decide, C1_segmenter_blocks sampleEnv sampleBundle [] (by decide)⟩

/-- An instance of C2: the three-certificate sample bundle with mask
`[false, true, false]` yields certificate 1, one empty line, certificate 3. -/
theorem C2_filter_output_witness :
    WellFormedBundle sampleBundle [] ∧ [false, true, false].length = sampleBundle.length ∧
    editWritten [false, true, false] (bundleLines sampleBundle []) =
      some (sampleCertA.trimmed ++ [[]] ++ sampleCertC.trimmed) :=
  ⟨by decide, by decide,
    (C2_filter_output [false, true, false] sampleBundle [] (by decide) (by decide)).trans
      (by decide)⟩

theorem keptBlocks_all (certs : List Cert) :
    keptBlocks (List.replicate certs.length false) certs = certs.map (fun c => c.trimmed) := by
  induction certs with
  | nil => simp [keptBlocks]
  | cons c cs ih =>
    rw [List.length_cons, List.replicate_succ, keptBlocks_cons, ih]
    simp

theorem render_append (xs ys : List Line) : render (xs ++ ys) = render xs ++ render ys := by
  simp [render]

theorem render_intercalate (ks : List (List Line)) :
    render (List.intercalate [[]] ks) = List.intercalate [Char.ofNat 10] (ks.map render) := by
  induction ks with
  | nil => simp [List.intercalate, render]
  | cons k ks ih =>
    cases ks with
    | nil => simp [List.intercalate]
    | cons k2 ks2 =>
      have h1 : List.intercalate [[]] (k :: k2 :: ks2) =
          k ++ ([[]] ++ List.intercalate [[]] (k2 :: ks2)) := by
        simp [List.intercalate, List.intersperse]
      have h2 : List.intercalate [Char.ofNat 10] (List.map render (k :: k2 :: ks2)) =
          render k ++ ([Char.ofNat 10] ++
            List.intercalate [Char.ofNat 10] (List.map render (k2 :: ks2))) := by
        simp [List.intercalate, List.intersperse]
      rw [h1, h2, render_append, render_append, ih]
      simp [render]

theorem render_plain (ls : List Line) (h : ∀ l ∈ ls, IsPlainLine l) :
    render (ls.map trim) = ls.flatten := by
  induction ls with
  | nil => simp [render]
  | cons l ls ih =>
    have hl : l = trim l ++ [Char.ofNat 10] := h l (List.mem_cons_self _ _)
    have ht := ih (fun x hx => h x (List.mem_cons_of_mem _ hx))
    simp only [render, List.map_cons, List.flatMap_cons, List.flatten_cons] at ht ⊢
    rw [ht, ← hl]

/-- C3 as stated fails: the well-formed one-certificate bundle with CR-LF line ends,
read line by line with `fgets`, is not written back byte-for-byte by the filter
loop with an all-false mask. -/
theorem C3_counterexample :
    fgetsLines 4096 sampleCertB.bytes [] = bundleLines [([], sampleCertB)] [] ∧
    WellFormedBundle [([], sampleCertB)] [] ∧
    (editWritten [false] (bundleLines [([], sampleCertB)] [])).map render ≠
      some sampleCertB.bytes := by
  decide

/-- C3, amended: for a file whose bytes `fgets` returns, in strings of at most 4095
characters, as the lines of a bundle of N well-formed certificates, the filter
loop with an all-false mask writes every certificate block string by string,
each string from the begin marker through the end marker with its trailing
white space removed by `trim` and one newline appended, and one empty line
between blocks; when every string read for the blocks ends in exactly one
newline with no other trailing white space (so that every line is shorter than
the buffer), the bytes written for the blocks are the bytes read. -/
theorem C3_reemit_trimmed (content : List Char) (b : List (List Line × Cert))
    (last : List Line) (hread : fgetsLines 4096 content [] = bundleLines b last)
    (hwf : WellFormedBundle b last) :
    filterAllFalse b.length content =
      some (render (List.intercalate [[]] (b.map (fun p => p.2.trimmed)))) ∧
    ((∀ p ∈ b, ∀ l ∈ p.2.lines, IsPlainLine l) →
      filterAllFalse b.length content =
        some (List.intercalate [Char.ofNat 10] (b.map (fun p => p.2.bytes)))) := by
  have hk := keptBlocks_all (b.map (fun p => p.2))
  rw [List.length_map] at hk
  obtain ⟨s1, e1, _, _, o1⟩ :=
    editLoop_bundle (List.replicate b.length false) last hwf.2 b hwf.1 editInit rfl
      (List.replicate b.length false) (by simp [editInit]) (by simp)
  have h1 : filterAllFalse b.length content =
      some (render (List.intercalate [[]] (b.map (fun p => p.2.trimmed)))) := by
    rw [filterAllFalse, hread, e1, Option.map_some', o1, hk, List.map_map]
    simp [editInit, emitBlocks_false, Function.comp_def]
  refine ⟨h1, fun hp => ?_⟩
  rw [h1, render_intercalate, List.map_map]
  congr 2
  apply List.map_congr_left
  intro p hpb
  exact render_plain p.2.lines (hp p hpb)

set_option maxRecDepth 100000 in
/-- An instance of the amended C3: a file of a comment line and two certificates
with plain lines is written back as the two blocks, byte for byte, with one
newline between them. -/
theorem C3_reemit_trimmed_witness :
    fgetsLines 4096 ("# roots\n".toList ++ sampleCertA.bytes ++ sampleCertA.bytes) [] =
      bundleLines [(["# roots\n".toList], sampleCertA), ([], sampleCertA)] [] ∧
    WellFormedBundle [(["# roots\n".toList], sampleCertA), ([], sampleCertA)] [] ∧
    (∀ p ∈ [(["# roots\n".toList], sampleCertA), ([], sampleCertA)],
      ∀ l ∈ p.2.lines, IsPlainLine l) ∧
    filterAllFalse 2 ("# roots\n".toList ++ sampleCertA.bytes ++ sampleCertA.bytes) =
      some (sampleCertA.bytes ++ [Char.ofNat 10] ++ sampleCertA.bytes) :=
  ⟨by decide, by decide, by decide,
    ((C3_reemit_trimmed ("# roots\n".toList ++ sampleCertA.bytes ++ sampleCertA.bytes)
      [(["# roots\n".toList], sampleCertA), ([], sampleCertA)] [] (by decide)
      (by decide)).2 (by decide)).trans (by decide)⟩

/-! ### The selection loop of `deleteOneCert` -/

theorem setAt_setAt {α : Type} (arr : Nat → α) (k : Nat) (v w : α) :
    setAt (setAt arr k v) k w = setAt arr k w := by
  funext j
  simp only [setAt]
  split <;> rfl

theorem slot_eq_some (n : Nat) (h1 : 1 ≤ n) (h2 : n ≤ MAXIMUM_CERTIFICATES) :
    slot n = some (n - 1) := by
  simp [slot, h1, h2]

theorem slot_some_iff (n k : Nat) :
    slot n = some k ↔ (1 ≤ n ∧ n ≤ MAXIMUM_CERTIFICATES) ∧ k = n - 1 := by
  unfold slot
  split <;> rename_i h
  · simp only [Option.some.injEq]
    constructor
    · intro e; exact ⟨h, e.symm⟩
    · intro e; exact e.2.symm
  · simp only [reduceCtorEq, false_iff]
    intro e; exact h e.1

/-- A header line starts a record: the step is defined when the arrays have room. -/
theorem deleteStep_header (o : DeleteOpts) (s : DeleteState) (raw : Line) (hh : IsHeader raw)
    (hroom : s.totalCount < MAXIMUM_CERTIFICATES) :
    ∃ s1, deleteStep o s raw = some s1 ∧ s1.totalCount = s.totalCount + 1 ∧
      s1.remove = setAt s.remove s.totalCount
        (decide ((s.totalCount : Int) + 1 = o.delete_number)) ∧
      s1.deleteCount = s.deleteCount +
        (if (s.totalCount : Int) + 1 = o.delete_number then 1 else 0) := by
  have hslot : slot (s.totalCount + 1) = some s.totalCount := by
    rw [slot_eq_some _ (by omega) (by omega)]; simp
  have hset : setAt s.remove s.totalCount false s.totalCount = false := by simp [setAt]
  unfold IsHeader at hh
  unfold deleteStep
  simp only [hh, hslot, if_true, hset, and_true]
  split
  · rename_i hP
    push_cast at hP
    exact ⟨_, rfl, rfl, by simp [markAt, setAt_setAt, hP], by simp [markAt, hP]⟩
  · rename_i hP
    push_cast at hP
    exact ⟨_, rfl, rfl, by simp [hP], by simp [hP]⟩

theorem deleteStep_other_of_some (o : DeleteOpts) (s s1 : DeleteState) (raw : Line)
    (hh : ¬ IsHeader raw) (h : deleteStep o s raw = some s1) : StepFrame o s s1 := by
  unfold IsHeader at hh
  unfold deleteStep at h
  simp only [hh, Bool.false_eq_true, if_false] at h
  unfold StepFrame
  split at h
  · split at h
    · exact absurd h (by simp)
    · rename_i k hk
      rw [slot_some_iff] at hk
      obtain ⟨hb, rfl⟩ := hk
      split at h
      · split at h
        · rename_i hrem hmatch
          cases h
          exact ⟨rfl, Or.inr ⟨hb, hrem, rfl, rfl, Or.inl hmatch.1⟩⟩
        · cases h; exact ⟨rfl, Or.inl ⟨rfl, rfl⟩⟩
      · cases h; exact ⟨rfl, Or.inl ⟨rfl, rfl⟩⟩
  · split at h
    · split at h
      · split at h
        · exact absurd h (by simp)
        · rename_i k hk
          rw [slot_some_iff] at hk
          obtain ⟨hb, rfl⟩ := hk
          split at h
          · rename_i hmark
            cases h
            exact ⟨rfl, Or.inr ⟨hb, hmark.2, rfl, rfl, Or.inr (Or.inr hmark.1)⟩⟩
          · cases h; exact ⟨rfl, Or.inl ⟨rfl, rfl⟩⟩
      · cases h; exact ⟨rfl, Or.inl ⟨rfl, rfl⟩⟩
    · split at h
      · split at h
        · exact absurd h (by simp)
        · cases h; exact ⟨rfl, Or.inl ⟨rfl, rfl⟩⟩
      · split at h
        · split at h
          · exact absurd h (by simp)
          · cases h; exact ⟨rfl, Or.inl ⟨rfl, rfl⟩⟩
        · split at h
          · split at h
            · exact absurd h (by simp)
            · rename_i k hk
              rw [slot_some_iff] at hk
              obtain ⟨hb, rfl⟩ := hk
              split at h
              · split at h
                · rename_i hrem hmatch
                  cases h
                  exact ⟨rfl, Or.inr ⟨hb, hrem, rfl, rfl, Or.inr (Or.inl hmatch.1)⟩⟩
                · cases h; exact ⟨rfl, Or.inl ⟨rfl, rfl⟩⟩
              · cases h; exact ⟨rfl, Or.inl ⟨rfl, rfl⟩⟩
          · cases h; exact ⟨rfl, Or.inl ⟨rfl, rfl⟩⟩

/-- A line that is not a header has a defined step once a header has been read
and the arrays have not been overrun. -/
theorem deleteStep_other_defined (o : DeleteOpts) (s : DeleteState) (raw : Line)
    (hh : ¬ IsHeader raw) (h1 : 1 ≤ s.totalCount) (h2 : s.totalCount ≤ MAXIMUM_CERTIFICATES) :
    ∃ s1, deleteStep o s raw = some s1 := by
  have hslot := slot_eq_some s.totalCount h1 h2
  unfold IsHeader at hh
  unfold deleteStep
  simp only [hh, Bool.false_eq_true, if_false, hslot]
  repeat' split
  all_goals exact ⟨_, rfl⟩

theorem deleteLoop_append (o : DeleteOpts) (s : DeleteState) (xs ys : List Line) :
    deleteLoop o s (xs ++ ys) = (deleteLoop o s xs).bind (fun s1 => deleteLoop o s1 ys) := by
  induction xs generalizing s with
  | nil => simp [deleteLoop]
  | cons x xs ih =>
    simp only [List.cons_append, deleteLoop]
    cases deleteStep o s x with
    | none => simp
    | some s1 => simpa using ih s1

theorem deleteLoop_rest_positionOnly (P : Int) (rest : List Line)
    (hr : ∀ l ∈ rest, ¬ IsHeader l) (s : DeleteState) (h1 : 1 ≤ s.totalCount)
    (h2 : s.totalCount ≤ MAXIMUM_CERTIFICATES) :
    ∃ s1, deleteLoop (positionOnly P) s rest = some s1 ∧ s1.totalCount = s.totalCount ∧
      s1.remove = s.remove ∧ s1.deleteCount = s.deleteCount := by
  induction rest generalizing s with
  | nil => exact ⟨s, rfl, rfl, rfl, rfl⟩
  | cons l ls ih =>
    have hl : ¬ IsHeader l := hr l (List.mem_cons_self _ _)
    obtain ⟨s1, e1⟩ := deleteStep_other_defined (positionOnly P) s l hl h1 h2
    obtain ⟨t1, f1⟩ := deleteStep_other_of_some (positionOnly P) s s1 l hl e1
    have keep : s1.remove = s.remove ∧ s1.deleteCount = s.deleteCount := by
      rcases f1 with f1 | ⟨_, _, _, _, hopt⟩
      · exact f1
      · simp [positionOnly] at hopt
    obtain ⟨s2, e2, t2, r2, d2⟩ := ih (fun x hx => hr x (List.mem_cons_of_mem _ hx)) s1
      (by omega) (by omega)
    exact ⟨s2, by simp only [deleteLoop, e1, e2], by omega, by rw [r2, keep.1],
      by rw [d2, keep.2]⟩

theorem deleteLoop_records_positionOnly (P : Int) (rs : List Record)
    (hwf : ∀ r ∈ rs, r.WellFormed) (s : DeleteState)
    (hcap : s.totalCount + rs.length ≤ MAXIMUM_CERTIFICATES) :
    ∃ s1, deleteLoop (positionOnly P) s (recordLines rs) = some s1 ∧
      s1.totalCount = s.totalCount + rs.length ∧
      (∀ k, k < s.totalCount → s1.remove k = s.remove k) ∧
      (∀ k, s.totalCount ≤ k → k < s.totalCount + rs.length →
        (s1.remove k = true ↔ (k : Int) + 1 = P)) ∧
      s1.deleteCount = s.deleteCount +
        (if (s.totalCount : Int) < P ∧ P ≤ (s.totalCount : Int) + rs.length then 1 else 0) := by
  induction rs generalizing s with
  | nil =>
    refine ⟨s, rfl, rfl, fun _ _ => rfl, fun k h1 h2 => ?_, ?_⟩
    · simp at h2; omega
    · have : ¬ ((s.totalCount : Int) < P ∧ P ≤ (s.totalCount : Int) + ([] : List Record).length) := by
        simp only [List.length_nil, Nat.cast_zero, add_zero]; omega
      rw [if_neg this]; rfl
  | cons r rest ih =>
    have hr := hwf r (List.mem_cons_self _ _)
    simp only [List.length_cons] at hcap
    obtain ⟨s1, e1, t1, r1, d1⟩ :=
      deleteStep_header (positionOnly P) s r.header hr.1 (by omega)
    obtain ⟨s2, e2, t2, r2, d2⟩ :=
      deleteLoop_rest_positionOnly P r.rest hr.2 s1 (by omega) (by omega)
    obtain ⟨s3, e3, t3, k3, r3, d3⟩ :=
      ih (fun x hx => hwf x (List.mem_cons_of_mem _ hx)) s2 (by omega)
    refine ⟨s3, ?_, ?_, ?_, ?_, ?_⟩
    · simp only [recordLines, deleteLoop, e1]
      rw [deleteLoop_append, e2]
      simpa using e3
    · simp only [List.length_cons]; omega
    · intro k hk
      rw [k3 k (by omega), r2, r1]
      simp only [setAt]
      rw [if_neg (by omega)]
    · intro k hk1 hk2
      simp only [List.length_cons] at hk2
      by_cases hk : k = s.totalCount
      · subst hk
        rw [k3 _ (by omega), r2, r1]
        simp [setAt, positionOnly]
      · exact r3 k (by omega) (by omega)
    · rw [d3, d2, d1, t2, t1]
      simp only [positionOnly, List.length_cons]
      push_cast
      split_ifs <;> omega

/-- Within the arrays the position selection is as C4 says: with only a target
position P given (no issuer string, no subject string, expired flag off), for
every decoder record stream of N certificates with N at most
`MAXIMUM_CERTIFICATES` (16) the loop of `deleteOneCert` finishes without error;
if 1 ≤ P ≤ N exactly the record at position P is marked and the removal count is
1; otherwise no record is marked and the removal count is 0. -/
theorem position_selection_within_arrays (P : Int) (u : DeleteState) (rs : List Record)
    (hwf : ∀ r ∈ rs, r.WellFormed) (hcap : rs.length ≤ MAXIMUM_CERTIFICATES) :
    ∃ s, deleteLoop (positionOnly P) (deleteInit u) (recordLines rs) = some s ∧
      s.totalCount = rs.length ∧
      (∀ k, k < rs.length → (s.remove k = true ↔ (k : Int) + 1 = P)) ∧
      s.deleteCount = (if 1 ≤ P ∧ P ≤ (rs.length : Int) then 1 else 0) := by
  obtain ⟨s1, e1, t1, _, r1, d1⟩ :=
    deleteLoop_records_positionOnly P rs hwf (deleteInit u) (by simpa [deleteInit] using hcap)
  refine ⟨s1, e1, by simpa [deleteInit] using t1, ?_, ?_⟩
  · intro k hk
    exact r1 k (by simp [deleteInit]) (by simpa [deleteInit] using hk)
  · rw [d1]
    simp only [deleteInit, Nat.cast_zero, zero_add]
    have hiff : (0 < P ∧ P ≤ (rs.length : Int)) ↔ (1 ≤ P ∧ P ≤ (rs.length : Int)) := by
      constructor <;> intro h <;> exact ⟨by omega, h.2⟩
    simp only [hiff]

/-- Target position 2 on the three-record sample stream. -/
theorem position_selection_within_arrays_sample :
    (∀ r ∈ sampleRecords, r.WellFormed) ∧ sampleRecords.length ≤ MAXIMUM_CERTIFICATES ∧
    ∃ s, deleteLoop (positionOnly 2) (deleteInit sampleUninit) (recordLines sampleRecords) =
        some s ∧
      s.totalCount = sampleRecords.length ∧
      (∀ k, k < sampleRecords.length → (s.remove k = true ↔ (k : Int) + 1 = 2)) ∧
      s.deleteCount = (if 1 ≤ (2 : Int) ∧ (2 : Int) ≤ (sampleRecords.length : Int) then 1 else 0) :=
  ⟨by decide, by decide,
    position_selection_within_arrays 2 sampleUninit sampleRecords (by decide) (by decide)⟩

/-- C5 fails on the code for a subject line that contains the text `Validity`: the
subject `C = US, O = Validity Inc, CN = www.validity.example` has the extracted
organization `Validity Inc`, which equals the subject-match string
`validity inc` ignoring case, and `parse_openssl` prints the line; but the loop
of `deleteOneCert` takes the line in its `Validity` branch, never stores or
tests the subject, and leaves the record unmarked with a removal count of 0. -/
theorem C5_subject_with_validity_text_not_marked :
    (parseNames "C = US, O = Validity Inc, CN = www.validity.example".toList).1 =
      "Validity Inc".toList ∧
    strcasecmpEq "Validity Inc".toList subjectOnly.opt_subject = true ∧
    parse_openssl sampleLib sampleEnv.opts 1000 sampleEnv.uninit
      ["        Subject: C = US, O = Validity Inc, CN = www.validity.example\n".toList] =
      ["        Subject: C = US, O = Validity Inc, CN = www.validity.example".toList] ∧
    validityIncRecord.WellFormed ∧
    (deleteLoop subjectOnly (deleteInit sampleUninit) (recordLines [validityIncRecord])).map
        (fun s => (s.totalCount, s.remove 0, s.deleteCount, s.subject 0)) =
      some (1, false, 0, []) := by
  refine ⟨by decide, by decide, by decide, by decide, by decide⟩

/-- C6 fails on the code for a certificate that is not yet valid: for a certificate
valid from 2000 to 3000 read at time 1000, `parse_openssl` prints the validity
line with the not-yet-valid text and without the expired text, and with only
the expired flag set the loop of `deleteOneCert` marks the record and counts 1. -/
theorem C6_not_yet_valid_marked_as_expired :
    parse_openssl sampleLib sampleEnv.opts 1000 sampleEnv.uninit futureCertReport =
      [ "        Issuer: C = US, O = Other Org, CN = Other CA".toList,
        "        Validity *** NOT YET VALID ***".toList,
        "            Not Before: 2000".toList,
        "            Not After : 3000".toList,
        "        Subject: C = US, O = Example Ltd, CN = mail.example.org".toList ] ∧
    (deleteLoop expiredOnly (deleteInit sampleUninit)
        (pipeLines ("======== ca.pem, Certificate 1".toList ::
          parse_openssl sampleLib sampleEnv.opts 1000 sampleEnv.uninit futureCertReport))).map
        (fun s => (s.totalCount, s.remove 0, s.deleteCount, s.validity_message 0)) =
      some (1, true, 1, "*** NOT YET VALID ***".toList) := by
  refine ⟨by decide, by decide⟩

/-! ### The removal count and the marks -/

theorem filter_range_setAt_of_le (f : Nat → Bool) (n k : Nat) (v : Bool) (h : n ≤ k) :
    (List.range n).filter (fun j => setAt f k v j) = (List.range n).filter (fun j => f j) := by
  apply List.filter_congr
  intro j hj
  have hjn := List.mem_range.mp hj
  have hne : j ≠ k := by omega
  simp [setAt, hne]

theorem length_filter_range_setAt_true (f : Nat → Bool) (n k : Nat) (hk : k < n)
    (hf : f k = false) :
    ((List.range n).filter (fun j => setAt f k true j)).length =
      ((List.range n).filter (fun j => f j)).length + 1 := by
  induction n with
  | zero => omega
  | succ n ih =>
    rw [List.range_succ, List.filter_append, List.filter_append, List.length_append,
      List.length_append]
    by_cases hkn : k = n
    · subst hkn
      rw [filter_range_setAt_of_le f k k true (le_refl k)]
      simp [setAt, hf]
    · rw [ih (by omega)]
      have hne : n ≠ k := fun e => hkn e.symm
      have hn : [n].filter (fun j => setAt f k true j) = [n].filter (fun j => f j) := by
        apply List.filter_congr
        intro j hj
        have hjn : j = n := by simpa using hj
        subst hjn
        simp [setAt, hne]
      rw [hn]
      omega

theorem markedCount_le (s : DeleteState) : markedCount s ≤ s.totalCount := by
  unfold markedCount
  calc ((List.range s.totalCount).filter (fun k => s.remove k)).length
      ≤ (List.range s.totalCount).length := List.length_filter_le _ _
    _ = s.totalCount := List.length_range _

theorem deleteStep_header_room (o : DeleteOpts) (s s1 : DeleteState) (raw : Line)
    (hh : IsHeader raw) (h : deleteStep o s raw = some s1) :
    s.totalCount < MAXIMUM_CERTIFICATES := by
  unfold IsHeader at hh
  unfold deleteStep at h
  simp only [hh, if_true] at h
  split at h
  · exact absurd h (by simp)
  · rename_i k hk
    rw [slot_some_iff] at hk
    omega

/-- One defined step keeps the removal count equal to the number of marked records
and never clears the mark of a record read before. -/
theorem deleteStep_invariant (o : DeleteOpts) (s s1 : DeleteState) (raw : Line)
    (h : deleteStep o s raw = some s1) (hinv : s.deleteCount = markedCount s) :
    s1.deleteCount = markedCount s1 ∧ s.totalCount ≤ s1.totalCount ∧
      (∀ k, k < s.totalCount → s.remove k = true → s1.remove k = true) := by
  by_cases hh : IsHeader raw
  · have hroom := deleteStep_header_room o s s1 raw hh h
    obtain ⟨s2, e2, t2, r2, d2⟩ := deleteStep_header o s raw hh hroom
    have hs : s2 = s1 := Option.some.inj (e2.symm.trans h)
    subst hs
    refine ⟨?_, by omega, ?_⟩
    · unfold markedCount
      rw [d2, t2, r2, List.range_succ, List.filter_append, List.length_append,
        filter_range_setAt_of_le s.remove s.totalCount s.totalCount _ (le_refl _), hinv]
      unfold markedCount
      by_cases hP : (s.totalCount : Int) + 1 = o.delete_number <;> simp [setAt, hP]
    · intro k hk hr
      rw [r2]
      have hne : k ≠ s.totalCount := by omega
      simpa [setAt, hne] using hr
  · obtain ⟨t1, f1⟩ := deleteStep_other_of_some o s s1 raw hh h
    rcases f1 with ⟨r1, d1⟩ | ⟨hb, hfalse, r1, d1, _⟩
    · refine ⟨?_, by omega, ?_⟩
      · unfold markedCount
        rw [d1, t1, r1, hinv]
        rfl
      · intro k _ hr
        rw [r1]; exact hr
    · refine ⟨?_, by omega, ?_⟩
      · unfold markedCount
        rw [d1, t1, r1,
          length_filter_range_setAt_true s.remove s.totalCount (s.totalCount - 1) (by omega)
            hfalse, hinv]
        rfl
      · intro k _ hr
        rw [r1]
        simp only [setAt]
        split
        · rfl
        · exact hr

theorem deleteLoop_invariant (o : DeleteOpts) (lines : List Line) (s s1 : DeleteState)
    (h : deleteLoop o s lines = some s1) (hinv : s.deleteCount = markedCount s) :
    s1.deleteCount = markedCount s1 ∧ s.totalCount ≤ s1.totalCount ∧
      (∀ k, k < s.totalCount → s.remove k = true → s1.remove k = true) := by
  induction lines generalizing s with
  | nil =>
    have hs : s = s1 := Option.some.inj h
    subst hs
    exact ⟨hinv, le_refl _, fun _ _ hr => hr⟩
  | cons l ls ih =>
    simp only [deleteLoop] at h
    cases hstep : deleteStep o s l with
    | none => rw [hstep] at h; exact absurd h (by simp)
    | some s2 =>
      rw [hstep] at h
      obtain ⟨i2, t2, m2⟩ := deleteStep_invariant o s s2 l hstep hinv
      obtain ⟨i3, t3, m3⟩ := ih s2 h i2
      exact ⟨i3, by omega, fun k hk hr => m3 k (by omega) (m2 k hk hr)⟩

/-- While the loop of `deleteOneCert` stays inside its arrays the removal count is
as C7 says: after the loop has processed any prefix of the stream the removal
count equals the number of records currently marked, so a record contributes at
most 1 however many criteria match it and the count never exceeds the number of
records; and a record marked after the prefix is still marked after any further
lines of the stream. -/
theorem count_equals_marked_within_arrays (o : DeleteOpts) (u : DeleteState) (pre suf : List Line)
    (s s1 : DeleteState) (hpre : deleteLoop o (deleteInit u) pre = some s)
    (hsuf : deleteLoop o s suf = some s1) :
    deleteLoop o (deleteInit u) (pre ++ suf) = some s1 ∧
    s.deleteCount = markedCount s ∧ s.deleteCount ≤ s.totalCount ∧
    (∀ k, k < s.totalCount → s.remove k = true → s1.remove k = true) := by
  have h0 : (deleteInit u).deleteCount = markedCount (deleteInit u) := by
    simp [deleteInit, markedCount]
  obtain ⟨i1, _, _⟩ := deleteLoop_invariant o pre (deleteInit u) s hpre h0
  obtain ⟨_, _, m2⟩ := deleteLoop_invariant o suf s s1 hsuf i1
  refine ⟨?_, i1, ?_, m2⟩
  · rw [deleteLoop_append, hpre]; simpa using hsuf
  · rw [i1]; exact markedCount_le s

theorem eq_some_getD_of_isSome {α : Type} (x : Option α) (d : α) (h : x.isSome = true) :
    x = some (x.getD d) := by
  cases x with
  | none => simp at h
  | some a => rfl

/-- The sample stream split after the second record's issuer
line, with every criterion given. -/
theorem count_equals_marked_within_arrays_sample :
    deleteLoop allCriteria (deleteInit sampleUninit) samplePrefix = some sampleMid ∧
    deleteLoop allCriteria sampleMid sampleSuffix = some sampleEnd ∧
    deleteLoop allCriteria (deleteInit sampleUninit) (samplePrefix ++ sampleSuffix) =
      some sampleEnd ∧
    sampleMid.deleteCount = markedCount sampleMid ∧
    sampleMid.deleteCount ≤ sampleMid.totalCount ∧
    (∀ k, k < sampleMid.totalCount → sampleMid.remove k = true → sampleEnd.remove k = true) :=
  ⟨eq_some_getD_of_isSome _ _ (by decide), eq_some_getD_of_isSome _ _ (by decide),
    count_equals_marked_within_arrays allCriteria sampleUninit samplePrefix sampleSuffix sampleMid sampleEnd
      (eq_some_getD_of_isSome _ _ (by decide)) (eq_some_getD_of_isSome _ _ (by decide))⟩

/-! ### The validity annotations of `parse_openssl` -/

theorem parseStep_validity {Tm : Type} (lib : TimeLib Tm) (o : DecodeOpts)
    (hv : o.opt_verbose = false) (now : Int) (s : ParseState Tm) (raw : Line)
    (h : IsValidityLine raw) :
    parseStep lib o now s raw = { s with validity_buffer := trim raw } := by
  obtain ⟨h1, h2⟩ := h
  unfold echoed at h1
  obtain ⟨cp, hcp⟩ := Option.isSome_iff_exists.mp h2
  simp only [parseStep, hv, h1, hcp, Bool.false_eq_true, if_false]

theorem parseStep_notBefore {Tm : Type} (lib : TimeLib Tm) (o : DecodeOpts)
    (hv : o.opt_verbose = false) (now : Int) (s : ParseState Tm) (raw text : Line)
    (h : notBeforeText raw = some text) :
    ∃ dbg, parseStep lib o now s raw =
      { validity_buffer :=
          if (lib.mktime (lib.strptime text s.parsed_time_struct)).1 > now
          then s.validity_buffer ++ NOT_YET_VALID else s.validity_buffer,
        before_buffer := trim raw,
        parsed_time_struct := (lib.mktime (lib.strptime text s.parsed_time_struct)).2,
        out := s.out ++ dbg } := by
  unfold notBeforeText at h
  split at h
  · exact absurd h (by simp)
  · rename_i he
    unfold echoed at he
    split at h
    · exact absurd h (by simp)
    · rename_i hval
      obtain ⟨cp, hcp, hdrop⟩ := Option.map_eq_some'.mp h
      subst hdrop
      refine ⟨if o.opt_debug then
          ["*** PARSED NOT BEFORE (".toList ++ cp.drop 12 ++ "): ".toList ++
            lib.strftime (lib.mktime (lib.strptime (cp.drop 12) s.parsed_time_struct)).2]
        else [], ?_⟩
      simp only [parseStep, hv, he, hval, hcp, Bool.false_eq_true, if_false]

theorem parseStep_notAfter {Tm : Type} (lib : TimeLib Tm) (o : DecodeOpts)
    (hv : o.opt_verbose = false) (now : Int) (s : ParseState Tm) (raw text : Line)
    (h : notAfterText raw = some text) :
    ∃ dbg, parseStep lib o now s raw =
      { validity_buffer :=
          if (lib.mktime (lib.strptime text s.parsed_time_struct)).1 < now
          then s.validity_buffer ++ EXPIRED else s.validity_buffer,
        before_buffer := s.before_buffer,
        parsed_time_struct := (lib.mktime (lib.strptime text s.parsed_time_struct)).2,
        out := s.out ++ dbg ++
          [ if (lib.mktime (lib.strptime text s.parsed_time_struct)).1 < now
            then s.validity_buffer ++ EXPIRED else s.validity_buffer,
            s.before_buffer, trim raw ] } := by
  unfold notAfterText at h
  split at h
  · exact absurd h (by simp)
  · rename_i he
    unfold echoed at he
    split at h
    · exact absurd h (by simp)
    · rename_i hval
      split at h
      · exact absurd h (by simp)
      · rename_i hnb
        obtain ⟨cp, hcp, hdrop⟩ := Option.map_eq_some'.mp h
        subst hdrop
        refine ⟨if o.opt_debug then
            ["*** PARSED NOT AFTER (".toList ++ cp.drop 12 ++ "): ".toList ++
              lib.strftime (lib.mktime (lib.strptime (cp.drop 12) s.parsed_time_struct)).2]
          else [], ?_⟩
        simp only [parseStep, hv, he, hval, hnb, hcp, Bool.false_eq_true, if_false]

/-- The validity line printed for a record whose report holds the validity line
`v`, the not-before line `b` and the not-after line `a` in this order. -/
theorem parseLoop_validity_record {Tm : Type} (lib : TimeLib Tm) (o : DecodeOpts)
    (hv : o.opt_verbose = false) (now : Int) (s : ParseState Tm) (v b a tb ta : Line)
    (hV : IsValidityLine v) (hB : notBeforeText b = some tb) (hA : notAfterText a = some ta) :
    ∃ dbg, (parseLoop lib o now s [v, b, a]).out = s.out ++ dbg ++
      [ (trim v ++
          (if (lib.mktime (lib.strptime tb s.parsed_time_struct)).1 > now
            then NOT_YET_VALID else [])) ++
          (if (lib.mktime (lib.strptime ta
                (lib.mktime (lib.strptime tb s.parsed_time_struct)).2)).1 < now
            then EXPIRED else []),
        trim b, trim a ] := by
  obtain ⟨d1, e1⟩ := parseStep_notBefore lib o hv now { s with validity_buffer := trim v } b tb hB
  obtain ⟨d2, e2⟩ := parseStep_notAfter lib o hv now
    { validity_buffer :=
        if (lib.mktime (lib.strptime tb s.parsed_time_struct)).1 > now
        then trim v ++ NOT_YET_VALID else trim v,
      before_buffer := trim b,
      parsed_time_struct := (lib.mktime (lib.strptime tb s.parsed_time_struct)).2,
      out := s.out ++ d1 } a ta hA
  refine ⟨d1 ++ d2, ?_⟩
  simp only [parseLoop, List.foldl]
  rw [parseStep_validity lib o hv now s v hV, e1, e2]
  by_cases hnb : (lib.mktime (lib.strptime tb s.parsed_time_struct)).1 > now <;>
    by_cases hna : (lib.mktime (lib.strptime ta
        (lib.mktime (lib.strptime tb s.parsed_time_struct)).2)).1 < now <;>
    simp [hnb, hna]

/-- C8 fails on the code for a name whose organization is followed by a component
other than the common name: for the issuer
`C = US, O = DigiCert Inc, OU = www.digicert.com, CN = DigiCert Global Root CA`
the organization component has the value `DigiCert Inc`, but `parseNames` cuts
only at `, CN =` and returns `DigiCert Inc, OU = www.digicert.com`; the common
name is the text after `CN = `. -/
theorem C8_organization_not_cut_at_next_component :
    renderDN digicertIssuer =
      "C = US, O = DigiCert Inc, OU = www.digicert.com, CN = DigiCert Global Root CA".toList ∧
    dnValue digicertIssuer "O".toList = "DigiCert Inc".toList ∧
    (parseNames (renderDN digicertIssuer)).1 = "DigiCert Inc, OU = www.digicert.com".toList ∧
    (parseNames (renderDN digicertIssuer)).1 ≠ dnValue digicertIssuer "O".toList ∧
    (parseNames (renderDN digicertIssuer)).2 = "DigiCert Global Root CA".toList := by
  refine ⟨by decide, by decide, by decide, by decide, by decide⟩

/-- C10 as stated fails: for a record with not-before 2000 and not-after 500 read
at time 1000, `parse_openssl` prints the validity line with both the
not-yet-valid text and the expired text. -/
theorem C10_counterexample :
    parse_openssl sampleLib sampleEnv.opts 1000 sampleEnv.uninit
        [sampleValidityLine, sampleNotBefore2000, sampleNotAfter500] =
      [ "        Validity *** NOT YET VALID *** *** EXPIRED ***".toList,
        "            Not Before: 2000".toList,
        "            Not After : 500".toList ] := by
  decide

/-- C10, amended: for all times `notBefore`, `notAfter` and `now`, the text that
`parse_openssl` appends to the validity line of a record is the not-yet-valid
text when `notBefore > now`, followed by the expired text when `notAfter < now`:
nothing, not-yet-valid, expired, or both, and both exactly when
`notAfter < now < notBefore`; when `notBefore ≤ notAfter` it is exactly one of
nothing, not-yet-valid, expired. -/
theorem C10_annotation_cases {Tm : Type} (lib : TimeLib Tm) (o : DecodeOpts)
    (hv : o.opt_verbose = false) (now notBefore notAfter : Int) (tm1 tm2 : Tm)
    (s : ParseState Tm) (v b a tb ta : Line)
    (hV : IsValidityLine v) (hB : notBeforeText b = some tb) (hA : notAfterText a = some ta)
    (hnb : lib.mktime (lib.strptime tb s.parsed_time_struct) = (notBefore, tm1))
    (hna : lib.mktime (lib.strptime ta tm1) = (notAfter, tm2)) :
    ∃ dbg annot,
      (parseLoop lib o now s [v, b, a]).out =
        s.out ++ dbg ++ [trim v ++ annot, trim b, trim a] ∧
      ((annot = [] ∧ notBefore ≤ now ∧ now ≤ notAfter) ∨
       (annot = NOT_YET_VALID ∧ now < notBefore ∧ now ≤ notAfter) ∨
       (annot = EXPIRED ∧ notBefore ≤ now ∧ notAfter < now) ∨
       (annot = NOT_YET_VALID ++ EXPIRED ∧ now < notBefore ∧ notAfter < now)) ∧
      (notBefore ≤ notAfter → annot = [] ∨ annot = NOT_YET_VALID ∨ annot = EXPIRED) := by
  obtain ⟨dbg, hout⟩ := parseLoop_validity_record lib o hv now s v b a tb ta hV hB hA
  rw [hnb] at hout
  simp only [] at hout
  rw [hna] at hout
  simp only [List.append_assoc] at hout
  by_cases h1 : notBefore > now <;> by_cases h2 : notAfter < now
  · refine ⟨dbg, NOT_YET_VALID ++ EXPIRED, ?_, ?_, ?_⟩
    · simpa [h1, h2] using hout
    · right; right; right; exact ⟨rfl, h1, h2⟩
    · intro h; omega
  · refine ⟨dbg, NOT_YET_VALID, ?_, ?_, ?_⟩
    · simpa [h1, h2] using hout
    · right; left; exact ⟨rfl, h1, by omega⟩
    · intro _; right; left; rfl
  · refine ⟨dbg, EXPIRED, ?_, ?_, ?_⟩
    · simpa [h1, h2] using hout
    · right; right; left; exact ⟨rfl, by omega, h2⟩
    · intro _; right; right; rfl
  · refine ⟨dbg, [], ?_, ?_, ?_⟩
    · simpa [h1, h2] using hout
    · left; exact ⟨rfl, by omega, by omega⟩
    · intro _; left; rfl

/-- An instance of the amended C10: a record valid from 100 to 500 read at time 1000. -/
theorem C10_annotation_cases_witness :
    sampleEnv.opts.opt_verbose = false ∧ IsValidityLine sampleValidityLine ∧
    notBeforeText sampleNotBefore100 = some "100".toList ∧
    notAfterText sampleNotAfter500 = some "500".toList ∧
    sampleLib.mktime (sampleLib.strptime "100".toList sampleParseState.parsed_time_struct) =
      (100, 100) ∧
    sampleLib.mktime (sampleLib.strptime "500".toList 100) = (500, 500) ∧
    ∃ dbg annot,
      (parseLoop sampleLib sampleEnv.opts 1000 sampleParseState
          [sampleValidityLine, sampleNotBefore100, sampleNotAfter500]).out =
        sampleParseState.out ++ dbg ++
          [trim sampleValidityLine ++ annot, trim sampleNotBefore100, trim sampleNotAfter500] ∧
      ((annot = [] ∧ (100 : Int) ≤ 1000 ∧ (1000 : Int) ≤ 500) ∨
       (annot = NOT_YET_VALID ∧ (1000 : Int) < 100 ∧ (1000 : Int) ≤ 500) ∨
       (annot = EXPIRED ∧ (100 : Int) ≤ 1000 ∧ (500 : Int) < 1000) ∨
       (annot = NOT_YET_VALID ++ EXPIRED ∧ (1000 : Int) < 100 ∧ (500 : Int) < 1000)) ∧
      ((100 : Int) ≤ 500 → annot = [] ∨ annot = NOT_YET_VALID ∨ annot = EXPIRED) :=
  ⟨by decide, by decide, by decide, by decide, by decide, by decide,
    C10_annotation_cases sampleLib sampleEnv.opts (by decide) 1000 100 500 100 500
      sampleParseState sampleValidityLine sampleNotBefore100 sampleNotAfter500
      "100".toList "500".toList (by decide) (by decide) (by decide) (by decide) (by decide)⟩

/-! ### The backup file name -/

theorem strrchr_append_of_some (xs ys cp : Line) (c : Char) (h : strrchr ys c = some cp) :
    strrchr (xs ++ ys) c = some cp := by
  induction xs with
  | nil => simpa using h
  | cons x xs ih => simp [strrchr, ih]

theorem strrchr_append_of_none (xs ys : Line) (c : Char) (h : strrchr ys c = none)
    (hx : c ∉ xs) : strrchr (xs ++ ys) c = none := by
  induction xs with
  | nil => simpa using h
  | cons x xs ih =>
    have hne : x ≠ c := fun e => hx (by simp [e])
    have hrest : c ∉ xs := fun e => hx (List.mem_cons_of_mem _ e)
    simp [strrchr, ih hrest, hne]

theorem strrchr_some_suffix (s cp : Line) (c : Char) (h : strrchr s c = some cp) :
    ∃ pre tail, s = pre ++ cp ∧ cp = c :: tail := by
  induction s with
  | nil => simp [strrchr] at h
  | cons x xs ih =>
    unfold strrchr at h
    cases hxs : strrchr xs c with
    | some cp1 =>
      rw [hxs] at h
      have hcp : cp1 = cp := by simpa using h
      subst hcp
      obtain ⟨pre, tail, e1, e2⟩ := ih hxs
      exact ⟨x :: pre, tail, by rw [e1]; rfl, e2⟩
    | none =>
      rw [hxs] at h
      by_cases hxc : x = c
      · simp only [hxc, if_true, Option.some.injEq] at h
        exact ⟨[], xs, by rw [← h, hxc]; rfl, by rw [← h]⟩
      · simp [hxc] at h

/-- Where the directory part of the path holds no dot, the name computed by
`deleteOneCert` is the backup path of the specification. -/
theorem backupFilename_eq_claimed (dir name : Line) (hdir : '.' ∉ dir) :
    backupFilename (dir ++ name) = claimedBackupPath dir name := by
  unfold backupFilename claimedBackupPath
  cases hn : strrchr name '.' with
  | none => rw [strrchr_append_of_none dir name '.' hn hdir]
  | some ext =>
    rw [strrchr_append_of_some dir name ext '.' hn]
    obtain ⟨pre, tail, e1, e2⟩ := strrchr_some_suffix name ext '.' hn
    subst e2
    subst e1
    have h1 : (dir ++ (pre ++ '.' :: tail)).length - ('.' :: tail).length =
        (dir ++ pre).length := by
      simp only [List.length_append, List.length_cons]; omega
    have h2 : (pre ++ '.' :: tail).length - ('.' :: tail).length = pre.length := by
      simp only [List.length_append, List.length_cons]; omega
    have h3 : (dir ++ (pre ++ '.' :: tail)).take (dir ++ pre).length = dir ++ pre := by
      rw [← List.append_assoc]
      exact List.take_left' rfl
    have h4 : (pre ++ '.' :: tail).take pre.length = pre := List.take_left' rfl
    simp only []
    rw [h1, h2, h3, h4]
    simp

/-- C14 fails on the code where a directory part of the path holds a dot and the
file name has none, or where the path starts with `./`: `strrchr` finds the last
dot of the whole path, so for `/etc/ssl.d/cacert` the name computed is
`/etc/ssl-BACKUP.d/cacert` and for `./bundle` it is `-BACKUP./bundle`, where the
backup path in the words of the specification is `/etc/ssl.d/cacert-BACKUP` and
`./bundle-BACKUP`. -/
theorem C14_backup_name_uses_last_dot_of_path :
    backupFilename "/etc/ssl.d/cacert".toList = "/etc/ssl-BACKUP.d/cacert".toList ∧
    claimedBackupPath "/etc/ssl.d/".toList "cacert".toList = "/etc/ssl.d/cacert-BACKUP".toList ∧
    backupFilename "./bundle".toList = "-BACKUP./bundle".toList ∧
    claimedBackupPath "./".toList "bundle".toList = "./bundle-BACKUP".toList ∧
    backupFilename "/etc/ssl/certs/ca.pem".toList = "/etc/ssl/certs/ca-BACKUP.pem".toList := by
  refine ⟨by decide, by decide, by decide, by decide, by decide⟩

/-- C15 fails on the code for a bundle of more than 16 certificates: the mask
handed to `editCertFile` is the array `remove` of `MAXIMUM_CERTIFICATES` = 16
flags whatever the number of certificates; for 17 certificates the selection
loop indexes the arrays at 16 on the 17th header, and the filter loop reads
flag 16 of the 16-entry mask at the 17th begin marker. -/
theorem C15_mask_is_sixteen_flags :
    (∀ s : DeleteState, (removeArray s).length = 16) ∧
    (∀ r ∈ headerRecords 17, r.WellFormed) ∧
    deleteLoop (positionOnly 1) (deleteInit sampleUninit) (recordLines (headerRecords 17)) =
      none ∧
    WellFormedBundle (repeatedBundle 17) [] ∧
    (editLoop (removeArray sampleUninit) editInit (bundleLines (repeatedBundle 17) [])).isNone =
      true ∧
    (editLoop (removeArray sampleUninit) editInit (bundleLines (repeatedBundle 16) [])).isSome =
      true := by
  refine ⟨fun s => by simp [removeArray, MAXIMUM_CERTIFICATES], by decide, rfl, by decide,
    by decide, by decide⟩

/-! ### The decision of `deleteOneCert` after the selection loop -/

theorem deleteOneCert_eq_finish (env : SysEnv) (o : RunOpts) (f : EditFaults)
    (forceFault : Bool) (fs : FileSystem) (filename : Line) (file : File) (pipe : List Line)
    (s : DeleteState) (hstat : fs (env.resolve filename) = some file)
    (hpipe : env.popen (if o.opt_path then "decodeCert -p ".toList ++ filename
      else "decodeCert ".toList ++ filename) fs = some pipe)
    (hloop : deleteLoop o.sel (deleteInit env.uninit_state) pipe = some s) :
    deleteOneCert env o f forceFault fs filename =
      deleteOneCertFinish env o f forceFault fs (certfileOf o.opt_path env.wd filename)
        file.st_mode s := by
  simp only [deleteOneCert, hstat, hpipe, hloop]

/-- A call of `deleteOneCert` that does not reach `editCertFile` leaves the file
system as it was. -/
theorem deleteOneCert_frame (env : SysEnv) (o : RunOpts) (f : EditFaults) (forceFault : Bool)
    (fs : FileSystem) (filename : Line) (out : Outcome)
    (h : deleteOneCert env o f forceFault fs filename = some out)
    (hno : o.opt_test = true ∨ (o.opt_force = false ∧
      fs (env.resolve (backupFilename (certfileOf o.opt_path env.wd filename))) ≠ none)) :
    out.fs = fs ∧ out.rewriter = none := by
  unfold deleteOneCert at h
  simp only [] at h
  split at h
  · cases h; exact ⟨rfl, rfl⟩
  · split at h
    · cases h; exact ⟨rfl, rfl⟩
    · split at h
      · exact absurd h (by simp)
      · unfold deleteOneCertFinish at h
        simp only [] at h
        split at h
        · cases h; exact ⟨rfl, rfl⟩
        · split at h
          · cases h; exact ⟨rfl, rfl⟩
          · split at h
            · cases h; exact ⟨rfl, rfl⟩
            · rename_i htest
              rcases hno with hno | ⟨hforce, hback⟩
              · exact absurd hno htest
              · split at h
                · simp only [hforce, Bool.false_eq_true, if_false] at h
                  cases h; exact ⟨rfl, rfl⟩
                · rename_i hnone
                  exact absurd hnone hback

theorem finish_of_zero (env : SysEnv) (o : RunOpts) (f : EditFaults) (forceFault : Bool)
    (fs : FileSystem) (certfile : Line) (in_mode : Nat) (s : DeleteState)
    (h0 : s.deleteCount = 0) :
    deleteOneCertFinish env o f forceFault fs certfile in_mode s =
      some { fs := fs, stdout := statusLine (reportFilenameOf env fs certfile) s
               "File NOT Modified".toList :: reportLines s,
             stderr := [], rewriter := none } := by
  unfold deleteOneCertFinish
  simp only []
  rw [if_pos h0]

theorem finish_of_all (env : SysEnv) (o : RunOpts) (f : EditFaults) (forceFault : Bool)
    (fs : FileSystem) (certfile : Line) (in_mode : Nat) (s : DeleteState)
    (h0 : s.deleteCount ≠ 0) (hall : s.deleteCount = s.totalCount) :
    deleteOneCertFinish env o f forceFault fs certfile in_mode s =
      some { fs := fs, stdout := statusLine (reportFilenameOf env fs certfile) s
               "Entire file must be deleted".toList :: reportLines s,
             stderr := [], rewriter := none } := by
  unfold deleteOneCertFinish
  simp only []
  rw [if_neg h0, if_pos hall]

theorem finish_of_test (env : SysEnv) (o : RunOpts) (f : EditFaults) (forceFault : Bool)
    (fs : FileSystem) (certfile : Line) (in_mode : Nat) (s : DeleteState)
    (h0 : s.deleteCount ≠ 0) (hall : s.deleteCount ≠ s.totalCount) (htest : o.opt_test = true) :
    deleteOneCertFinish env o f forceFault fs certfile in_mode s =
      some { fs := fs, stdout := statusLine (reportFilenameOf env fs certfile) s
               "File not updated in Test Mode".toList :: reportLines s,
             stderr := [], rewriter := none } := by
  unfold deleteOneCertFinish
  simp only []
  rw [if_neg h0, if_neg hall, if_pos htest]

theorem finish_of_backup_without_force (env : SysEnv) (o : RunOpts) (f : EditFaults)
    (forceFault : Bool) (fs : FileSystem) (certfile : Line) (in_mode : Nat) (s : DeleteState)
    (old : File) (h0 : s.deleteCount ≠ 0) (hall : s.deleteCount ≠ s.totalCount)
    (htest : o.opt_test = false) (hback : fs (env.resolve (backupFilename certfile)) = some old)
    (hforce : o.opt_force = false) :
    deleteOneCertFinish env o f forceFault fs certfile in_mode s =
      some { fs := fs, stdout := statusLine (reportFilenameOf env fs certfile) s
               ("Backup ".toList ++ backupFilename certfile ++ " already exists so ".toList ++
                 certfile ++ " will NOT be updated".toList) :: reportLines s,
             stderr := [], rewriter := none } := by
  unfold deleteOneCertFinish
  simp only []
  rw [if_neg h0, if_neg hall, if_neg (by rw [htest]; simp)]
  simp only [hback, hforce, Bool.false_eq_true, if_false]

/-- C11: for every value of the loop variables with which the selection loop of
`deleteOneCert` can end (every bundle and every criteria: the part after the
loop acts on the variables as it finds them), when the removal count is zero, or
equals the certificate count, that part does not call `editCertFile`: the file
system is left as it was (no backup, no rename, no rewrite), nothing is printed
on `stderr`, and the status line printed ends in `(File NOT Modified)` in the
first case and in `(Entire file must be deleted)` in the second; the report
lines follow it. -/
theorem C11_no_rewrite_for_none_or_all (env : SysEnv) (o : RunOpts) (f : EditFaults)
    (forceFault : Bool) (fs : FileSystem) (certfile : Line) (in_mode : Nat) (s : DeleteState)
    (hcount : s.deleteCount = 0 ∨ s.deleteCount = s.totalCount) :
    ∃ out, deleteOneCertFinish env o f forceFault fs certfile in_mode s = some out ∧
      out.rewriter = none ∧ out.fs = fs ∧ out.stderr = [] ∧
      out.stdout =
        ("######## ".toList ++ reportFilenameOf env fs certfile ++ ", ".toList ++
          (Nat.repr s.totalCount).toList ++ " Certificates in File, Delete ".toList ++
          (Nat.repr s.deleteCount).toList ++
          (if s.deleteCount = 0 then " (File NOT Modified)".toList
            else " (Entire file must be deleted)".toList)) ::
        (List.range s.totalCount).map (fun i =>
          fmt3d (i + 1) ++ ". ".toList ++
            (if s.remove i then "DELETE".toList else "      ".toList) ++ " ".toList ++
            fmt21s (s.validity_message i) ++ " ".toList ++ s.validity_range i ++
            "; Issuer <".toList ++ s.issuer i ++ ">; Subject <".toList ++ s.subject i ++
            ">".toList) := by
  by_cases h0 : s.deleteCount = 0
  · refine ⟨_, finish_of_zero env o f forceFault fs _ _ s h0, rfl, rfl, rfl, ?_⟩
    rw [if_pos h0]
    simp [statusLine, reportLines, reportLine]
  · have hall : s.deleteCount = s.totalCount := hcount.resolve_left h0
    refine ⟨_, finish_of_all env o f forceFault fs _ _ s h0 hall, rfl, rfl, rfl, ?_⟩
    rw [if_neg h0]
    simp [statusLine, reportLines, reportLine]

set_option maxRecDepth 100000 in
/-- An instance of C11: `-n 9` on the three-certificate sample marks nothing; the
run of `deleteOneCert` is the part after the loop on the variables the loop
ends with, and prints the status and the three report lines. -/
theorem C11_no_rewrite_for_none_or_all_witness :
    (sampleSelNinth.deleteCount = 0 ∨ sampleSelNinth.deleteCount = sampleSelNinth.totalCount) ∧
    deleteOneCert sampleSys removeNinth noFaults false sampleFs "ca.pem".toList =
      deleteOneCertFinish sampleSys removeNinth noFaults false sampleFs "ca.pem".toList
        sampleFile.st_mode sampleSelNinth ∧
    ∃ out, deleteOneCertFinish sampleSys removeNinth noFaults false sampleFs "ca.pem".toList
        sampleFile.st_mode sampleSelNinth = some out ∧
      out.rewriter = none ∧ out.fs = sampleFs ∧ out.stderr = [] ∧
      out.stdout =
        [ ("######## ca.pem, 3 Certificates in File, Delete 0 (File NOT Modified)").toList,
          ("  1.        *** EXPIRED ***       Jan  1 00:00:00 2010 GMT - Jan  1 00" ++
            ":00:00 2020 GMT; Issuer <C = US, O = Acme Corp, CN = Acme Root CA>; Su" ++
            "bject <C = US, O = Acme Corp, CN = Acme Root CA>").toList,
          ("  2.                              Jan  1 00:00:00 2020 GMT - Jan  1 00" ++
            ":00:00 2040 GMT; Issuer <C = US, O = Acme Corp, CN = Acme Root CA>; Su" ++
            "bject <C = US, O = Example Ltd, CN = www.example.org>").toList,
          ("  3.        *** NOT YET VALID *** Jan  1 00:00:00 2039 GMT - Jan  1 00" ++
            ":00:00 2040 GMT; Issuer <C = US, O = Other Org, CN = Other CA>; Subjec" ++
            "t <C = US, O = Example Ltd, CN = mail.example.org>").toList ] := by
  obtain ⟨out, h, hr, hf, he, hs⟩ :=
    C11_no_rewrite_for_none_or_all sampleSys removeNinth noFaults false sampleFs
      "ca.pem".toList sampleFile.st_mode sampleSelNinth (by decide)
  exact ⟨by decide,
    deleteOneCert_eq_finish sampleSys removeNinth noFaults false sampleFs "ca.pem".toList
      sampleFile (recordLines sampleRecords) sampleSelNinth rfl (by decide)
      (eq_some_getD_of_isSome _ _ (by decide)),
    out, h, hr, hf, he, hs.trans (by decide)⟩

set_option maxRecDepth 100000 in
/-- C12 as stated fails: beside an existing backup and without force, the status
reported does not say for every selection that the file will not be updated.
When every certificate of the sample bundle is selected the status is
`Entire file must be deleted`, when none is selected it is `File NOT Modified`,
and in test mode it is `File not updated in Test Mode`; none of these lines
holds the text `NOT be updated`. -/
theorem C12_counterexample :
    sampleFsWithBackup (sampleSys.resolve (backupFilename "ca.pem".toList)) =
      some oldBackupFile ∧
    removeAllNoForce.opt_force = false ∧ removeNinth.opt_force = false ∧
    removeSecondTest.opt_force = false ∧
    (deleteOneCert sampleSys removeAllNoForce noFaults false sampleFsWithBackup
        "ca.pem".toList).map (fun out => out.stdout.head?) =
      some (some
        "######## ca.pem, 3 Certificates in File, Delete 3 (Entire file must be deleted)".toList) ∧
    (deleteOneCert sampleSys removeNinth noFaults false sampleFsWithBackup
        "ca.pem".toList).map (fun out => out.stdout.head?) =
      some (some
        "######## ca.pem, 3 Certificates in File, Delete 0 (File NOT Modified)".toList) ∧
    (deleteOneCert sampleSys removeSecondTest noFaults false sampleFsWithBackup
        "ca.pem".toList).map (fun out => out.stdout.head?) =
      some (some
        "######## ca.pem, 3 Certificates in File, Delete 1 (File not updated in Test Mode)".toList) ∧
    strstr "######## ca.pem, 3 Certificates in File, Delete 3 (Entire file must be deleted)".toList
      "NOT be updated".toList = none ∧
    strstr "######## ca.pem, 3 Certificates in File, Delete 0 (File NOT Modified)".toList
      "NOT be updated".toList = none ∧
    strstr "######## ca.pem, 3 Certificates in File, Delete 1 (File not updated in Test Mode)".toList
      "NOT be updated".toList = none := by
  refine ⟨rfl, rfl, rfl, rfl, by decide, by decide, by decide, by decide, by decide, by decide⟩

/-- C12, amended: when a file exists at the backup path and overwrite (force) is
not authorized, then for every value of the loop variables with which the
selection loop can end (every bundle and selection) the part of `deleteOneCert`
after the loop does not call `editCertFile` and changes nothing: the file system
is left as it was (the original and the existing backup keep their content and
mode), nothing is printed on `stderr`. When the rewrite was due (removal count
neither zero nor the certificate count, test mode off) the status line printed
ends in `(Backup <backup> already exists so <file> will NOT be updated)`;
otherwise it ends in `(File NOT Modified)`, `(Entire file must be deleted)` or
`(File not updated in Test Mode)`, in this order of precedence. -/
theorem C12_existing_backup_without_force (env : SysEnv) (o : RunOpts) (f : EditFaults)
    (forceFault : Bool) (fs : FileSystem) (certfile : Line) (in_mode : Nat) (s : DeleteState)
    (old : File) (hback : fs (env.resolve (backupFilename certfile)) = some old)
    (hforce : o.opt_force = false) :
    ∃ out, deleteOneCertFinish env o f forceFault fs certfile in_mode s = some out ∧
      out.rewriter = none ∧ out.fs = fs ∧ out.stderr = [] ∧
      out.stdout =
        ("######## ".toList ++ reportFilenameOf env fs certfile ++ ", ".toList ++
          (Nat.repr s.totalCount).toList ++ " Certificates in File, Delete ".toList ++
          (Nat.repr s.deleteCount).toList ++
          (if s.deleteCount = 0 then " (File NOT Modified)".toList
            else if s.deleteCount = s.totalCount then " (Entire file must be deleted)".toList
            else if o.opt_test then " (File not updated in Test Mode)".toList
            else " (Backup ".toList ++ backupFilename certfile ++ " already exists so ".toList ++
              certfile ++ " will NOT be updated)".toList)) ::
        (List.range s.totalCount).map (fun i =>
          fmt3d (i + 1) ++ ". ".toList ++
            (if s.remove i then "DELETE".toList else "      ".toList) ++ " ".toList ++
            fmt21s (s.validity_message i) ++ " ".toList ++ s.validity_range i ++
            "; Issuer <".toList ++ s.issuer i ++ ">; Subject <".toList ++ s.subject i ++
            ">".toList) := by
  by_cases h0 : s.deleteCount = 0
  · refine ⟨_, finish_of_zero env o f forceFault fs _ _ s h0, rfl, rfl, rfl, ?_⟩
    rw [if_pos h0]
    simp [statusLine, reportLines, reportLine]
  · by_cases hall : s.deleteCount = s.totalCount
    · refine ⟨_, finish_of_all env o f forceFault fs _ _ s h0 hall, rfl, rfl, rfl, ?_⟩
      rw [if_neg h0, if_pos hall]
      simp [statusLine, reportLines, reportLine]
    · by_cases htest : o.opt_test = true
      · refine ⟨_, finish_of_test env o f forceFault fs _ _ s h0 hall htest, rfl, rfl, rfl, ?_⟩
        rw [if_neg h0, if_neg hall, if_pos htest]
        simp [statusLine, reportLines, reportLine]
      · have htest0 : o.opt_test = false := by simpa using htest
        refine ⟨_, finish_of_backup_without_force env o f forceFault fs _ _ s old h0 hall
          htest0 hback hforce, rfl, rfl, rfl, ?_⟩
        rw [if_neg h0, if_neg hall, if_neg htest]
        simp [statusLine, reportLines, reportLine]

set_option maxRecDepth 100000 in
/-- An instance of the amended C12: `-n 2` on the sample bundle beside an older
backup. -/
theorem C12_existing_backup_without_force_witness :
    sampleFsWithBackup (sampleSys.resolve (backupFilename "ca.pem".toList)) =
      some oldBackupFile ∧
    removeSecond.opt_force = false ∧
    deleteOneCert sampleSys removeSecond noFaults false sampleFsWithBackup "ca.pem".toList =
      deleteOneCertFinish sampleSys removeSecond noFaults false sampleFsWithBackup
        "ca.pem".toList sampleFile.st_mode sampleSelSecond ∧
    ∃ out, deleteOneCertFinish sampleSys removeSecond noFaults false sampleFsWithBackup
        "ca.pem".toList sampleFile.st_mode sampleSelSecond = some out ∧
      out.rewriter = none ∧ out.fs = sampleFsWithBackup ∧ out.stderr = [] ∧
      out.stdout =
        [ ("######## ca.pem, 3 Certificates in File, Delete 1 (Backup ca-BACKUP.pe" ++
            "m already exists so ca.pem will NOT be updated)").toList,
          ("  1.        *** EXPIRED ***       Jan  1 00:00:00 2010 GMT - Jan  1 00" ++
            ":00:00 2020 GMT; Issuer <C = US, O = Acme Corp, CN = Acme Root CA>; Su" ++
            "bject <C = US, O = Acme Corp, CN = Acme Root CA>").toList,
          ("  2. DELETE                       Jan  1 00:00:00 2020 GMT - Jan  1 00" ++
            ":00:00 2040 GMT; Issuer <C = US, O = Acme Corp, CN = Acme Root CA>; Su" ++
            "bject <C = US, O = Example Ltd, CN = www.example.org>").toList,
          ("  3.        *** NOT YET VALID *** Jan  1 00:00:00 2039 GMT - Jan  1 00" ++
            ":00:00 2040 GMT; Issuer <C = US, O = Other Org, CN = Other CA>; Subjec" ++
            "t <C = US, O = Example Ltd, CN = mail.example.org>").toList ] := by
  obtain ⟨out, h, hr, hf, he, hs⟩ :=
    C12_existing_backup_without_force sampleSys removeSecond noFaults false sampleFsWithBackup
      "ca.pem".toList sampleFile.st_mode sampleSelSecond oldBackupFile rfl rfl
  exact ⟨rfl, rfl,
    deleteOneCert_eq_finish sampleSys removeSecond noFaults false sampleFsWithBackup
      "ca.pem".toList sampleFile (recordLines sampleRecords) sampleSelSecond rfl (by decide)
      (eq_some_getD_of_isSome _ _ (by decide)),
    out, h, hr, hf, he, hs.trans (by decide)⟩

theorem repeatedRuns_frame (env : SysEnv) (o : RunOpts) (f : EditFaults) (forceFault : Bool)
    (filename : Line) (htest : o.opt_test = true) (n : Nat) (fs fs1 : FileSystem)
    (h : repeatedRuns env o f forceFault filename n fs = some fs1) : fs1 = fs := by
  induction n generalizing fs with
  | zero => exact (Option.some.inj h).symm
  | succ n ih =>
    unfold repeatedRuns at h
    cases hrun : deleteOneCert env o f forceFault fs filename with
    | none => rw [hrun] at h; exact absurd h (by simp)
    | some out =>
      rw [hrun] at h
      have hfs := (deleteOneCert_frame env o f forceFault fs filename out hrun (Or.inl htest)).1
      simp only [] at h
      rw [hfs] at h
      exact ih fs h

theorem repeatedRuns_defined (env : SysEnv) (o : RunOpts) (f : EditFaults) (forceFault : Bool)
    (filename : Line) (fs : FileSystem) (out : Outcome)
    (hrun : deleteOneCert env o f forceFault fs filename = some out) (hfs : out.fs = fs)
    (n : Nat) : repeatedRuns env o f forceFault filename n fs = some fs := by
  induction n with
  | zero => rfl
  | succ n ih =>
    unfold repeatedRuns
    rw [hrun]
    simp only []
    rw [hfs]
    exact ih

theorem finish_in_test_mode (env : SysEnv) (o : RunOpts) (f : EditFaults)
    (forceFault : Bool) (certfile : Line) (in_mode : Nat) (htest : o.opt_test = true)
    (fs : FileSystem) (s : DeleteState) :
    ∃ out, deleteOneCertFinish env o f forceFault fs certfile in_mode s = some out ∧
      out.rewriter = none ∧ out.fs = fs ∧ out.stderr = [] ∧
      out.stdout =
        ("######## ".toList ++ reportFilenameOf env fs certfile ++ ", ".toList ++
          (Nat.repr s.totalCount).toList ++ " Certificates in File, Delete ".toList ++
          (Nat.repr s.deleteCount).toList ++
          (if s.deleteCount = 0 then " (File NOT Modified)".toList
            else if s.deleteCount = s.totalCount then " (Entire file must be deleted)".toList
            else " (File not updated in Test Mode)".toList)) ::
        (List.range s.totalCount).map (fun i =>
          fmt3d (i + 1) ++ ". ".toList ++
            (if s.remove i then "DELETE".toList else "      ".toList) ++ " ".toList ++
            fmt21s (s.validity_message i) ++ " ".toList ++ s.validity_range i ++
            "; Issuer <".toList ++ s.issuer i ++ ">; Subject <".toList ++ s.subject i ++
            ">".toList) := by
  by_cases h0 : s.deleteCount = 0
  · refine ⟨_, finish_of_zero env o f forceFault fs _ _ s h0, rfl, rfl, rfl, ?_⟩
    rw [if_pos h0]
    simp [statusLine, reportLines, reportLine]
  · by_cases hall : s.deleteCount = s.totalCount
    · refine ⟨_, finish_of_all env o f forceFault fs _ _ s h0 hall, rfl, rfl, rfl, ?_⟩
      rw [if_neg h0, if_pos hall]
      simp [statusLine, reportLines, reportLine]
    · refine ⟨_, finish_of_test env o f forceFault fs _ _ s h0 hall htest, rfl, rfl, rfl, ?_⟩
      rw [if_neg h0, if_neg hall]
      simp [statusLine, reportLines, reportLine]

theorem repeatedFinish_in_test_mode (env : SysEnv) (o : RunOpts) (f : EditFaults)
    (forceFault : Bool) (certfile : Line) (in_mode : Nat) (htest : o.opt_test = true)
    (ends : List DeleteState) (fs : FileSystem) :
    repeatedFinish env o f forceFault certfile in_mode ends fs = some fs := by
  induction ends with
  | nil => rfl
  | cons s ends ih =>
    obtain ⟨out, h, _, hf, _, _⟩ :=
      finish_in_test_mode env o f forceFault certfile in_mode htest fs s
    rw [repeatedFinish, h]
    simp only []
    rw [hf]
    exact ih

/-- C13: in test mode, for every value of the loop variables with which the
selection loop of `deleteOneCert` can end (every bundle and every selection
criteria), the part of `deleteOneCert` after the loop never calls
`editCertFile` and leaves the file system as it was (no backup is created, the
original is not modified), and so does any number of repeated runs, whatever
the variables each run's loop ends with; selection and reporting are still
performed: the status line, which ends in `(File not updated in Test Mode)`
when there is something to remove but not everything, and the report line of
every certificate, with its `DELETE` mark, are printed. -/
theorem C13_test_mode_changes_nothing (env : SysEnv) (o : RunOpts) (f : EditFaults)
    (forceFault : Bool) (certfile : Line) (in_mode : Nat) (htest : o.opt_test = true) :
    (∀ (fs : FileSystem) (s : DeleteState),
      ∃ out, deleteOneCertFinish env o f forceFault fs certfile in_mode s = some out ∧
        out.rewriter = none ∧ out.fs = fs ∧ out.stderr = [] ∧
        out.stdout =
          ("######## ".toList ++ reportFilenameOf env fs certfile ++ ", ".toList ++
          (Nat.repr s.totalCount).toList ++ " Certificates in File, Delete ".toList ++
          (Nat.repr s.deleteCount).toList ++
            (if s.deleteCount = 0 then " (File NOT Modified)".toList
              else if s.deleteCount = s.totalCount then
                " (Entire file must be deleted)".toList
              else " (File not updated in Test Mode)".toList)) ::
          (List.range s.totalCount).map (fun i =>
          fmt3d (i + 1) ++ ". ".toList ++
            (if s.remove i then "DELETE".toList else "      ".toList) ++ " ".toList ++
            fmt21s (s.validity_message i) ++ " ".toList ++ s.validity_range i ++
            "; Issuer <".toList ++ s.issuer i ++ ">; Subject <".toList ++ s.subject i ++
            ">".toList)) ∧
    ∀ (ends : List DeleteState) (fs : FileSystem),
      repeatedFinish env o f forceFault certfile in_mode ends fs = some fs :=
  ⟨fun fs s => finish_in_test_mode env o f forceFault certfile in_mode htest fs s,
    fun ends fs => repeatedFinish_in_test_mode env o f forceFault certfile in_mode htest ends fs⟩

set_option maxRecDepth 100000 in
/-- An instance of C13: `-n 2 -t` on the sample bundle, run once and run three
times. -/
theorem C13_test_mode_changes_nothing_witness :
    removeSecondTest.opt_test = true ∧
    deleteOneCert sampleSys removeSecondTest noFaults false sampleFs "ca.pem".toList =
      deleteOneCertFinish sampleSys removeSecondTest noFaults false sampleFs "ca.pem".toList
        sampleFile.st_mode sampleSelSecond ∧
    (∃ out, deleteOneCertFinish sampleSys removeSecondTest noFaults false sampleFs
        "ca.pem".toList sampleFile.st_mode sampleSelSecond = some out ∧
      out.rewriter = none ∧ out.fs = sampleFs ∧ out.stderr = [] ∧
      out.stdout =
        [ ("######## ca.pem, 3 Certificates in File, Delete 1 (File not updated in" ++
            " Test Mode)").toList,
          ("  1.        *** EXPIRED ***       Jan  1 00:00:00 2010 GMT - Jan  1 00" ++
            ":00:00 2020 GMT; Issuer <C = US, O = Acme Corp, CN = Acme Root CA>; Su" ++
            "bject <C = US, O = Acme Corp, CN = Acme Root CA>").toList,
          ("  2. DELETE                       Jan  1 00:00:00 2020 GMT - Jan  1 00" ++
            ":00:00 2040 GMT; Issuer <C = US, O = Acme Corp, CN = Acme Root CA>; Su" ++
            "bject <C = US, O = Example Ltd, CN = www.example.org>").toList,
          ("  3.        *** NOT YET VALID *** Jan  1 00:00:00 2039 GMT - Jan  1 00" ++
            ":00:00 2040 GMT; Issuer <C = US, O = Other Org, CN = Other CA>; Subjec" ++
            "t <C = US, O = Example Ltd, CN = mail.example.org>").toList ]) ∧
    repeatedFinish sampleSys removeSecondTest noFaults false "ca.pem".toList
      sampleFile.st_mode [sampleSelSecond, sampleSelSecond, sampleSelSecond] sampleFs =
        some sampleFs := by
  obtain ⟨h1, h2⟩ :=
    C13_test_mode_changes_nothing sampleSys removeSecondTest noFaults false "ca.pem".toList
      sampleFile.st_mode rfl
  obtain ⟨out, h, hr, hf, he, hs⟩ := h1 sampleFs sampleSelSecond
  exact ⟨rfl,
    deleteOneCert_eq_finish sampleSys removeSecondTest noFaults false sampleFs
      "ca.pem".toList sampleFile (recordLines sampleRecords) sampleSelSecond rfl (by decide)
      (eq_some_getD_of_isSome _ _ (by decide)),
    ⟨out, h, hr, hf, he, hs.trans (by decide)⟩, h2 _ sampleFs⟩

/-! ### `editCertFile` on the file system -/

theorem putFile_same (fs : FileSystem) (key : Line) (file : Option File) :
    putFile fs key file key = file := by
  simp [putFile]

theorem putFile_other (fs : FileSystem) (key p : Line) (file : Option File) (h : p ≠ key) :
    putFile fs key file p = fs p := by
  simp [putFile, h]

theorem renameFile_some (env : SysEnv) (fs : FileSystem) (a b : Line) (file : File)
    (h : fs (env.resolve a) = some file) :
    renameFile env fs a b =
      some (putFile (putFile fs (env.resolve a) none) (env.resolve b) (some file)) := by
  simp [renameFile, h]

theorem chmodWord_mod (st_mode mode : Nat) : chmodWord st_mode mode % 4096 = mode % 4096 := by
  unfold chmodWord
  omega

theorem read_exec_mask_eq : READ_EXEC_MASK = 0o555 := by decide

theorem rwx_mask_eq : RWX_MASK = 0o777 := by decide

theorem land_read_exec_no_write (m : Nat) : (m &&& READ_EXEC_MASK) &&& 0o222 = 0 := by
  rw [Nat.land_assoc, read_exec_mask_eq]
  have h : (0o555 : Nat) &&& 0o222 = 0 := by decide
  rw [h, Nat.and_zero]

theorem chmodWord_read_exec (st_mode m : Nat) :
    chmodWord st_mode (m &&& READ_EXEC_MASK) % 4096 = m &&& 0o555 := by
  rw [chmodWord_mod, read_exec_mask_eq]
  apply Nat.mod_eq_of_lt
  have h : m &&& 0o555 ≤ 0o555 := Nat.and_le_right
  omega

theorem chmodWord_rwx (st_mode m : Nat) :
    chmodWord st_mode (m &&& RWX_MASK) % 4096 = m &&& 0o777 := by
  rw [chmodWord_mod, rwx_mask_eq]
  apply Nat.mod_eq_of_lt
  have h : m &&& 0o777 ≤ 0o777 := Nat.and_le_right
  omega

theorem chmodWord_rwx_bits (st_mode m : Nat) :
    chmodWord st_mode (m &&& RWX_MASK) &&& 0o777 = m &&& 0o777 := by
  have h9 : (0o777 : Nat) = 2 ^ 9 - 1 := by decide
  rw [rwx_mask_eq, h9, Nat.and_pow_two_sub_one_eq_mod, Nat.and_pow_two_sub_one_eq_mod]
  unfold chmodWord
  omega

/-- The call of `editCertFile` in which no system call fails. -/
theorem editCertFile_success (env : SysEnv) (fs : FileSystem) (oldName newName : Line)
    (removeFlags : List Bool) (file : File) (s : EditState)
    (hne : env.resolve oldName ≠ env.resolve newName)
    (horig : fs (env.resolve oldName) = some file)
    (hloop : editLoop removeFlags editInit (fgetsLines 4096 file.content []) = some s) :
    editCertFile env noFaults fs oldName newName removeFlags =
      some { fs := putFile (putFile (putFile (putFile fs (env.resolve oldName) none)
                      (env.resolve newName) (some file))
                    (env.resolve newName)
                    (some { file with
                      st_mode := chmodWord file.st_mode (file.st_mode &&& READ_EXEC_MASK) }))
                  (env.resolve oldName)
                  (some { content := render s.outFile,
                          st_mode := chmodWord env.creat_mode (file.st_mode &&& RWX_MASK),
                          st_uid := file.st_uid, st_gid := file.st_gid }),
             stderr := [] } := by
  have hnew : putFile (putFile fs (env.resolve oldName) none) (env.resolve newName) (some file)
      (env.resolve newName) = some file := putFile_same _ _ _
  have hold : putFile (putFile fs (env.resolve oldName) none) (env.resolve newName) (some file)
      (env.resolve oldName) = none := by
    rw [putFile_other _ _ _ _ hne, putFile_same]
  unfold editCertFile
  simp only [noFaults, Bool.false_eq_true, if_false, renameFile_some env fs oldName newName file
    horig, hnew, hold, hloop, List.append_nil]

theorem land_write_bits_of_mod (x y : Nat) (h : x % 4096 = y) : x &&& 0o222 = y &&& 0o222 := by
  have h1 : (0o222 : Nat) = 4095 &&& 0o222 := by decide
  have h12 : (4095 : Nat) = 2 ^ 12 - 1 := by decide
  have h2 : x &&& 4095 = x % 4096 := by
    rw [h12, Nat.and_pow_two_sub_one_eq_mod]
  have h3 : x &&& (4095 &&& 0o222) = y &&& 0o222 := by
    rw [← Nat.land_assoc, h2, h]
  calc x &&& 0o222 = x &&& (4095 &&& 0o222) := by rw [← h1]
    _ = y &&& 0o222 := h3

/-- C16: after a rewrite in which no system call fails, of a file whose mode word
before the rewrite is `m` and whose owner and group are `(u, g)`, the backup
holds the original content and has the mode bits `m AND 0555`, hence no write
bit for owner, group or other; the new working file has the mode bits
`m AND 0777`, hence the permission bits of the file before the rewrite, and the
owner and group `(u, g)`. -/
theorem C16_modes_and_owner (env : SysEnv) (fs : FileSystem) (oldName newName : Line)
    (removeFlags : List Bool) (file : File) (s : EditState)
    (hne : env.resolve oldName ≠ env.resolve newName)
    (horig : fs (env.resolve oldName) = some file)
    (hloop : editLoop removeFlags editInit (fgetsLines 4096 file.content []) = some s) :
    ∃ r backup work, editCertFile env noFaults fs oldName newName removeFlags = some r ∧
      r.stderr = [] ∧
      r.fs (env.resolve newName) = some backup ∧ r.fs (env.resolve oldName) = some work ∧
      backup.content = file.content ∧
      backup.st_mode % 4096 = file.st_mode &&& 0o555 ∧ backup.st_mode &&& 0o222 = 0 ∧
      backup.st_uid = file.st_uid ∧ backup.st_gid = file.st_gid ∧
      work.content = render s.outFile ∧
      work.st_mode % 4096 = file.st_mode &&& 0o777 ∧
      work.st_mode &&& 0o777 = file.st_mode &&& 0o777 ∧
      work.st_uid = file.st_uid ∧ work.st_gid = file.st_gid := by
  refine ⟨_,
    { file with st_mode := chmodWord file.st_mode (file.st_mode &&& READ_EXEC_MASK) },
    { content := render s.outFile,
      st_mode := chmodWord env.creat_mode (file.st_mode &&& RWX_MASK),
      st_uid := file.st_uid, st_gid := file.st_gid },
    editCertFile_success env fs oldName newName removeFlags file s hne horig hloop,
    rfl, ?_, ?_, ?_⟩
  · simp only []
    rw [putFile_other _ _ _ _ (Ne.symm hne), putFile_same]
  · simp only []
    rw [putFile_same]
  · refine ⟨rfl, chmodWord_read_exec _ _, ?_, rfl, rfl, rfl, chmodWord_rwx _ _,
      chmodWord_rwx_bits _ _, rfl, rfl⟩
    simp only []
    rw [land_write_bits_of_mod _ _ (chmodWord_read_exec _ _)]
    have h := land_read_exec_no_write file.st_mode
    rw [read_exec_mask_eq] at h
    exact h

set_option maxRecDepth 100000 in
/-- An instance of C16: the sample bundle of mode 0640, owner 0 and group 42,
rewritten without its second certificate. -/
theorem C16_modes_and_owner_witness :
    sampleSys.resolve "ca.pem".toList ≠ sampleSys.resolve "ca-BACKUP.pem".toList ∧
    sampleFs (sampleSys.resolve "ca.pem".toList) = some sampleFile ∧
    editLoop (removeArray sampleSelSecond) editInit (fgetsLines 4096 sampleFile.content []) =
      some sampleEditEnd ∧
    ∃ r backup work,
      editCertFile sampleSys noFaults sampleFs "ca.pem".toList "ca-BACKUP.pem".toList
        (removeArray sampleSelSecond) = some r ∧
      r.stderr = [] ∧
      r.fs (sampleSys.resolve "ca-BACKUP.pem".toList) = some backup ∧
      r.fs (sampleSys.resolve "ca.pem".toList) = some work ∧
      backup.content = sampleFile.content ∧
      backup.st_mode % 4096 = sampleFile.st_mode &&& 0o555 ∧ backup.st_mode &&& 0o222 = 0 ∧
      backup.st_uid = sampleFile.st_uid ∧ backup.st_gid = sampleFile.st_gid ∧
      work.content = render sampleEditEnd.outFile ∧
      work.st_mode % 4096 = sampleFile.st_mode &&& 0o777 ∧
      work.st_mode &&& 0o777 = sampleFile.st_mode &&& 0o777 ∧
      work.st_uid = sampleFile.st_uid ∧ work.st_gid = sampleFile.st_gid :=
  ⟨by decide, rfl, eq_some_getD_of_isSome _ _ (by decide),
    C16_modes_and_owner sampleSys sampleFs "ca.pem".toList "ca-BACKUP.pem".toList
      (removeArray sampleSelSecond) sampleFile sampleEditEnd (by decide) rfl
      (eq_some_getD_of_isSome _ _ (by decide))⟩

theorem renameFailed_ne_openFailed (env : SysEnv) (i j : Nat) (a b name : Line) :
    renameFailed env i a b ≠ callFailed env j "open".toList name := by
  simp [renameFailed, callFailed]

theorem editCertFile_rename_fails (env : SysEnv) (f : EditFaults) (fs : FileSystem)
    (oldName newName : Line) (removeFlags : List Bool)
    (h : f.rename = true ∨ fs (env.resolve oldName) = none) :
    editCertFile env f fs oldName newName removeFlags =
      some { fs := fs, stderr := [renameFailed env 1 oldName newName] } := by
  unfold editCertFile
  rcases h with h | h
  · simp only [h, if_true]
  · have hr : renameFile env fs oldName newName = none := by simp [renameFile, h]
    simp only [hr, ite_self]

theorem editCertFile_open_fails (env : SysEnv) (f : EditFaults) (fs : FileSystem)
    (oldName newName : Line) (removeFlags : List Bool) (file : File)
    (hrename : f.rename = false) (horig : fs (env.resolve oldName) = some file)
    (hopen : f.openIn = true ∨ f.openOut = true) :
    ∃ openMessage site,
      (openMessage = callFailed env 2 "open".toList newName ∨
        openMessage = callFailed env 4 "open".toList oldName) ∧
      editCertFile env f fs oldName newName removeFlags =
        some (undoRename env f
          (putFile (putFile fs (env.resolve oldName) none) (env.resolve newName) (some file))
          oldName newName openMessage site) := by
  have hnew : putFile (putFile fs (env.resolve oldName) none) (env.resolve newName) (some file)
      (env.resolve newName) = some file := putFile_same _ _ _
  unfold editCertFile
  simp only [hrename, Bool.false_eq_true, if_false,
    renameFile_some env fs oldName newName file horig]
  by_cases hin : f.openIn = true
  · exact ⟨_, 3, Or.inl rfl, by simp only [hin, if_true]⟩
  · have hout : f.openOut = true := hopen.resolve_left hin
    have hin1 : f.openIn = false := by simpa using hin
    exact ⟨_, 5, Or.inr rfl,
      by simp only [hin1, hnew, hout, Bool.false_eq_true, if_true, if_false]⟩

theorem undoRename_restores (env : SysEnv) (f : EditFaults) (fs : FileSystem)
    (oldName newName openMessage : Line) (site : Nat) (file : File)
    (hne : env.resolve oldName ≠ env.resolve newName)
    (horig : fs (env.resolve oldName) = some file) (hback : f.renameBack = false) :
    (undoRename env f
      (putFile (putFile fs (env.resolve oldName) none) (env.resolve newName) (some file))
      oldName newName openMessage site).stderr = [openMessage] ∧
    (undoRename env f
      (putFile (putFile fs (env.resolve oldName) none) (env.resolve newName) (some file))
      oldName newName openMessage site).fs =
        putFile fs (env.resolve newName) none := by
  have hnew : putFile (putFile fs (env.resolve oldName) none) (env.resolve newName) (some file)
      (env.resolve newName) = some file := putFile_same _ _ _
  unfold undoRename
  simp only [hback, Bool.false_eq_true, if_false, renameFile_some env _ newName oldName file hnew]
  refine ⟨trivial, ?_⟩
  funext p
  simp only [putFile]
  by_cases h1 : p = env.resolve oldName
  · subst h1
    simp [hne, horig]
  · by_cases h2 : p = env.resolve newName
    · subst h2
      simp [h1]
    · simp [h1, h2]

theorem undoRename_fails (env : SysEnv) (f : EditFaults) (fs1 : FileSystem)
    (oldName newName openMessage : Line) (site : Nat) (hback : f.renameBack = true) :
    undoRename env f fs1 oldName newName openMessage site =
      { fs := fs1, stderr := [openMessage, renameFailed env site newName oldName] } := by
  unfold undoRename
  simp only [hback, if_true]

set_option maxRecDepth 100000 in
/-- C19 as stated fails when a file exists at the backup path (the case of an
authorized overwrite): with the sample bundle beside an older backup, if
`fopen` of the backup for reading fails and the reversal succeeds, the bundle is
back under its name and one message is printed, but the older backup is gone, so
the file system does not equal its state before the rewrite. -/
theorem C19_counterexample :
    sampleFsWithBackup "ca.pem".toList = some sampleFile ∧
    sampleFsWithBackup "ca-BACKUP.pem".toList = some oldBackupFile ∧
    (editCertFile sampleSys openInFails sampleFsWithBackup "ca.pem".toList
        "ca-BACKUP.pem".toList (removeArray sampleSelSecond)).map
        (fun r => (r.fs "ca.pem".toList, r.fs "ca-BACKUP.pem".toList, r.stderr)) =
      some (some sampleFile, none,
        [callFailed sampleSys 2 "open".toList "ca-BACKUP.pem".toList]) := by
  refine ⟨rfl, rfl, ?_⟩
  decide

/-- C19, amended: in `editCertFile` over an explicit file system, for distinct
original and backup paths: if the initial rename fails, nothing is changed and
one message is printed; if the rename succeeds and `fopen` of the backup for
reading or of the original path for writing fails, the backup is renamed back;
when this reversal succeeds one message is printed, the original file is back
under its name, no file is left at the backup path and every other path is
untouched, so the file system equals its state before the rewrite whenever no
file existed at the backup path; when the reversal also fails a second message,
different from the first, is printed and the file stays at the backup path. -/
theorem C19_rename_and_reversal (env : SysEnv) (f : EditFaults) (fs : FileSystem)
    (oldName newName : Line) (removeFlags : List Bool)
    (hne : env.resolve oldName ≠ env.resolve newName) :
    ((f.rename = true ∨ fs (env.resolve oldName) = none) →
      editCertFile env f fs oldName newName removeFlags =
        some { fs := fs, stderr := [renameFailed env 1 oldName newName] }) ∧
    (∀ file : File, f.rename = false → fs (env.resolve oldName) = some file →
      (f.openIn = true ∨ f.openOut = true) →
      ∃ r openMessage, editCertFile env f fs oldName newName removeFlags = some r ∧
        (openMessage = callFailed env 2 "open".toList newName ∨
          openMessage = callFailed env 4 "open".toList oldName) ∧
        (f.renameBack = false →
          r.stderr = [openMessage] ∧ r.fs (env.resolve oldName) = some file ∧
          r.fs (env.resolve newName) = none ∧
          (∀ p, p ≠ env.resolve newName → r.fs p = fs p) ∧
          (fs (env.resolve newName) = none → r.fs = fs)) ∧
        (f.renameBack = true →
          ∃ secondMessage site, r.stderr = [openMessage, secondMessage] ∧
            secondMessage = renameFailed env site newName oldName ∧
            secondMessage ≠ openMessage ∧
            r.fs (env.resolve newName) = some file ∧ r.fs (env.resolve oldName) = none)) := by
  refine ⟨editCertFile_rename_fails env f fs oldName newName removeFlags, ?_⟩
  intro file hrename horig hopen
  obtain ⟨openMessage, site, hmsg, hrun⟩ :=
    editCertFile_open_fails env f fs oldName newName removeFlags file hrename horig hopen
  refine ⟨_, openMessage, hrun, hmsg, ?_, ?_⟩
  · intro hback
    obtain ⟨h1, h2⟩ :=
      undoRename_restores env f fs oldName newName openMessage site file hne horig hback
    refine ⟨h1, ?_, ?_, ?_, ?_⟩
    · rw [h2, putFile_other _ _ _ _ hne, horig]
    · rw [h2, putFile_same]
    · intro p hp
      rw [h2, putFile_other _ _ _ _ hp]
    · intro hnone
      rw [h2]
      funext p
      by_cases hp : p = env.resolve newName
      · rw [hp, putFile_same, hnone]
      · rw [putFile_other _ _ _ _ hp]
  · intro hback
    rw [undoRename_fails env f _ oldName newName openMessage site hback]
    refine ⟨renameFailed env site newName oldName, site, rfl, rfl, ?_, ?_, ?_⟩
    · rcases hmsg with hmsg | hmsg <;> rw [hmsg] <;> exact renameFailed_ne_openFailed _ _ _ _ _ _
    · exact putFile_same _ _ _
    · simp only []
      rw [putFile_other _ _ _ _ hne, putFile_same]

set_option maxRecDepth 100000 in
/-- An instance of the amended C19: on the sample bundle without a backup, a failed
`fopen` of the backup followed by a successful reversal leaves the file system
as it was. -/
theorem C19_rename_and_reversal_witness :
    sampleSys.resolve "ca.pem".toList ≠ sampleSys.resolve "ca-BACKUP.pem".toList ∧
    openInFails.rename = false ∧
    sampleFs (sampleSys.resolve "ca.pem".toList) = some sampleFile ∧
    (openInFails.openIn = true ∨ openInFails.openOut = true) ∧
    ∃ r openMessage, editCertFile sampleSys openInFails sampleFs "ca.pem".toList
        "ca-BACKUP.pem".toList (removeArray sampleSelSecond) = some r ∧
      (openMessage = callFailed sampleSys 2 "open".toList "ca-BACKUP.pem".toList ∨
        openMessage = callFailed sampleSys 4 "open".toList "ca.pem".toList) ∧
      (openInFails.renameBack = false →
        r.stderr = [openMessage] ∧
        r.fs (sampleSys.resolve "ca.pem".toList) = some sampleFile ∧
        r.fs (sampleSys.resolve "ca-BACKUP.pem".toList) = none ∧
        (∀ p, p ≠ sampleSys.resolve "ca-BACKUP.pem".toList → r.fs p = sampleFs p) ∧
        (sampleFs (sampleSys.resolve "ca-BACKUP.pem".toList) = none → r.fs = sampleFs)) ∧
      (openInFails.renameBack = true →
        ∃ secondMessage site, r.stderr = [openMessage, secondMessage] ∧
          secondMessage = renameFailed sampleSys site "ca-BACKUP.pem".toList "ca.pem".toList ∧
          secondMessage ≠ openMessage ∧
          r.fs (sampleSys.resolve "ca-BACKUP.pem".toList) = some sampleFile ∧
          r.fs (sampleSys.resolve "ca.pem".toList) = none) :=
  ⟨by decide, by decide, rfl, by decide,
    (C19_rename_and_reversal sampleSys openInFails sampleFs "ca.pem".toList
      "ca-BACKUP.pem".toList (removeArray sampleSelSecond) (by decide)).2 sampleFile
      (by decide) rfl (by decide)⟩

/-- C20 fails on the code: `parse_openssl` does not look at the result of
`strptime`, so an unparsed bound is compared with whatever the time structure
holds. With a `strptime` that leaves the structure untouched when the text does
not parse (as for a text whose month name is rejected), at time 1000: a
not-after line that does not parse, after a
not-before line parsed to 100, gets the expired text; a not-before line that
does not parse, with 5000 left in the uninitialised structure, gets the
not-yet-valid text. -/
theorem C20_unparsed_bound_is_classified :
    sampleLib.strptime "Xyz  1 00:00:00 2030 GMT".toList 100 = 100 ∧
    notAfterText sampleNotAfterUnparsed = some "Xyz  1 00:00:00 2030 GMT".toList ∧
    parse_openssl sampleLib sampleEnv.opts 1000 sampleParseState
        [sampleValidityLine, sampleNotBefore100, sampleNotAfterUnparsed] =
      [ "        Validity *** EXPIRED ***".toList,
        "            Not Before: 100".toList,
        "            Not After : Xyz  1 00:00:00 2030 GMT".toList ] ∧
    notBeforeText sampleNotBeforeUnparsed = some "Xyz  1 00:00:00 2020 GMT".toList ∧
    parse_openssl sampleLib sampleEnv.opts 1000
        { sampleParseState with parsed_time_struct := 5000 }
        [sampleValidityLine, sampleNotBeforeUnparsed, sampleNotAfter3000] =
      [ "        Validity *** NOT YET VALID ***".toList,
        "            Not Before: Xyz  1 00:00:00 2020 GMT".toList,
        "            Not After : 3000".toList ] := by
  refine ⟨by decide, by decide, by decide, by decide, by decide⟩

theorem recordLines_append (xs ys : List Record) :
    recordLines (xs ++ ys) = recordLines xs ++ recordLines ys := by
  induction xs with
  | nil => rfl
  | cons x xs ih => simp [recordLines, ih]

theorem deleteStep_no_field (o : DeleteOpts) (s : DeleteState) (raw : Line)
    (hh : ¬ IsHeader raw) (hn : NoFieldText raw) (h1 : 1 ≤ s.totalCount)
    (h2 : s.totalCount ≤ MAXIMUM_CERTIFICATES) :
    ∃ s1, deleteStep o s raw = some s1 ∧ s1.totalCount = s.totalCount ∧
      s1.remove = s.remove ∧ s1.deleteCount = s.deleteCount := by
  have hslot := slot_eq_some s.totalCount h1 h2
  obtain ⟨hi, hv, hs⟩ := hn
  unfold IsHeader at hh
  unfold deleteStep
  simp only [hh, Bool.false_eq_true, if_false, hslot, hi, hv, hs]
  repeat' split
  all_goals exact ⟨_, rfl, rfl, rfl, rfl⟩

theorem deleteLoop_rest_no_field (o : DeleteOpts) (rest : List Line)
    (hr : ∀ l ∈ rest, ¬ IsHeader l) (hn : ∀ l ∈ rest, NoFieldText l) (s : DeleteState)
    (h1 : 1 ≤ s.totalCount) (h2 : s.totalCount ≤ MAXIMUM_CERTIFICATES) :
    ∃ s1, deleteLoop o s rest = some s1 ∧ s1.totalCount = s.totalCount ∧
      s1.remove = s.remove ∧ s1.deleteCount = s.deleteCount := by
  induction rest generalizing s with
  | nil => exact ⟨s, rfl, rfl, rfl, rfl⟩
  | cons l ls ih =>
    obtain ⟨s1, e1, t1, r1, d1⟩ := deleteStep_no_field o s l (hr l (List.mem_cons_self _ _))
      (hn l (List.mem_cons_self _ _)) h1 h2
    obtain ⟨s2, e2, t2, r2, d2⟩ := ih (fun x hx => hr x (List.mem_cons_of_mem _ hx))
      (fun x hx => hn x (List.mem_cons_of_mem _ hx)) s1 (by omega) (by omega)
    exact ⟨s2, by simp only [deleteLoop, e1, e2], by omega, by rw [r2, r1], by rw [d2, d1]⟩

theorem deleteLoop_rest_frame (o : DeleteOpts) (rest : List Line)
    (hr : ∀ l ∈ rest, ¬ IsHeader l) (s : DeleteState) (h1 : 1 ≤ s.totalCount)
    (h2 : s.totalCount ≤ MAXIMUM_CERTIFICATES) :
    ∃ s1, deleteLoop o s rest = some s1 ∧ s1.totalCount = s.totalCount ∧
      ∀ j, j + 1 < s.totalCount → s1.remove j = s.remove j := by
  induction rest generalizing s with
  | nil => exact ⟨s, rfl, rfl, fun _ _ => rfl⟩
  | cons l ls ih =>
    have hl : ¬ IsHeader l := hr l (List.mem_cons_self _ _)
    obtain ⟨s1, e1⟩ := deleteStep_other_defined o s l hl h1 h2
    obtain ⟨t1, f1⟩ := deleteStep_other_of_some o s s1 l hl e1
    have keep : ∀ j, j + 1 < s.totalCount → s1.remove j = s.remove j := by
      intro j hj
      rcases f1 with f1 | ⟨_, _, r1, _, _⟩
      · rw [f1.1]
      · rw [r1]
        have hne : j ≠ s.totalCount - 1 := by omega
        simp [setAt, hne]
    obtain ⟨s2, e2, t2, r2⟩ := ih (fun x hx => hr x (List.mem_cons_of_mem _ hx)) s1
      (by omega) (by omega)
    exact ⟨s2, by simp only [deleteLoop, e1, e2], by omega,
      fun j hj => by rw [r2 j (by omega), keep j hj]⟩

theorem deleteLoop_records_frame (o : DeleteOpts) (rs : List Record)
    (hwf : ∀ r ∈ rs, r.WellFormed) (s : DeleteState)
    (hcap : s.totalCount + rs.length ≤ MAXIMUM_CERTIFICATES) :
    ∃ s1, deleteLoop o s (recordLines rs) = some s1 ∧
      s1.totalCount = s.totalCount + rs.length ∧
      ∀ j, j < s.totalCount → s1.remove j = s.remove j := by
  induction rs generalizing s with
  | nil => exact ⟨s, rfl, rfl, fun _ _ => rfl⟩
  | cons r rest ih =>
    have hr := hwf r (List.mem_cons_self _ _)
    simp only [List.length_cons] at hcap
    obtain ⟨s1, e1, t1, r1, _⟩ := deleteStep_header o s r.header hr.1 (by omega)
    obtain ⟨s2, e2, t2, r2⟩ := deleteLoop_rest_frame o r.rest hr.2 s1 (by omega) (by omega)
    obtain ⟨s3, e3, t3, r3⟩ :=
      ih (fun x hx => hwf x (List.mem_cons_of_mem _ hx)) s2 (by omega)
    refine ⟨s3, ?_, ?_, ?_⟩
    · simp only [recordLines, deleteLoop, e1]
      rw [deleteLoop_append, e2]
      simpa using e3
    · simp only [List.length_cons]; omega
    · intro j hj
      rw [r3 j (by omega), r2 j (by omega), r1]
      have hne : j ≠ s.totalCount := by omega
      simp [setAt, hne]

/-- Within the arrays, and for a record that is followed by no line with one of
the texts `Issuer: `, `Validity` and `Subject: `: in a stream of at most
`MAXIMUM_CERTIFICATES` (16) records the loop of `deleteOneCert` finishes and
such a record is marked for removal if and only if its position equals the
target position. -/
theorem decode_failure_record_within_arrays (o : DeleteOpts) (u : DeleteState)
    (before after : List Record) (r : Record)
    (hwf : ∀ x ∈ before ++ r :: after, x.WellFormed) (hfail : r.DecodeFailure)
    (hcap : (before ++ r :: after).length ≤ MAXIMUM_CERTIFICATES) :
    ∃ s, deleteLoop o (deleteInit u) (recordLines (before ++ r :: after)) = some s ∧
      s.totalCount = (before ++ r :: after).length ∧
      (s.remove before.length = true ↔ (before.length : Int) + 1 = o.delete_number) := by
  simp only [List.length_append, List.length_cons] at hcap
  have hwf1 : ∀ x ∈ before, x.WellFormed := fun x hx => hwf x (by simp [hx])
  have hr : r.WellFormed := hwf r (by simp)
  have hwf2 : ∀ x ∈ after, x.WellFormed := fun x hx => hwf x (by simp [hx])
  obtain ⟨s1, e1, t1, _⟩ := deleteLoop_records_frame o before hwf1 (deleteInit u)
    (by simp only [deleteInit]; omega)
  have ht1 : s1.totalCount = before.length := by simpa [deleteInit] using t1
  obtain ⟨s2, e2, t2, r2, _⟩ := deleteStep_header o s1 r.header hr.1 (by omega)
  obtain ⟨s3, e3, t3, r3, _⟩ := deleteLoop_rest_no_field o r.rest hr.2 hfail s2 (by omega)
    (by omega)
  obtain ⟨s4, e4, t4, r4⟩ := deleteLoop_records_frame o after hwf2 s3 (by omega)
  refine ⟨s4, ?_, ?_, ?_⟩
  · rw [recordLines_append, deleteLoop_append, e1]
    simp only [Option.some_bind, recordLines, deleteLoop, e2]
    rw [deleteLoop_append, e3]
    simpa using e4
  · simp only [List.length_append, List.length_cons]; omega
  · rw [r4 before.length (by omega), r3, r2, ht1]
    simp [setAt]

/-- The second record of a three-record stream
carries only its header; every criterion is given and the target position is 1. -/
theorem decode_failure_record_within_arrays_sample :
    (∀ x ∈ [sampleRecord1] ++ failedRecord2 :: [sampleRecord3], x.WellFormed) ∧
    failedRecord2.DecodeFailure ∧
    ([sampleRecord1] ++ failedRecord2 :: [sampleRecord3]).length ≤ MAXIMUM_CERTIFICATES ∧
    ∃ s, deleteLoop allCriteria (deleteInit sampleUninit)
        (recordLines ([sampleRecord1] ++ failedRecord2 :: [sampleRecord3])) = some s ∧
      s.totalCount = ([sampleRecord1] ++ failedRecord2 :: [sampleRecord3]).length ∧
      (s.remove [sampleRecord1].length = true ↔
        (([sampleRecord1].length : Nat) : Int) + 1 = allCriteria.delete_number) :=
  ⟨by decide, by decide, by decide,
    decode_failure_record_within_arrays allCriteria sampleUninit [sampleRecord1] [sampleRecord3]
      failedRecord2 (by decide) (by decide) (by decide)⟩

/-! ### The function `trim` -/

theorem trimLoop_eq_rdropWhile (buffer : Line) (k : Nat) (hk : k ≤ buffer.length) :
    trimLoop buffer k = (buffer.take k).rdropWhile isTrimChar := by
  induction k with
  | zero => simp [trimLoop]
  | succ k ih =>
    have hlt : k < buffer.length := hk
    have hget : buffer[k]? = some buffer[k] := List.getElem?_eq_getElem hlt
    have htake : buffer.take (k + 1) = buffer.take k ++ [buffer[k]] := by
      rw [List.take_succ, hget]; rfl
    rw [trimLoop, hget]
    simp only []
    rw [htake, List.rdropWhile_concat, ih (Nat.le_of_lt hlt)]

theorem trim_eq_rdropWhile (s : Line) : trim s = s.rdropWhile isTrimChar := by
  rw [trim, trimLoop_eq_rdropWhile s s.length (Nat.le_refl _), List.take_length]

theorem trim_split (s : Line) : ∃ w, s = trim s ++ w ∧ ∀ c ∈ w, isTrimChar c = true := by
  refine ⟨(s.reverse.takeWhile isTrimChar).reverse, ?_, ?_⟩
  · rw [trim_eq_rdropWhile, List.rdropWhile, ← List.reverse_append,
      List.takeWhile_append_dropWhile, List.reverse_reverse]
  · intro c hc
    exact List.mem_takeWhile_imp (List.mem_reverse.mp hc)

theorem trim_getLast (s : Line) (c : Char) (h : (trim s).getLast? = some c) :
    isTrimChar c = false := by
  rw [trim_eq_rdropWhile] at h
  by_cases hne : s.rdropWhile isTrimChar = []
  · rw [hne] at h; simp at h
  · have hl := List.rdropWhile_last_not isTrimChar s hne
    rw [List.getLast?_eq_getLast _ hne] at h
    have hc : (s.rdropWhile isTrimChar).getLast hne = c := Option.some.inj h
    rw [hc] at hl
    simpa using hl

theorem trim_of_clean (s : Line) (h : ∀ c, s.getLast? = some c → isTrimChar c = false) :
    trim s = s := by
  rw [trim_eq_rdropWhile, List.rdropWhile_eq_self_iff]
  intro hl
  have := h _ (List.getLast?_eq_getLast _ hl)
  simp [this]

theorem trim_trim (s : Line) : trim (trim s) = trim s :=
  trim_of_clean _ (trim_getLast s)

theorem trim_append_newline (s : Line) (c : Char) (hc : isTrimChar c = true) :
    trim (trim s ++ [c]) = trim s := by
  rw [trim_eq_rdropWhile (trim s ++ [c]), List.rdropWhile_concat, if_pos hc,
    ← trim_eq_rdropWhile, trim_trim]

theorem trim_all_white (s : Line) (h : ∀ c ∈ s, isTrimChar c = true) : trim s = [] := by
  rw [trim_eq_rdropWhile, List.rdropWhile_eq_nil_iff]
  exact h

theorem trim_longest (s p : Line) (hp : p <+: s)
    (hclean : ∀ c, p.getLast? = some c → isTrimChar c = false) : p <+: trim s := by
  obtain ⟨w, hs, hw⟩ := trim_split s
  have hts : trim s <+: s := ⟨w, hs.symm⟩
  rcases List.prefix_or_prefix_of_prefix hp hts with h | h
  · exact h
  · obtain ⟨v, hv⟩ := h
    cases hvl : v.getLast? with
    | none =>
      have : v = [] := by simpa using hvl
      rw [this, List.append_nil] at hv
      rw [hv]
    | some c =>
      exfalso
      have hpl : p.getLast? = some c := by
        rw [← hv, List.getLast?_append, hvl]; rfl
      have hcv : c ∈ v := List.mem_of_getLast?_eq_some hvl
      have hvw : v <+: w := by
        have : trim s ++ v <+: trim s ++ w := by rw [hv, ← hs]; exact hp
        exact (List.prefix_append_right_inj _).mp this
      have := hw c (hvw.subset hcv)
      rw [hclean c hpl] at this
      exact Bool.false_ne_true this

theorem isTrimChar_iff (c : Char) :
    isTrimChar c = true ↔
      c = ' ' ∨ c = Char.ofNat 9 ∨ c = Char.ofNat 10 ∨ c = Char.ofNat 13 ∨ c = Char.ofNat 12 := by
  simp [isTrimChar, or_assoc]

/-- C25: for every string `s`, `trim s` is a prefix of `s`, what it leaves off
consists of blanks, tabs, newlines, carriage returns and form feeds only, it
does not end in one of these five characters, and every prefix of `s` that does
not end in one of them is a prefix of `trim s` (so `trim s` is the longest such
prefix); `trim` is idempotent, and the trim of a string of these characters
only, in particular of the empty string, is the empty string. -/
theorem C25_trim_removes_trailing_white (s : Line) :
    (∀ c, isTrimChar c = true ↔
      c = ' ' ∨ c = Char.ofNat 9 ∨ c = Char.ofNat 10 ∨ c = Char.ofNat 13 ∨ c = Char.ofNat 12) ∧
    (∃ w, s = trim s ++ w ∧ ∀ c ∈ w, isTrimChar c = true) ∧
    (∀ c, (trim s).getLast? = some c → isTrimChar c = false) ∧
    (∀ p, p <+: s → (∀ c, p.getLast? = some c → isTrimChar c = false) →
      p <+: trim s ∧ p.length ≤ (trim s).length) ∧
    trim (trim s) = trim s ∧
    ((∀ c ∈ s, isTrimChar c = true) → trim s = []) ∧
    trim [] = [] :=
  ⟨isTrimChar_iff, trim_split s, trim_getLast s,
    fun p hp hc => ⟨trim_longest s p hp hc, (trim_longest s p hp hc).length_le⟩,
    trim_trim s, trim_all_white s, rfl⟩

/-- An instance of C25: a line of a CR-LF file with a blank before the line end,
and a line of white space only. -/
theorem C25_trim_removes_trailing_white_witness :
    trim "R0hJ \r\n".toList = "R0hJ".toList ∧ trim " \t\r\n".toList = [] ∧
    trim (trim "R0hJ \r\n".toList) = trim "R0hJ \r\n".toList :=
  ⟨by decide, (C25_trim_removes_trailing_white " \t\r\n".toList).2.2.2.2.2.1 (by decide),
    (C25_trim_removes_trailing_white "R0hJ \r\n".toList).2.2.2.2.1⟩

/-! ### The filter loop applied to its own output -/

theorem fgetsLines_string (size : Nat) (t : Line) (c : Char) (rest : List Char) (acc : Line)
    (hnl : Char.ofNat 10 ∉ t) (hfit : acc.length + t.length < size - 1)
    (hend : c = Char.ofNat 10 ∨ acc.length + t.length + 1 = size - 1) :
    fgetsLines size (t ++ c :: rest) acc = (acc ++ t ++ [c]) :: fgetsLines size rest [] := by
  induction t generalizing acc with
  | nil =>
    simp only [List.nil_append, List.append_nil, List.length_nil, Nat.add_zero] at hend ⊢
    rw [fgetsLines, if_pos hend]
  | cons x xs ih =>
    have hx : x ≠ Char.ofNat 10 := fun e => hnl (e ▸ List.mem_cons_self _ _)
    have hxs : Char.ofNat 10 ∉ xs := fun e => hnl (List.mem_cons_of_mem _ e)
    simp only [List.length_cons] at hfit hend
    have hno : ¬ (x = Char.ofNat 10 ∨ acc.length + 1 = size - 1) := by
      rintro (e | e)
      · exact hx e
      · omega
    rw [List.cons_append, fgetsLines, if_neg hno,
      ih (acc ++ [x]) hxs (by simp only [List.length_append, List.length_singleton]; omega)
        (by
          rcases hend with e | e
          · exact Or.inl e
          · right; simp only [List.length_append, List.length_singleton]; omega)]
    simp

theorem fgetsLines_render (size : Nat) (out : List Line)
    (h : ∀ t ∈ out, Char.ofNat 10 ∉ t ∧ t.length < size - 1) :
    fgetsLines size (render out) [] = pipeLines out := by
  induction out with
  | nil => simp [render, pipeLines, fgetsLines]
  | cons t ts ih =>
    obtain ⟨hnl, hlen⟩ := h t (List.mem_cons_self _ _)
    have hts := ih (fun x hx => h x (List.mem_cons_of_mem _ hx))
    have hr : render (t :: ts) = t ++ Char.ofNat 10 :: render ts := by simp [render]
    rw [hr, fgetsLines_string size t _ _ [] hnl (by simpa using hlen) (Or.inl rfl), hts]
    simp [pipeLines]

theorem fgetsLines_newline_last (size : Nat) (content : List Char) (acc : Line)
    (hacc : Char.ofNat 10 ∉ acc) :
    ∀ l ∈ fgetsLines size content acc, Char.ofNat 10 ∉ l.dropLast := by
  induction content generalizing acc with
  | nil =>
    intro l hl
    rw [fgetsLines] at hl
    split at hl
    · simp at hl
    · have : l = acc := by simpa using hl
      rw [this]
      exact fun e => hacc (List.dropLast_subset _ e)
  | cons c cs ih =>
    intro l hl
    rw [fgetsLines] at hl
    split at hl
    · rcases List.mem_cons.mp hl with e | e
      · rw [e, List.dropLast_concat]; exact hacc
      · exact ih [] (by simp) l e
    · rename_i hno
      have hc : c ≠ Char.ofNat 10 := fun e => hno (Or.inl e)
      refine ih (acc ++ [c]) ?_ l hl
      intro e
      rcases List.mem_append.mp e with e | e
      · exact hacc e
      · exact hc (List.mem_singleton.mp e).symm

theorem trim_no_newline (l : Line) (h : Char.ofNat 10 ∉ l.dropLast) : Char.ofNat 10 ∉ trim l := by
  obtain ⟨w, hs, hw⟩ := trim_split l
  have hlast := trim_getLast l
  generalize trim l = t at hs hlast ⊢
  subst hs
  intro hmem
  rcases List.eq_nil_or_concat w with hw0 | ⟨w1, x, hw1⟩
  · subst hw0
    rw [List.append_nil] at h
    have hne : t ≠ [] := List.ne_nil_of_mem hmem
    have hl := hlast (t.getLast hne) (List.getLast?_eq_getLast _ hne)
    have ht : t = t.dropLast ++ [t.getLast hne] := (List.dropLast_append_getLast hne).symm
    rw [ht] at hmem
    rcases List.mem_append.mp hmem with e | e
    · exact h e
    · have : Char.ofNat 10 = t.getLast hne := List.mem_singleton.mp e
      rw [← this] at hl
      exact absurd hl (by decide)
  · subst hw1
    rw [List.concat_eq_append, ← List.append_assoc, List.dropLast_concat] at h
    exact h (List.mem_append_left _ hmem)


theorem flagAt_all_false (m : List Bool) (hm : ∀ r ∈ m, r = false) (k : Nat) (r : Bool)
    (h : flagAt m k = some r) : r = false := by
  unfold flagAt at h
  split at h
  · simp at h
  · exact hm r (List.getElem?_mem h)

theorem editLoop_single (m : List Bool) (s : EditState) (x : Line) :
    editLoop m s [x] = editStep m s x := by
  rw [editLoop]
  cases editStep m s x with
  | none => rfl
  | some s1 => rfl

theorem editStep_congr (m : List Bool) (s : EditState) (x y : Line) (h : trim x = trim y) :
    editStep m s x = editStep m s y := by
  unfold editStep
  rw [h]

theorem editStep_outside (m : List Bool) (s : EditState) (x : Line) (hin : s.inCert = false)
    (hx : trim x ≠ BEGIN_CERTIFICATE) : editStep m s x = some s := by
  unfold editStep
  simp only [hin, Bool.false_eq_true, if_false, hx]

/-- The strings one iteration of the filter loop writes when no flag of the mask is set. -/
theorem editStep_written (m : List Bool) (hm : ∀ r ∈ m, r = false) (s0 s1 : EditState)
    (raw : Line) (h : editStep m s0 raw = some s1) :
    s1.outFile = s0.outFile ++
      (if s0.inCert then [trim raw]
       else if trim raw = BEGIN_CERTIFICATE then
         (if s0.blankLineNeeded then [[], trim raw] else [trim raw])
       else []) := by
  unfold editStep at h
  simp only [] at h
  split at h
  · rename_i hin
    split at h
    · simp at h
    · rename_i r hf
      have hr : r = false := flagAt_all_false m hm _ _ hf
      subst hr
      rw [if_pos hin]
      split at h <;> (rw [← Option.some.inj h]; simp)
  · rename_i hin
    rw [if_neg hin]
    split at h
    · rename_i hb
      rw [if_pos hb]
      split at h
      · simp at h
      · rename_i r hf
        have hr : r = false := flagAt_all_false m hm _ _ hf
        subst hr
        simp only [Bool.not_false, if_true] at h
        split at h <;> rename_i hblank
        · rw [if_pos hblank, ← Option.some.inj h]
        · rw [if_neg hblank, ← Option.some.inj h]
    · rename_i hb
      rw [if_neg hb, ← Option.some.inj h]
      simp

theorem editStep_refeed (m : List Bool) (hm : ∀ r ∈ m, r = false) (s0 s1 : EditState)
    (raw : Line) (h : editStep m s0 raw = some s1) :
    ∃ extra, s1.outFile = s0.outFile ++ extra ∧ (∀ t ∈ extra, t = [] ∨ t = trim raw) ∧
      editLoop m s0 (pipeLines extra) = some s1 := by
  have htrim : trim (trim raw ++ [Char.ofNat 10]) = trim raw :=
    trim_append_newline raw _ (by decide)
  have hsame : editStep m s0 (trim raw ++ [Char.ofNat 10]) = some s1 := by
    rw [editStep_congr m s0 _ raw htrim]; exact h
  have hw := editStep_written m hm s0 s1 raw h
  refine ⟨_, hw, ?_, ?_⟩
  · intro t ht
    split at ht
    · exact Or.inr (List.mem_singleton.mp ht)
    · split at ht
      · split at ht
        · rcases List.mem_cons.mp ht with e | e
          · exact Or.inl e
          · exact Or.inr (List.mem_singleton.mp e)
        · exact Or.inr (List.mem_singleton.mp ht)
      · simp at ht
  · by_cases hin : s0.inCert = true
    · rw [if_pos hin]
      simp only [pipeLines, List.map_cons, List.map_nil]
      rw [editLoop_single]; exact hsame
    · rw [if_neg hin]
      have hin0 : s0.inCert = false := by simpa using hin
      by_cases hb : trim raw = BEGIN_CERTIFICATE
      · rw [if_pos hb]
        by_cases hblank : s0.blankLineNeeded = true
        · rw [if_pos hblank]
          simp only [pipeLines, List.map_cons, List.map_nil, List.nil_append]
          rw [editLoop, editStep_outside m s0 _ hin0 (by decide)]
          simp only []
          rw [editLoop_single]; exact hsame
        · rw [if_neg hblank]
          simp only [pipeLines, List.map_cons, List.map_nil]
          rw [editLoop_single]; exact hsame
      · rw [if_neg hb]
        simp only [pipeLines, List.map_nil, editLoop]
        rw [← h, editStep_outside m s0 raw hin0 hb]

theorem editLoop_refeed (m : List Bool) (hm : ∀ r ∈ m, r = false) (lines : List Line)
    (s0 s : EditState) (h0 : editLoop m editInit (pipeLines s0.outFile) = some s0)
    (h : editLoop m s0 lines = some s) :
    editLoop m editInit (pipeLines s.outFile) = some s ∧
      ∀ t ∈ s.outFile, t ∈ s0.outFile ∨ t = [] ∨ ∃ l ∈ lines, t = trim l := by
  induction lines generalizing s0 with
  | nil =>
    have e : s0 = s := Option.some.inj h
    subst e
    exact ⟨h0, fun t ht => Or.inl ht⟩
  | cons raw rest ih =>
    rw [editLoop] at h
    cases hstep : editStep m s0 raw with
    | none => rw [hstep] at h; simp at h
    | some s1 =>
      rw [hstep] at h
      simp only [] at h
      obtain ⟨extra, hout, hmem, hre⟩ := editStep_refeed m hm s0 s1 raw hstep
      have h1 : editLoop m editInit (pipeLines s1.outFile) = some s1 := by
        rw [hout, pipeLines, List.map_append, editLoop_append]
        have h0' := h0
        rw [pipeLines] at h0'
        rw [h0']
        exact hre
      obtain ⟨hfix, hall⟩ := ih s1 h1 h
      refine ⟨hfix, ?_⟩
      intro t ht
      rcases hall t ht with e | e | ⟨l, hl, e⟩
      · rw [hout] at e
        rcases List.mem_append.mp e with e | e
        · exact Or.inl e
        · rcases hmem t e with e | e
          · exact Or.inr (Or.inl e)
          · exact Or.inr (Or.inr ⟨raw, List.mem_cons_self _ _, e⟩)
      · exact Or.inr (Or.inl e)
      · exact Or.inr (Or.inr ⟨l, List.mem_cons_of_mem _ hl, e⟩)

/-- C24, amended: for every file in which every string read by `fgets` has fewer
than 4095 characters after `trim`, the filter loop of `editCertFile` with an
all-false mask is idempotent: applied to the file it wrote with an all-false
mask, it writes that same file again, byte for byte. -/
theorem C24_idempotent_short_lines (n : Nat) (content out : List Char)
    (hshort : ∀ l ∈ fgetsLines 4096 content [], (trim l).length < 4095)
    (h1 : filterAllFalse n content = some out) : filterAllFalse n out = some out := by
  unfold filterAllFalse at h1 ⊢
  cases hloop : editLoop (List.replicate n false) editInit (fgetsLines 4096 content []) with
  | none => rw [hloop] at h1; simp at h1
  | some s =>
    rw [hloop] at h1
    have hout : render s.outFile = out := by simpa using h1
    have hm : ∀ r ∈ List.replicate n false, r = false := fun r hr => (List.mem_replicate.mp hr).2
    obtain ⟨hfix, hall⟩ := editLoop_refeed (List.replicate n false) hm _ editInit s rfl hloop
    have hread : fgetsLines 4096 (render s.outFile) [] = pipeLines s.outFile := by
      apply fgetsLines_render
      intro t ht
      rcases hall t ht with e | e | ⟨l, hl, e⟩
      · simp [editInit] at e
      · subst e; exact ⟨by simp, by decide⟩
      · subst e
        exact ⟨trim_no_newline l (fgetsLines_newline_last 4096 content [] (by simp) l hl),
          hshort l hl⟩
    rw [← hout, hread, hfix]
    rfl

set_option maxRecDepth 100000 in
/-- An instance of the amended C24: the sample bundle, with its comment line, its
CR-LF line ends and its unterminated last line, is normalised by the first
application, and the second application reproduces the normalised file. -/
theorem C24_idempotent_short_lines_witness :
    (∀ l ∈ fgetsLines 4096 sampleFile.content [], (trim l).length < 4095) ∧
    filterAllFalse 3 sampleFile.content = some sampleNormalised ∧
    filterAllFalse 3 sampleNormalised = some sampleNormalised :=
  ⟨by decide, by decide,
    C24_idempotent_short_lines 3 sampleFile.content sampleNormalised (by decide) (by decide)⟩


theorem fgetsLines_text_line (t : Line) (rest : List Char) (hnl : Char.ofNat 10 ∉ t)
    (hlen : t.length < 4095) :
    fgetsLines 4096 (t ++ Char.ofNat 10 :: rest) [] =
      (t ++ [Char.ofNat 10]) :: fgetsLines 4096 rest [] := by
  have h := fgetsLines_string 4096 t (Char.ofNat 10) rest [] hnl (by simpa using hlen) (Or.inl rfl)
  simpa using h

theorem fgetsLines_chunk (size n : Nat) (c : Char) (rest : List Char) (hc : c ≠ Char.ofNat 10)
    (hn : n + 1 = size - 1) :
    fgetsLines size (List.replicate (n + 1) c ++ rest) [] =
      List.replicate (n + 1) c :: fgetsLines size rest [] := by
  have hnl : Char.ofNat 10 ∉ List.replicate n c := by
    intro h; exact hc (List.eq_of_mem_replicate h).symm
  have h := fgetsLines_string size (List.replicate n c) c rest [] hnl
    (by rw [List.length_nil, List.length_replicate]; omega)
    (Or.inr (by rw [List.length_nil, List.length_replicate]; omega))
  rw [List.replicate_succ', List.append_assoc]
  simpa using h

theorem fgetsLines_longLine (rest : List Char) :
    fgetsLines 4096 (longLine ++ rest) [] = longLine :: fgetsLines 4096 rest [] :=
  fgetsLines_chunk 4096 4094 'A' rest (by decide) (by decide)

theorem trim_replicate (n : Nat) (c : Char) (hc : isTrimChar c = false) :
    trim (List.replicate n c) = List.replicate n c := by
  apply trim_of_clean
  intro x hx
  rw [List.eq_of_mem_replicate (List.mem_of_getLast?_eq_some hx)]
  exact hc

theorem trim_longLine : trim longLine = longLine := trim_replicate 4095 'A' (by decide)

theorem trim_newline_only : trim [Char.ofNat 10] = [] := by decide

theorem longLine_ne_end : longLine ≠ END_CERTIFICATE := by
  intro h
  have := congrArg List.length h
  rw [longLine, List.length_replicate] at this
  revert this
  decide

theorem editLoop_longLine (middle : List Line) (hm : ∀ l ∈ middle, l = [Char.ofNat 10]) :
    editLoop (List.replicate 1 false) editInit
      (("-----BEGIN CERTIFICATE-----\n".toList :: longLine :: middle) ++
        ["-----END CERTIFICATE-----\n".toList]) =
      some { count := 1, inCert := false, blankLineNeeded := true,
             outFile := (BEGIN_CERTIFICATE :: longLine :: middle.map (fun _ => [])) ++
               [END_CERTIFICATE] } := by
  have hb : trim "-----BEGIN CERTIFICATE-----\n".toList = BEGIN_CERTIFICATE := by decide
  have he : trim "-----END CERTIFICATE-----\n".toList = END_CERTIFICATE := by decide
  have hf : flagAt (List.replicate 1 false) 1 = some false := by decide
  have step1 : editStep (List.replicate 1 false) editInit "-----BEGIN CERTIFICATE-----\n".toList =
      some { count := 1, inCert := true, blankLineNeeded := false,
             outFile := [BEGIN_CERTIFICATE] } := by
    unfold editStep
    simp only [hb, editInit, Bool.false_eq_true, if_false, if_true, hf, Bool.not_false,
      List.nil_append, Nat.zero_add]
  have step2 : editStep (List.replicate 1 false)
      { count := 1, inCert := true, blankLineNeeded := false, outFile := [BEGIN_CERTIFICATE] }
      longLine =
      some { count := 1, inCert := true, blankLineNeeded := false,
             outFile := [BEGIN_CERTIFICATE, longLine] } := by
    unfold editStep
    simp only [trim_longLine, if_true, hf, Bool.not_false, longLine_ne_end, if_false,
      List.cons_append, List.nil_append]
  have mid : ∀ (ms : List Line) (acc : List Line), (∀ l ∈ ms, l = [Char.ofNat 10]) →
      editLoop (List.replicate 1 false)
        { count := 1, inCert := true, blankLineNeeded := false, outFile := acc }
        (ms ++ ["-----END CERTIFICATE-----\n".toList]) =
      some { count := 1, inCert := false, blankLineNeeded := true,
             outFile := acc ++ ms.map (fun _ => []) ++ [END_CERTIFICATE] } := by
    intro ms
    induction ms with
    | nil =>
      intro acc _
      rw [List.nil_append, editLoop_single]
      unfold editStep
      simp only [he, if_true, hf, Bool.not_false, List.map_nil, List.append_nil]
    | cons l ls ih =>
      intro acc hl
      have hl0 : l = [Char.ofNat 10] := hl l (List.mem_cons_self _ _)
      have hne : ([] : Line) ≠ END_CERTIFICATE := by decide
      have hs : editStep (List.replicate 1 false)
          { count := 1, inCert := true, blankLineNeeded := false, outFile := acc } l =
          some { count := 1, inCert := true, blankLineNeeded := false,
                 outFile := acc ++ [[]] } := by
        unfold editStep
        simp only [hl0, trim_newline_only, if_true, hf, Bool.not_false, hne, if_false]
      rw [List.cons_append, editLoop, hs]
      simp only []
      rw [ih (acc ++ [[]]) (fun x hx => hl x (List.mem_cons_of_mem _ hx))]
      simp
  rw [List.cons_append, editLoop, step1]
  simp only []
  rw [List.cons_append, editLoop, step2]
  simp only []
  rw [mid middle _ hm]
  simp

/-- C24 as stated fails: the filter loop with an all-false mask is not idempotent
on every input.
For a certificate with a body line of 4095 characters `fgets` returns the line
in two strings, the 4095 characters and the newline alone, and the loop writes
an empty line after the long one; applied to its own output it writes one empty
line more. -/
theorem C24_counterexample :
    filterAllFalse 1 longLineFile = some longLineOnce ∧
      filterAllFalse 1 longLineOnce = some longLineTwice ∧ longLineTwice ≠ longLineOnce := by
  have hb : Char.ofNat 10 ∉ "-----BEGIN CERTIFICATE-----".toList := by decide
  have he : Char.ofNat 10 ∉ "-----END CERTIFICATE-----".toList := by decide
  have r1 : fgetsLines 4096 longLineFile [] =
      ("-----BEGIN CERTIFICATE-----\n".toList :: longLine :: [[Char.ofNat 10]]) ++
        ["-----END CERTIFICATE-----\n".toList] := by
    have e : longLineFile = "-----BEGIN CERTIFICATE-----".toList ++ Char.ofNat 10 ::
        (longLine ++ ([] ++ Char.ofNat 10 ::
          ("-----END CERTIFICATE-----".toList ++ Char.ofNat 10 :: []))) := by
      simp [longLineFile]
    rw [e, fgetsLines_text_line _ _ hb (by decide), fgetsLines_longLine,
      fgetsLines_text_line _ _ (by simp) (by decide),
      fgetsLines_text_line _ _ he (by decide)]
    rfl
  have r2 : fgetsLines 4096 longLineOnce [] =
      ("-----BEGIN CERTIFICATE-----\n".toList :: longLine ::
        [[Char.ofNat 10], [Char.ofNat 10]]) ++ ["-----END CERTIFICATE-----\n".toList] := by
    have e : longLineOnce = "-----BEGIN CERTIFICATE-----".toList ++ Char.ofNat 10 ::
        (longLine ++ ([] ++ Char.ofNat 10 :: ([] ++ Char.ofNat 10 ::
          ("-----END CERTIFICATE-----".toList ++ Char.ofNat 10 :: [])))) := by
      simp [longLineOnce]
    rw [e, fgetsLines_text_line _ _ hb (by decide), fgetsLines_longLine,
      fgetsLines_text_line _ _ (by simp) (by decide),
      fgetsLines_text_line _ _ (by simp) (by decide),
      fgetsLines_text_line _ _ he (by decide)]
    rfl
  refine ⟨?_, ?_, ?_⟩
  · unfold filterAllFalse
    rw [r1, editLoop_longLine _ (by simp)]
    simp [render, longLineOnce, BEGIN_CERTIFICATE, END_CERTIFICATE]
  · unfold filterAllFalse
    rw [r2, editLoop_longLine _ (by simp)]
    simp [render, longLineTwice, BEGIN_CERTIFICATE, END_CERTIFICATE]
  · intro h
    have := congrArg List.length h
    simp [longLineTwice, longLineOnce] at this

/-! ### The two loops over the same lines -/

theorem decodeStep_control {Tm : Type} (env : DecodeEnv Tm) (s : DecodeState) (raw : Line) :
    (decodeStep env s raw).count =
        (if s.inCert = false ∧ trim raw = BEGIN_CERTIFICATE then s.count + 1 else s.count) ∧
    (decodeStep env s raw).inCert =
        (if s.inCert then decide (trim raw ≠ END_CERTIFICATE)
         else decide (trim raw = BEGIN_CERTIFICATE)) := by
  unfold decodeStep
  simp only []
  by_cases hin : s.inCert = true
  · by_cases he : trim raw = END_CERTIFICATE <;> simp [hin, he]
  · have hin0 : s.inCert = false := by simpa using hin
    by_cases hb : trim raw = BEGIN_CERTIFICATE <;> simp [hin0, hb]

theorem decodeStep_count_le {Tm : Type} (env : DecodeEnv Tm) (s : DecodeState) (raw : Line) :
    s.count ≤ (decodeStep env s raw).count := by
  rw [(decodeStep_control env s raw).1]
  split <;> omega

theorem decodeLoop_count_le {Tm : Type} (env : DecodeEnv Tm) (lines : List Line)
    (s : DecodeState) : s.count ≤ (decodeLoop env s lines).count := by
  induction lines generalizing s with
  | nil => exact Nat.le_refl _
  | cons raw rest ih =>
    rw [decodeLoop_cons]
    exact Nat.le_trans (decodeStep_count_le env s raw) (ih _)

theorem decodeStep_header_printed {Tm : Type} (env : DecodeEnv Tm) (s : DecodeState)
    (raw : Line) (h0 : s.inCert = false) (h1 : (decodeStep env s raw).inCert = true) :
    (decodeStep env s raw).stdout =
      s.stdout ++ [certHeader env.certfile (decodeStep env s raw).count] := by
  unfold decodeStep at h1 ⊢
  simp only [h0, Bool.false_eq_true, if_false] at h1 ⊢
  by_cases hb : trim raw = BEGIN_CERTIFICATE
  · simp only [hb, if_true]
  · simp only [hb, if_false] at h1
    rw [h0] at h1
    exact absurd h1 (by decide)

theorem flagAt_some (m : List Bool) (k : Nat) (h1 : 1 ≤ k) (h2 : k ≤ m.length) :
    ∃ r, flagAt m k = some r := by
  have hk : k - 1 < m.length := by omega
  refine ⟨m[k - 1], ?_⟩
  unfold flagAt
  rw [if_neg (by omega)]
  exact List.getElem?_eq_getElem hk

theorem editStep_control (m : List Bool) (s s1 : EditState) (raw : Line)
    (h : editStep m s raw = some s1) :
    s1.count =
        (if s.inCert = false ∧ trim raw = BEGIN_CERTIFICATE then s.count + 1 else s.count) ∧
    s1.inCert =
        (if s.inCert then decide (trim raw ≠ END_CERTIFICATE)
         else decide (trim raw = BEGIN_CERTIFICATE)) := by
  unfold editStep at h
  simp only [] at h
  by_cases hin : s.inCert = true
  · rw [if_pos hin] at h
    split at h
    · simp at h
    · by_cases he : trim raw = END_CERTIFICATE
      · rw [if_pos he] at h
        rw [← Option.some.inj h]
        simp [hin, he]
      · rw [if_neg he] at h
        rw [← Option.some.inj h]
        simp [hin, he]
  · have hin0 : s.inCert = false := by simpa using hin
    rw [if_neg hin] at h
    by_cases hb : trim raw = BEGIN_CERTIFICATE
    · rw [if_pos hb] at h
      split at h
      · simp at h
      · split at h
        · split at h <;> (rw [← Option.some.inj h]; simp [hin0, hb])
        · rw [← Option.some.inj h]; simp [hin0, hb]
    · rw [if_neg hb] at h
      rw [← Option.some.inj h]
      simp [hin0, hb]

theorem editStep_defined (m : List Bool) (s : EditState) (raw : Line)
    (hin : s.inCert = true → 1 ≤ s.count ∧ s.count ≤ m.length)
    (hout : s.inCert = false → trim raw = BEGIN_CERTIFICATE → s.count + 1 ≤ m.length) :
    ∃ s1, editStep m s raw = some s1 := by
  unfold editStep
  simp only []
  by_cases hi : s.inCert = true
  · obtain ⟨r, hr⟩ := flagAt_some m s.count (hin hi).1 (hin hi).2
    rw [if_pos hi, hr]
    simp only []
    split <;> exact ⟨_, rfl⟩
  · have hi0 : s.inCert = false := by simpa using hi
    rw [if_neg hi]
    by_cases hb : trim raw = BEGIN_CERTIFICATE
    · obtain ⟨r, hr⟩ := flagAt_some m (s.count + 1) (by omega) (hout hi0 hb)
      rw [if_pos hb, hr]
      simp only []
      split
      · split <;> exact ⟨_, rfl⟩
      · exact ⟨_, rfl⟩
    · rw [if_neg hb]
      exact ⟨_, rfl⟩

theorem editStep_follows {Tm : Type} (env : DecodeEnv Tm) (m : List Bool) (ds : DecodeState)
    (es : EditState) (raw : Line) (hc : es.count = ds.count) (hi : es.inCert = ds.inCert)
    (hpos : ds.inCert = true → 1 ≤ ds.count)
    (hm : (decodeStep env ds raw).count ≤ m.length) :
    ∃ es1, editStep m es raw = some es1 ∧ es1.count = (decodeStep env ds raw).count ∧
      es1.inCert = (decodeStep env ds raw).inCert ∧
      ((decodeStep env ds raw).inCert = true → 1 ≤ (decodeStep env ds raw).count) := by
  obtain ⟨dc, di⟩ := decodeStep_control env ds raw
  have hle := decodeStep_count_le env ds raw
  obtain ⟨es1, h1⟩ := editStep_defined m es raw
    (fun h => by rw [hi] at h; rw [hc]; exact ⟨hpos h, Nat.le_trans hle hm⟩)
    (fun h hb => by
      rw [hi] at h
      rw [dc, if_pos ⟨h, hb⟩] at hm
      rw [hc]; exact hm)
  obtain ⟨ec, ei⟩ := editStep_control m es es1 raw h1
  refine ⟨es1, h1, ?_, ?_, ?_⟩
  · rw [ec, dc, hi, hc]
  · rw [ei, di, hi]
  · intro ht
    by_cases hin : ds.inCert = true
    · exact Nat.le_trans (hpos hin) hle
    · have hin0 : ds.inCert = false := by simpa using hin
      rw [di, hin0] at ht
      simp only [Bool.false_eq_true, if_false, decide_eq_true_eq] at ht
      rw [dc, if_pos ⟨hin0, ht⟩]
      omega

theorem editLoop_follows {Tm : Type} (env : DecodeEnv Tm) (m : List Bool) (lines : List Line)
    (ds : DecodeState) (es : EditState) (hc : es.count = ds.count)
    (hi : es.inCert = ds.inCert) (hpos : ds.inCert = true → 1 ≤ ds.count)
    (hm : (decodeLoop env ds lines).count ≤ m.length) :
    editEvents m es lines = some (decodeEvents env ds lines) ∧
    ∃ es1, editLoop m es lines = some es1 ∧ es1.count = (decodeLoop env ds lines).count ∧
      es1.inCert = (decodeLoop env ds lines).inCert ∧
      ((decodeLoop env ds lines).inCert = true → 1 ≤ (decodeLoop env ds lines).count) := by
  induction lines generalizing ds es with
  | nil => exact ⟨rfl, es, rfl, hc, hi, hpos⟩
  | cons raw rest ih =>
    rw [decodeLoop_cons] at hm ⊢
    have hm1 : (decodeStep env ds raw).count ≤ m.length :=
      Nat.le_trans (decodeLoop_count_le env rest _) hm
    obtain ⟨es1, h1, c1, i1, p1⟩ := editStep_follows env m ds es raw hc hi hpos hm1
    obtain ⟨hev, es2, h2, c2, i2, p2⟩ := ih (decodeStep env ds raw) es1 c1 i1 p1 hm
    refine ⟨?_, es2, ?_, c2, i2, p2⟩
    · rw [editEvents, h1]
      simp only []
      rw [hev, decodeEvents, hi, c1, i1]
      rfl
    · rw [editLoop, h1]
      exact h2

theorem editStep_applies_flag (m : List Bool) (s s1 : EditState) (raw : Line)
    (h : editStep m s raw = some s1) :
    ((eventOf s.inCert s1.count s1.inCert).position = none → s1.outFile = s.outFile) ∧
    ∀ k, (eventOf s.inCert s1.count s1.inCert).position = some k →
      ∃ r, flagAt m k = some r ∧ (r = true → s1.outFile = s.outFile) ∧
        (r = false → s1.outFile = s.outFile ++ [trim raw] ∨
          s1.outFile = s.outFile ++ [[], trim raw]) := by
  unfold editStep at h
  simp only [] at h
  by_cases hin : s.inCert = true
  · rw [if_pos hin] at h
    cases hf : flagAt m s.count with
    | none => rw [hf] at h; simp at h
    | some r =>
      rw [hf] at h
      simp only [] at h
      have hcount : s1.count = s.count := by
        split at h <;> rw [← Option.some.inj h]
      have hout : s1.outFile = if !r then s.outFile ++ [trim raw] else s.outFile := by
        split at h <;> rw [← Option.some.inj h]
      have hpos : (eventOf s.inCert s1.count s1.inCert).position = some s.count := by
        rw [hin, hcount]
        cases s1.inCert <;> rfl
      refine ⟨fun hn => by rw [hpos] at hn; simp at hn, ?_⟩
      intro k hk
      rw [hpos] at hk
      have hk1 : s.count = k := Option.some.inj hk
      subst hk1
      refine ⟨r, hf, ?_, ?_⟩
      · intro hr; rw [hout, hr]; rfl
      · intro hr; rw [hout, hr]; exact Or.inl rfl
  · have hin0 : s.inCert = false := by simpa using hin
    rw [if_neg hin] at h
    by_cases hb : trim raw = BEGIN_CERTIFICATE
    · rw [if_pos hb] at h
      cases hf : flagAt m (s.count + 1) with
      | none => rw [hf] at h; simp at h
      | some r =>
        rw [hf] at h
        simp only [] at h
        have hpos : (eventOf s.inCert s1.count s1.inCert).position = some (s.count + 1) := by
          rw [hin0]
          cases r
          · simp only [Bool.not_false, if_true] at h
            split at h <;> (rw [← Option.some.inj h]; rfl)
          · simp only [Bool.not_true, Bool.false_eq_true, if_false] at h
            rw [← Option.some.inj h]; rfl
        refine ⟨fun hn => by rw [hpos] at hn; simp at hn, ?_⟩
        intro k hk
        rw [hpos] at hk
        have hk1 : s.count + 1 = k := Option.some.inj hk
        subst hk1
        refine ⟨r, hf, ?_, ?_⟩
        · intro hr
          rw [hr] at h
          simp only [Bool.not_true, Bool.false_eq_true, if_false] at h
          rw [← Option.some.inj h]
        · intro hr
          rw [hr] at h
          simp only [Bool.not_false, if_true] at h
          split at h
          · right; rw [← Option.some.inj h]
          · left; rw [← Option.some.inj h]
    · rw [if_neg hb] at h
      have e : s1 = s := (Option.some.inj h).symm
      subst e
      have hpos : (eventOf s1.inCert s1.count s1.inCert).position = none := by
        rw [hin0]; rfl
      refine ⟨fun _ => rfl, ?_⟩
      intro k hk
      rw [hpos] at hk
      simp at hk

/-- C21: for every line sequence and every removal mask with an entry for each
certificate start of the sequence, the loop of `decodeOneCert` and the filter
loop of `editCertFile` take the same lines for certificate starts, for lines
inside a certificate and for certificate ends, with the same positions
(`count`), line by line. Before every line the two loops agree on `count` and
`inCert`; the begin marker that `decodeOneCert` reports as `Certificate k`
and every line up to the end marker of that certificate are written by the
filter loop exactly when entry `k` of the mask (`removeFlags [k - 1]`) is
false, and nothing is written for a line outside the certificates. -/
theorem C21_same_starts_and_ends {Tm : Type} (env : DecodeEnv Tm) (removeFlags : List Bool)
    (file : List Line)
    (hmask : (decodeLoop env decodeInit file).count ≤ removeFlags.length) :
    editEvents removeFlags editInit file = some (decodeEvents env decodeInit file) ∧
    ∀ pre raw post, file = pre ++ raw :: post →
      ∃ es es1, editLoop removeFlags editInit pre = some es ∧
        editStep removeFlags es raw = some es1 ∧
        es.count = (decodeLoop env decodeInit pre).count ∧
        es.inCert = (decodeLoop env decodeInit pre).inCert ∧
        ((eventOf (decodeLoop env decodeInit pre).inCert
            (decodeStep env (decodeLoop env decodeInit pre) raw).count
            (decodeStep env (decodeLoop env decodeInit pre) raw).inCert).position = none →
          es1.outFile = es.outFile) ∧
        ∀ k, (eventOf (decodeLoop env decodeInit pre).inCert
            (decodeStep env (decodeLoop env decodeInit pre) raw).count
            (decodeStep env (decodeLoop env decodeInit pre) raw).inCert).position = some k →
          ((decodeLoop env decodeInit pre).inCert = false →
            (decodeStep env (decodeLoop env decodeInit pre) raw).stdout =
              (decodeLoop env decodeInit pre).stdout ++ [certHeader env.certfile k]) ∧
          ∃ r, flagAt removeFlags k = some r ∧ (r = true → es1.outFile = es.outFile) ∧
            (r = false → es1.outFile = es.outFile ++ [trim raw] ∨
              es1.outFile = es.outFile ++ [[], trim raw]) := by
  have hinit : decodeInit.inCert = true → 1 ≤ decodeInit.count := by
    intro h; exact absurd h (by decide)
  refine ⟨(editLoop_follows env removeFlags file decodeInit editInit rfl rfl hinit hmask).1, ?_⟩
  intro pre raw post hfile
  have hstep : decodeLoop env decodeInit file =
      decodeLoop env (decodeStep env (decodeLoop env decodeInit pre) raw) post := by
    rw [hfile, decodeLoop_append, decodeLoop_cons]
  have hm1 : (decodeStep env (decodeLoop env decodeInit pre) raw).count ≤ removeFlags.length := by
    rw [hstep] at hmask
    exact Nat.le_trans (decodeLoop_count_le env post _) hmask
  have hm0 : (decodeLoop env decodeInit pre).count ≤ removeFlags.length :=
    Nat.le_trans (decodeStep_count_le env _ raw) hm1
  obtain ⟨_, es, he, hc, hi, hp⟩ :=
    editLoop_follows env removeFlags pre decodeInit editInit rfl rfl hinit hm0
  obtain ⟨es1, h1, c1, i1, _⟩ :=
    editStep_follows env removeFlags (decodeLoop env decodeInit pre) es raw hc hi hp hm1
  obtain ⟨hnone, hsome⟩ := editStep_applies_flag removeFlags es es1 raw h1
  rw [hi, c1, i1] at hnone hsome
  refine ⟨es, es1, he, h1, hc, hi, hnone, ?_⟩
  intro k hk
  refine ⟨?_, hsome k hk⟩
  intro h0
  have ht : (decodeStep env (decodeLoop env decodeInit pre) raw).inCert = true := by
    rw [h0] at hk
    cases hv : (decodeStep env (decodeLoop env decodeInit pre) raw).inCert with
    | true => rfl
    | false => rw [hv] at hk; simp [eventOf, Event.position] at hk
  have hkc : (decodeStep env (decodeLoop env decodeInit pre) raw).count = k := by
    rw [h0, ht] at hk
    exact Option.some.inj hk
  rw [← hkc]
  exact decodeStep_header_printed env _ raw h0 ht

set_option maxRecDepth 100000 in
/-- An instance of C21: the three-certificate sample bundle with the mask that
removes the second certificate. -/
theorem C21_same_starts_and_ends_witness :
    (decodeLoop sampleEnv decodeInit (bundleLines sampleBundle [])).count ≤
      [false, true, false].length ∧
    decodeEvents sampleEnv decodeInit (bundleLines sampleBundle []) =
      [Event.outside, Event.start 1, Event.inside 1, Event.inside 1, Event.finish 1,
        Event.outside, Event.start 2, Event.inside 2, Event.finish 2,
        Event.start 3, Event.inside 3, Event.finish 3] ∧
    editEvents [false, true, false] editInit (bundleLines sampleBundle []) =
      some (decodeEvents sampleEnv decodeInit (bundleLines sampleBundle [])) :=
  ⟨by decide, by decide,
    (C21_same_starts_and_ends sampleEnv [false, true, false] (bundleLines sampleBundle [])
      (by decide)).1⟩

/-! ### The array indices of the selection loop -/

theorem deleteStep_unrecognised (o : DeleteOpts) (s : DeleteState) (raw : Line)
    (hh : ¬ IsHeader raw) (hf : ¬ IsFieldLine raw) : deleteStep o s raw = some s := by
  unfold IsHeader at hh
  unfold IsFieldLine at hf
  simp only [not_or, Option.isSome_iff_ne_none, ne_eq, not_not] at hf
  obtain ⟨h1, h2, h3, h4, h5⟩ := hf
  unfold deleteStep
  simp only [hh, Bool.false_eq_true, if_false, h1, h2, h3, h4, h5]

theorem headerCount_cons (l : Line) (ls : List Line) :
    headerCount (l :: ls) = (if IsHeader l then 1 else 0) + headerCount ls := by
  unfold headerCount
  by_cases h : IsHeader l
  · simp [List.filter_cons, h]; omega
  · simp [List.filter_cons, h]

theorem headerCount_append (xs ys : List Line) :
    headerCount (xs ++ ys) = headerCount xs + headerCount ys := by
  simp [headerCount, List.filter_append]

theorem firstRecognised_cons_of_not (l : Line) (ls : List Line)
    (h : ¬ (IsHeader l ∨ IsFieldLine l)) : firstRecognised (l :: ls) = firstRecognised ls := by
  unfold firstRecognised
  rw [List.find?_cons_of_neg]
  simpa using h

theorem firstRecognised_cons_of_pos (l : Line) (ls : List Line)
    (h : IsHeader l ∨ IsFieldLine l) : firstRecognised (l :: ls) = some l := by
  unfold firstRecognised
  rw [List.find?_cons_of_pos]
  simpa using h

theorem firstRecognised_append_of_none (xs ys : List Line)
    (h : ∀ l ∈ xs, ¬ IsHeader l ∧ ¬ IsFieldLine l) :
    firstRecognised (xs ++ ys) = firstRecognised ys := by
  induction xs with
  | nil => rfl
  | cons x xs ih =>
    have hx := h x (List.mem_cons_self _ _)
    rw [List.cons_append, firstRecognised_cons_of_not _ _ (by tauto)]
    exact ih (fun l hl => h l (List.mem_cons_of_mem _ hl))

theorem firstRecognised_append_of_some (xs ys : List Line) (l : Line)
    (h : firstRecognised xs = some l) : firstRecognised (xs ++ ys) = some l := by
  induction xs with
  | nil => simp [firstRecognised] at h
  | cons x xs ih =>
    by_cases hx : IsHeader x ∨ IsFieldLine x
    · rw [firstRecognised_cons_of_pos _ _ hx] at h
      rw [List.cons_append, firstRecognised_cons_of_pos _ _ hx, h]
    · rw [firstRecognised_cons_of_not _ _ hx] at h
      rw [List.cons_append, firstRecognised_cons_of_not _ _ hx]
      exact ih h

theorem deleteLoop_after_header (o : DeleteOpts) (stream : List Line) (s : DeleteState)
    (h1 : 1 ≤ s.totalCount)
    (hcap : s.totalCount + headerCount stream ≤ MAXIMUM_CERTIFICATES) :
    ∃ s1, deleteLoop o s stream = some s1 ∧
      s1.totalCount = s.totalCount + headerCount stream := by
  induction stream generalizing s with
  | nil => exact ⟨s, rfl, by simp [headerCount]⟩
  | cons l ls ih =>
    rw [headerCount_cons] at hcap ⊢
    by_cases hh : IsHeader l
    · rw [if_pos hh] at hcap ⊢
      obtain ⟨s1, e1, t1, _, _⟩ := deleteStep_header o s l hh (by omega)
      obtain ⟨s2, e2, t2⟩ := ih s1 (by omega) (by omega)
      refine ⟨s2, ?_, by omega⟩
      rw [deleteLoop, e1]
      exact e2
    · rw [if_neg hh] at hcap ⊢
      obtain ⟨s1, e1⟩ := deleteStep_other_defined o s l hh h1 (by omega)
      have t1 : s1.totalCount = s.totalCount := (deleteStep_other_of_some o s s1 l hh e1).1
      obtain ⟨s2, e2, t2⟩ := ih s1 (by omega) (by omega)
      refine ⟨s2, ?_, by omega⟩
      rw [deleteLoop, e1]
      exact e2

theorem deleteLoop_from_start (o : DeleteOpts) (stream : List Line) (s : DeleteState)
    (h0 : s.totalCount = 0)
    (hfirst : ∀ l, firstRecognised stream = some l → IsHeader l)
    (hcap : headerCount stream ≤ MAXIMUM_CERTIFICATES) :
    ∃ s1, deleteLoop o s stream = some s1 ∧ s1.totalCount = headerCount stream ∧
      (s1.totalCount = 0 → ∀ l ∈ stream, ¬ IsHeader l ∧ ¬ IsFieldLine l) := by
  induction stream generalizing s with
  | nil => exact ⟨s, rfl, by simp [headerCount, h0], fun _ l hl => by simp at hl⟩
  | cons l ls ih =>
    rw [headerCount_cons] at hcap ⊢
    by_cases hh : IsHeader l
    · rw [if_pos hh] at hcap ⊢
      obtain ⟨s1, e1, t1, _, _⟩ := deleteStep_header o s l hh
        (by rw [h0]; exact Nat.succ_pos _)
      obtain ⟨s2, e2, t2⟩ := deleteLoop_after_header o ls s1 (by omega) (by omega)
      refine ⟨s2, ?_, by omega, fun hz => by omega⟩
      rw [deleteLoop, e1]
      exact e2
    · rw [if_neg hh] at hcap ⊢
      have hf : ¬ IsFieldLine l := by
        intro hf
        exact hh (hfirst l (firstRecognised_cons_of_pos l ls (Or.inr hf)))
      have hnot : ¬ (IsHeader l ∨ IsFieldLine l) := by tauto
      obtain ⟨s1, e1, t1, z1⟩ := ih s h0
        (fun x hx => hfirst x (by rw [firstRecognised_cons_of_not l ls hnot]; exact hx))
        (by omega)
      refine ⟨s1, ?_, by omega, ?_⟩
      · rw [deleteLoop, deleteStep_unrecognised o s l hh hf]
        exact e1
      · intro hz x hx
        rcases List.mem_cons.mp hx with e | e
        · rw [e]; exact ⟨hh, hf⟩
        · exact z1 hz x e

/-- C22: for every decoder output stream whose first recognised line (header,
`Issuer: `, `Validity`, `Not Before: `, `Not After : ` or `Subject: `) is a
header and that holds at most 16 header lines, for all options and all contents
of the uninitialised arrays, the loop of `deleteOneCert` runs through the whole
stream with every array index inside the arrays: at a header line the index
`totalCount - 1` after the increment, and at a field line the index
`totalCount - 1`, lie in `0 .. 15`; no step takes the out-of-range branch, and
the loop ends with `totalCount` equal to the number of header lines. -/
theorem C22_indices_in_range (o : DeleteOpts) (uninit : DeleteState) (stream : List Line)
    (hfirst : ∀ l, firstRecognised stream = some l → IsHeader l)
    (hcap : headerCount stream ≤ MAXIMUM_CERTIFICATES) :
    (∃ s, deleteLoop o (deleteInit uninit) stream = some s ∧
      s.totalCount = headerCount stream) ∧
    ∀ pre raw post, stream = pre ++ raw :: post →
      ∃ s0 s1, deleteLoop o (deleteInit uninit) pre = some s0 ∧
        deleteStep o s0 raw = some s1 ∧
        (IsHeader raw →
          slot (s0.totalCount + 1) = some s0.totalCount ∧ s0.totalCount ≤ 15) ∧
        (¬ IsHeader raw → IsFieldLine raw →
          slot s0.totalCount = some (s0.totalCount - 1) ∧ 1 ≤ s0.totalCount ∧
            s0.totalCount - 1 ≤ 15) := by
  constructor
  · obtain ⟨s, e, t, _⟩ := deleteLoop_from_start o stream (deleteInit uninit) rfl hfirst hcap
    exact ⟨s, e, t⟩
  · intro pre raw post hsplit
    have hc : headerCount pre + headerCount (raw :: post) ≤ MAXIMUM_CERTIFICATES := by
      rw [← headerCount_append, ← hsplit]; exact hcap
    rw [headerCount_cons] at hc
    obtain ⟨s0, e0, t0, z0⟩ := deleteLoop_from_start o pre (deleteInit uninit) rfl
      (fun l hl => hfirst l (by rw [hsplit]; exact firstRecognised_append_of_some pre _ l hl))
      (by omega)
    have hM : MAXIMUM_CERTIFICATES = 16 := rfl
    by_cases hh : IsHeader raw
    · rw [if_pos hh] at hc
      obtain ⟨s1, e1, _⟩ := deleteStep_header o s0 raw hh (by omega)
      refine ⟨s0, s1, e0, e1, fun _ => ⟨?_, by omega⟩, fun hn => absurd hh hn⟩
      have := slot_eq_some (s0.totalCount + 1) (by omega) (by omega)
      simpa using this
    · by_cases hf : IsFieldLine raw
      · have hpos : 1 ≤ s0.totalCount := by
          by_contra hz
          have hz0 : s0.totalCount = 0 := by omega
          have hraw : firstRecognised stream = some raw := by
            rw [hsplit, firstRecognised_append_of_none pre _ (z0 hz0),
              firstRecognised_cons_of_pos raw post (Or.inr hf)]
          exact hh (hfirst raw hraw)
        obtain ⟨s1, e1⟩ := deleteStep_other_defined o s0 raw hh hpos (by omega)
        exact ⟨s0, s1, e0, e1, fun h => absurd h hh,
          fun _ _ => ⟨slot_eq_some _ hpos (by omega), hpos, by omega⟩⟩
      · exact ⟨s0, s0, e0, deleteStep_unrecognised o s0 raw hh hf, fun h => absurd h hh,
          fun _ h => absurd h hf⟩

/-- An instance of C22: the sample record stream of three certificates, with a
line of another program before the first header. -/
theorem C22_indices_in_range_witness :
    (∀ l, firstRecognised ("warning: x\n".toList :: recordLines sampleRecords) = some l →
      IsHeader l) ∧
    headerCount ("warning: x\n".toList :: recordLines sampleRecords) ≤ MAXIMUM_CERTIFICATES ∧
    ∃ s, deleteLoop allCriteria (deleteInit sampleUninit)
        ("warning: x\n".toList :: recordLines sampleRecords) = some s ∧
      s.totalCount = headerCount ("warning: x\n".toList :: recordLines sampleRecords) :=
  ⟨fun l h => by
      have e : firstRecognised ("warning: x\n".toList :: recordLines sampleRecords) =
          some sampleRecord1.header := by decide
      rw [e] at h
      rw [← Option.some.inj h]
      decide,
    by decide,
    (C22_indices_in_range allCriteria sampleUninit
      ("warning: x\n".toList :: recordLines sampleRecords)
      (fun l h => by
        have e : firstRecognised ("warning: x\n".toList :: recordLines sampleRecords) =
            some sampleRecord1.header := by decide
        rw [e] at h
        rw [← Option.some.inj h]
        decide)
      (by decide)).1⟩

/-! ### The mask handed to `editCertFile` -/

theorem deleteLoop_capacity (o : DeleteOpts) (lines : List Line) (s s1 : DeleteState)
    (h : deleteLoop o s lines = some s1) (hcap : s.totalCount ≤ MAXIMUM_CERTIFICATES) :
    s1.totalCount ≤ MAXIMUM_CERTIFICATES := by
  induction lines generalizing s with
  | nil =>
    have e : s = s1 := Option.some.inj h
    rw [← e]; exact hcap
  | cons l ls ih =>
    rw [deleteLoop] at h
    cases hstep : deleteStep o s l with
    | none => rw [hstep] at h; simp at h
    | some s2 =>
      rw [hstep] at h
      simp only [] at h
      refine ih s2 h ?_
      by_cases hh : IsHeader l
      · have hroom := deleteStep_header_room o s s2 l hh hstep
        obtain ⟨s3, e3, t3, _, _⟩ := deleteStep_header o s l hh hroom
        rw [hstep] at e3
        rw [Option.some.inj e3, t3]
        exact hroom
      · rw [(deleteStep_other_of_some o s s2 l hh hstep).1]
        exact hcap

theorem exists_marked (s : DeleteState) (h : 0 < markedCount s) :
    ∃ i, i < s.totalCount ∧ s.remove i = true := by
  unfold markedCount at h
  obtain ⟨i, hi⟩ := List.exists_mem_of_length_pos h
  rw [List.mem_filter, List.mem_range] at hi
  exact ⟨i, hi.1, hi.2⟩

theorem exists_unmarked (s : DeleteState) (h : markedCount s < s.totalCount) :
    ∃ j, j < s.totalCount ∧ s.remove j = false := by
  by_contra hno
  have hall : ∀ k ∈ List.range s.totalCount, (fun k => s.remove k) k = true := by
    intro k hk
    rw [List.mem_range] at hk
    cases hr : s.remove k with
    | true => exact hr
    | false => exact absurd ⟨k, hk, hr⟩ hno
  unfold markedCount at h
  rw [List.filter_eq_self.mpr hall, List.length_range] at h
  exact Nat.lt_irrefl _ h

theorem removeArray_get (s : DeleteState) (i : Nat) (hi : i < MAXIMUM_CERTIFICATES) :
    (removeArray s)[i]? = some (s.remove i) := by
  unfold removeArray
  rw [List.getElem?_map, List.getElem?_range hi]
  rfl

theorem finish_rewriter (env : SysEnv) (o : RunOpts) (f : EditFaults) (forceFault : Bool)
    (fs : FileSystem) (certfile : Line) (in_mode : Nat) (s : DeleteState) (out : Outcome)
    (h : deleteOneCertFinish env o f forceFault fs certfile in_mode s = some out) :
    out.rewriter = none ∨
      out.rewriter = some (certfile, backupFilename certfile, removeArray s) := by
  unfold deleteOneCertFinish at h
  simp only [] at h
  split at h
  · rw [← Option.some.inj h]; exact Or.inl rfl
  · split at h
    · rw [← Option.some.inj h]; exact Or.inl rfl
    · split at h
      · rw [← Option.some.inj h]; exact Or.inl rfl
      · split at h
        · split at h
          · split at h
            · simp at h
            · rw [← Option.some.inj h]; exact Or.inr rfl
          · rw [← Option.some.inj h]; exact Or.inl rfl
        · split at h
          · simp at h
          · rw [← Option.some.inj h]; exact Or.inr rfl

/-- While the selection loop stays inside its arrays the mask is as C23 says:
whenever a run of `deleteOneCert` does not end without calling `editCertFile`,
the selection loop has ended with `0 < deleteCount < totalCount` and
`totalCount` at most 16, and the array `remove` handed to `editCertFile` holds
at least one true entry and at least one false entry among the positions
`1 .. totalCount`. -/
theorem mask_has_both_within_arrays (env : SysEnv) (o : RunOpts) (f : EditFaults) (forceFault : Bool)
    (fs : FileSystem) (filename : Line) (file : File) (pipe : List Line) (s : DeleteState)
    (hstat : fs (env.resolve filename) = some file)
    (hpipe : env.popen (if o.opt_path then "decodeCert -p ".toList ++ filename
      else "decodeCert ".toList ++ filename) fs = some pipe)
    (hloop : deleteLoop o.sel (deleteInit env.uninit_state) pipe = some s)
    (hcall : ∀ out, deleteOneCert env o f forceFault fs filename = some out →
      out.rewriter ≠ none) :
    0 < s.deleteCount ∧ s.deleteCount < s.totalCount ∧
    s.totalCount ≤ MAXIMUM_CERTIFICATES ∧
    (∃ i, i < s.totalCount ∧ (removeArray s)[i]? = some true) ∧
    (∃ j, j < s.totalCount ∧ (removeArray s)[j]? = some false) ∧
    ∀ out, deleteOneCert env o f forceFault fs filename = some out →
      out.rewriter = some (certfileOf o.opt_path env.wd filename,
        backupFilename (certfileOf o.opt_path env.wd filename), removeArray s) := by
  have hfin := deleteOneCert_eq_finish env o f forceFault fs filename file pipe s hstat hpipe
    hloop
  rw [hfin] at hcall ⊢
  have hinv := (deleteLoop_invariant o.sel pipe (deleteInit env.uninit_state) s hloop
    (by simp [deleteInit, markedCount])).1
  have hcap := deleteLoop_capacity o.sel pipe (deleteInit env.uninit_state) s hloop
    (Nat.zero_le _)
  have h0 : s.deleteCount ≠ 0 := by
    intro h0
    exact hcall _ (finish_of_zero env o f forceFault fs _ _ s h0) rfl
  have hall : s.deleteCount ≠ s.totalCount := by
    intro hall
    exact hcall _ (finish_of_all env o f forceFault fs _ _ s h0 hall) rfl
  have hle : s.deleteCount ≤ s.totalCount := by rw [hinv]; exact markedCount_le s
  have hlt : s.deleteCount < s.totalCount := Nat.lt_of_le_of_ne hle hall
  obtain ⟨i, hi, ri⟩ := exists_marked s (by rw [← hinv]; exact Nat.pos_of_ne_zero h0)
  obtain ⟨j, hj, rj⟩ := exists_unmarked s (by rw [← hinv]; exact hlt)
  refine ⟨Nat.pos_of_ne_zero h0, hlt, hcap, ⟨i, hi, ?_⟩, ⟨j, hj, ?_⟩, ?_⟩
  · rw [removeArray_get s i (Nat.lt_of_lt_of_le hi hcap), ri]
  · rw [removeArray_get s j (Nat.lt_of_lt_of_le hj hcap), rj]
  · intro out hout
    exact (finish_rewriter env o f forceFault fs _ _ s out hout).resolve_left (hcall out hout)

set_option maxRecDepth 100000 in
/-- The options `-n 2` on the three-certificate sample bundle; the mask
handed to `editCertFile` is false, true, false at the positions 1 to 3. -/
theorem mask_has_both_within_arrays_sample :
    sampleFs (sampleSys.resolve "ca.pem".toList) = some sampleFile ∧
    sampleSys.popen (if removeSecond.opt_path then "decodeCert -p ".toList ++ "ca.pem".toList
      else "decodeCert ".toList ++ "ca.pem".toList) sampleFs =
        some (recordLines sampleRecords) ∧
    deleteLoop removeSecond.sel (deleteInit sampleSys.uninit_state)
      (recordLines sampleRecords) = some sampleSelSecond ∧
    (∀ out, deleteOneCert sampleSys removeSecond noFaults false sampleFs "ca.pem".toList =
      some out → out.rewriter ≠ none) ∧
    (removeArray sampleSelSecond).take 3 = [false, true, false] ∧
    0 < sampleSelSecond.deleteCount ∧
    sampleSelSecond.deleteCount < sampleSelSecond.totalCount ∧
    sampleSelSecond.totalCount ≤ MAXIMUM_CERTIFICATES ∧
    (∃ i, i < sampleSelSecond.totalCount ∧ (removeArray sampleSelSecond)[i]? = some true) ∧
    (∃ j, j < sampleSelSecond.totalCount ∧ (removeArray sampleSelSecond)[j]? = some false) ∧
    ∀ out, deleteOneCert sampleSys removeSecond noFaults false sampleFs "ca.pem".toList =
        some out →
      out.rewriter = some (certfileOf removeSecond.opt_path sampleSys.wd "ca.pem".toList,
        backupFilename (certfileOf removeSecond.opt_path sampleSys.wd "ca.pem".toList),
        removeArray sampleSelSecond) :=
  have hrun : deleteOneCert sampleSys removeSecond noFaults false sampleFs "ca.pem".toList =
      some sampleOutcomeSecond := eq_some_getD_of_isSome _ _ (by decide)
  have hcall : ∀ out, deleteOneCert sampleSys removeSecond noFaults false sampleFs
      "ca.pem".toList = some out → out.rewriter ≠ none := fun out h => by
    rw [hrun] at h
    rw [← Option.some.inj h]
    decide
  ⟨rfl, by decide, eq_some_getD_of_isSome _ _ (by decide), hcall, by decide,
    mask_has_both_within_arrays sampleSys removeSecond noFaults false sampleFs "ca.pem".toList
      sampleFile (recordLines sampleRecords) sampleSelSecond rfl (by decide)
      (eq_some_getD_of_isSome _ _ (by decide)) hcall⟩

/-! ### Streams beyond the capacity of the arrays -/

theorem deleteStep_header_none (o : DeleteOpts) (s : DeleteState) (raw : Line)
    (hh : IsHeader raw) (hfull : MAXIMUM_CERTIFICATES ≤ s.totalCount) :
    deleteStep o s raw = none := by
  unfold IsHeader at hh
  have hslot : slot (s.totalCount + 1) = none := by
    unfold slot
    rw [if_neg (by omega)]
  unfold deleteStep
  simp only [hh, if_true, hslot]

theorem deleteLoop_totalCount (o : DeleteOpts) (lines : List Line) (s s1 : DeleteState)
    (h : deleteLoop o s lines = some s1) :
    s1.totalCount = s.totalCount + headerCount lines := by
  induction lines generalizing s with
  | nil =>
    have e : s = s1 := Option.some.inj h
    rw [← e]; simp [headerCount]
  | cons l ls ih =>
    rw [deleteLoop] at h
    cases hstep : deleteStep o s l with
    | none => rw [hstep] at h; simp at h
    | some s2 =>
      rw [hstep] at h
      simp only [] at h
      have h2 := ih s2 h
      rw [headerCount_cons]
      by_cases hh : IsHeader l
      · have hroom := deleteStep_header_room o s s2 l hh hstep
        obtain ⟨s3, e3, t3, _, _⟩ := deleteStep_header o s l hh hroom
        rw [hstep] at e3
        rw [if_pos hh, h2, Option.some.inj e3, t3]
        omega
      · rw [if_neg hh, h2, (deleteStep_other_of_some o s s2 l hh hstep).1]
        omega

theorem deleteLoop_none_of_headers (o : DeleteOpts) (u : DeleteState) (stream : List Line)
    (h : MAXIMUM_CERTIFICATES < headerCount stream) :
    deleteLoop o (deleteInit u) stream = none := by
  cases hl : deleteLoop o (deleteInit u) stream with
  | none => rfl
  | some s1 =>
    exfalso
    have hcap := deleteLoop_capacity o stream (deleteInit u) s1 hl (Nat.zero_le _)
    have ht := deleteLoop_totalCount o stream (deleteInit u) s1 hl
    have h0 : (deleteInit u).totalCount = 0 := rfl
    omega

theorem headerRecords_seventeen :
    recordLines (headerRecords 17) = recordLines (headerRecords 16) ++ [seventeenthHeader] := by
  have e : headerRecords 17 =
      headerRecords 16 ++ [{ header := seventeenthHeader, rest := [] }] := by
    simp [headerRecords, List.range_succ, seventeenthHeader]
  rw [e, recordLines_append]
  rfl

theorem deleteLoop_seventeen (o : DeleteOpts) (u : DeleteState) :
    (∃ s, deleteLoop o (deleteInit u) (recordLines (headerRecords 16)) = some s ∧
      s.totalCount = 16 ∧ s.deleteCount = markedCount s ∧ slot (s.totalCount + 1) = none ∧
      deleteStep o s seventeenthHeader = none) ∧
    deleteLoop o (deleteInit u) (recordLines (headerRecords 17)) = none := by
  have hwf : ∀ r ∈ headerRecords 16, r.WellFormed := by decide
  have hcap : (deleteInit u).totalCount + (headerRecords 16).length ≤ MAXIMUM_CERTIFICATES := by
    show 0 + (headerRecords 16).length ≤ MAXIMUM_CERTIFICATES
    decide
  obtain ⟨s, e, t, _⟩ := deleteLoop_records_frame o (headerRecords 16) hwf (deleteInit u) hcap
  have t16 : s.totalCount = 16 := by
    rw [t]
    rfl
  have hinv := (deleteLoop_invariant o _ (deleteInit u) s e
    (by simp [deleteInit, markedCount])).1
  have hh : IsHeader seventeenthHeader := by decide
  have hstep := deleteStep_header_none o s seventeenthHeader hh (by rw [t16]; decide)
  refine ⟨⟨s, e, t16, hinv, ?_, hstep⟩, ?_⟩
  · rw [t16]; rfl
  · rw [headerRecords_seventeen, deleteLoop_append, e]
    simp only [Option.some_bind, deleteLoop, hstep]

/-- C4 fails on the code for every stream of more than 16 records: the arrays of
`deleteOneCert` have `MAXIMUM_CERTIFICATES` = 16 rows and the loop never compares
`totalCount` with it. For the stream of 17 headers, whatever the target
position and the content of the arrays, the loop runs through the first 16
headers and at the 17th writes `issuer [16]`, `validity_message [16]`,
`validity_range [16]`, `subject [16]` and `remove [16]`, outside the arrays, so
that no result of the selection is defined; the same holds for every stream
with more than 16 header lines. -/
theorem C4_seventeenth_record_outside_arrays (P : Int) (u : DeleteState) :
    (∀ r ∈ headerRecords 17, r.WellFormed) ∧ (headerRecords 17).length = 17 ∧
    (∃ s, deleteLoop (positionOnly P) (deleteInit u) (recordLines (headerRecords 16)) =
        some s ∧
      s.totalCount = 16 ∧ slot (s.totalCount + 1) = none ∧
      deleteStep (positionOnly P) s seventeenthHeader = none) ∧
    deleteLoop (positionOnly P) (deleteInit u) (recordLines (headerRecords 17)) = none ∧
    ∀ stream, MAXIMUM_CERTIFICATES < headerCount stream →
      deleteLoop (positionOnly P) (deleteInit u) stream = none := by
  obtain ⟨⟨s, e, t, _, hs, hstep⟩, hnone⟩ := deleteLoop_seventeen (positionOnly P) u
  exact ⟨by decide, by decide, ⟨s, e, t, hs, hstep⟩, hnone,
    fun stream h => deleteLoop_none_of_headers (positionOnly P) u stream h⟩

theorem stepFits_long_issuer (s : DeleteState) (X : Line) (hne : X ≠ [])
    (hlast : ∀ c, X.getLast? = some c → isTrimChar c = false) (hlen : 1019 ≤ X.length) :
    stepFits s ("        Issuer: CN = ".toList ++ X ++ [Char.ofNat 10]) = false := by
  have h1 : trim ("        Issuer: CN = ".toList ++ X) = "        Issuer: CN = ".toList ++ X := by
    apply trim_of_clean
    intro c hc
    rw [List.getLast?_append] at hc
    cases hx : X.getLast? with
    | none => exact absurd (List.getLast?_eq_none_iff.mp hx) hne
    | some x =>
      rw [hx] at hc
      have e : x = c := by simpa using hc
      rw [← e]
      exact hlast x hx
  have htrim : trim ("        Issuer: CN = ".toList ++ X ++ [Char.ofNat 10]) =
      "        Issuer: CN = ".toList ++ X := by
    have h2 := trim_append_newline ("        Issuer: CN = ".toList ++ X) (Char.ofNat 10)
      (by decide)
    rw [h1] at h2
    exact h2
  have hhead : strncmpEq ("        Issuer: CN = ".toList ++ X) "========".toList 8 = false := by
    unfold strncmpEq
    rw [List.take_append_of_le_length (by decide)]
    decide
  have hstr : strstr ("        Issuer: CN = ".toList ++ X) "Issuer: ".toList =
      some ("Issuer: CN = ".toList ++ X) := by
    simp [strstr, List.isPrefixOf]
  unfold stepFits
  simp only [htrim, hhead, hstr, Bool.false_eq_true, if_false]
  unfold fitsRow MAXIMUM_LENGTH
  rw [List.drop_append_of_le_length (by decide)]
  have hl : ("Issuer: CN = ".toList.drop 8 ++ X).length = 5 + X.length := by
    rw [List.length_append]
    rfl
  rw [hl]
  simp only [decide_eq_false_iff_not, Nat.not_lt]
  omega

theorem stepFits_longIssuerLine (s : DeleteState) : stepFits s longIssuerLine = false := by
  have hlen : (List.replicate 1019 'A').length = 1019 := List.length_replicate _ _
  apply stepFits_long_issuer
  · intro h
    rw [h] at hlen
    exact absurd hlen (by decide)
  · intro c hc
    rw [List.eq_of_mem_replicate (List.mem_of_getLast?_eq_some hc)]
    decide
  · rw [hlen]

/-- C7 fails on the code where the loop of `deleteOneCert` leaves its arrays. For
every criteria and every content of the arrays, on the stream of 17 headers the
relation between the removal count and the marked records holds after the
first 16 headers, and the 17th header writes `remove [16]` and the rows 16 of
the text arrays, outside the arrays: after this prefix no value of the count or
of the marks is defined. An issuer line whose distinguished name has 1024
characters is copied into its row of `MAXIMUM_LENGTH` = 1024 characters without
a check and does not fit. -/
theorem C7_count_relation_lost_outside_arrays (o : DeleteOpts) (u : DeleteState) :
    (∃ s, deleteLoop o (deleteInit u) (recordLines (headerRecords 16)) = some s ∧
      s.totalCount = 16 ∧ s.deleteCount = markedCount s ∧
      deleteStep o s seventeenthHeader = none) ∧
    deleteLoop o (deleteInit u) (recordLines (headerRecords 17)) = none ∧
    (∀ stream, MAXIMUM_CERTIFICATES < headerCount stream →
      deleteLoop o (deleteInit u) stream = none) ∧
    (∀ s : DeleteState, stepFits s longIssuerLine = false) := by
  obtain ⟨⟨s, e, t, hinv, _, hstep⟩, hnone⟩ := deleteLoop_seventeen o u
  exact ⟨⟨s, e, t, hinv, hstep⟩, hnone,
    fun stream h => deleteLoop_none_of_headers o u stream h, stepFits_longIssuerLine⟩

/-- C23 fails on the code for a bundle of more than 16 certificates. With target
position 17 on the stream of 17 headers, whatever the arrays held before: after
the first 16 headers nothing is counted and the 16 flags of `remove`, which are
all that `editCertFile` is handed, are false; the 17th header then indexes
`remove` at 16, outside the array, so the one mark that makes the run call
`editCertFile` is not an entry of the mask, and a run of `deleteOneCert` whose
`decodeCert` child reports these 17 records has no defined outcome. -/
theorem C23_mark_outside_the_mask (u : DeleteState) :
    (∃ s, deleteLoop (positionOnly 17) (deleteInit u) (recordLines (headerRecords 16)) =
        some s ∧
      s.totalCount = 16 ∧ s.deleteCount = 0 ∧ removeArray s = List.replicate 16 false ∧
      deleteStep (positionOnly 17) s seventeenthHeader = none) ∧
    deleteLoop (positionOnly 17) (deleteInit u) (recordLines (headerRecords 17)) = none ∧
    ∀ (env : SysEnv) (o : RunOpts) (f : EditFaults) (forceFault : Bool) (fs : FileSystem)
      (filename : Line) (file : File),
      env.uninit_state = u → o.sel = positionOnly 17 →
      fs (env.resolve filename) = some file →
      env.popen (if o.opt_path then "decodeCert -p ".toList ++ filename
        else "decodeCert ".toList ++ filename) fs = some (recordLines (headerRecords 17)) →
      deleteOneCert env o f forceFault fs filename = none := by
  have hwf : ∀ r ∈ headerRecords 16, r.WellFormed := by decide
  have hcap : (deleteInit u).totalCount + (headerRecords 16).length ≤ MAXIMUM_CERTIFICATES := by
    show 0 + (headerRecords 16).length ≤ MAXIMUM_CERTIFICATES
    decide
  obtain ⟨s, e, t, _, hr, hd⟩ :=
    deleteLoop_records_positionOnly 17 (headerRecords 16) hwf (deleteInit u) hcap
  have t16 : s.totalCount = 16 := by
    rw [t]
    rfl
  have hstep := deleteStep_header_none (positionOnly 17) s seventeenthHeader (by decide)
    (by rw [t16]; decide)
  have hnone := (deleteLoop_seventeen (positionOnly 17) u).2
  refine ⟨⟨s, e, t16, ?_, ?_, hstep⟩, hnone, ?_⟩
  · rw [hd]
    show 0 + (if ((0 : Nat) : Int) < 17 ∧ (17 : Int) ≤ ((0 : Nat) : Int) +
      ((headerRecords 16).length : Nat) then 1 else 0) = 0
    decide
  · rw [List.eq_replicate_iff]
    refine ⟨by simp [removeArray, MAXIMUM_CERTIFICATES], ?_⟩
    intro b hb
    unfold removeArray at hb
    obtain ⟨k, hk, hkb⟩ := List.mem_map.mp hb
    have hk16 : k < 16 := List.mem_range.mp hk
    have hiff := hr k (Nat.zero_le _) (by
      show k < 0 + (headerRecords 16).length
      have : (headerRecords 16).length = 16 := by decide
      omega)
    cases hv : s.remove k with
    | false => rw [← hkb]; exact hv
    | true =>
      have := hiff.mp hv
      omega
  · intro env o f forceFault fs filename file hu hsel hstat hpipe
    unfold deleteOneCert
    simp only [hstat, hpipe, hu, hsel, hnone]

set_option maxRecDepth 100000 in
/-- C18 fails on the code for the last record of a bundle whose file name holds
the text `Validity`. For the file `Validity.pem` of two certificates, the second
of which the decoder rejects, `decodeCert` prints for the second record only its
header, followed by the closing line `######## Validity.pem, 2 Certificates in
File`; the loop of `deleteOneCert` finds `Validity` in that closing line, stores
what follows as the validity message of record 2, and with only the expired
flag set marks record 2 and counts it, although its position is not the target
position; the valid record 1 is not marked. Every copy of the run fits its row. -/
theorem C18_failed_record_marked_by_expired_flag :
    WellFormedBundle [([], sampleCertA), ([], sampleCertC)] [] ∧
    validityPemEnv.openssl sampleCertC.trimmed = [] ∧
    (decodeOneCert validityPemEnv "decodeCert".toList "No such file".toList
      "Validity.pem".toList (some validityPemLines)).1 = validityPemReport ∧
    expiredOnly.delete_number = -1 ∧ expiredOnly.opt_issuer = [] ∧
    expiredOnly.opt_subject = [] ∧
    (deleteLoop expiredOnly (deleteInit sampleUninit) (pipeLines validityPemReport)).map
        (fun s => (s.totalCount, s.deleteCount, s.remove 0, s.remove 1)) =
      some (2, 1, false, true) ∧
    (deleteLoop expiredOnly (deleteInit sampleUninit) (pipeLines validityPemReport)).map
        (fun s => (s.issuer 1, s.subject 1, s.validity_message 1)) =
      some ([], [], "pem, 2 Certificates in File".toList) ∧
    loopFits expiredOnly (deleteInit sampleUninit) (pipeLines validityPemReport) = true := by
  refine ⟨by decide, by decide, by decide, rfl, rfl, rfl, by decide, by decide, by decide⟩

end CertTools
